import Mathlib

/-!
Verification of "the-feed", a personal content recommendation engine.

This file shallowly embeds the core algorithms of the repository in Lean 4
and proves (or refutes) the frozen claims about them:

* `src/lib/feed-algorithm.ts` — candidate scoring (`scoreFeedCandidates`)
  and the diversity post-pass (`applyDiversityPass`);
* `src/lib/reranker.ts` — the optional XGBoost reranker
  (`maybeApplyXGBoostReranker`, `normalizeScores`);
* `src/app/api/engagement/route.ts` — engagement ingestion (running-mean
  engagement-score update);
* `src/app/api/links/[id]/route.ts` — the PATCH update of a library entry;
* `src/lib/unfurl.ts` — the SSRF guard (`assertSafeUrl`, `isPrivateIp`,
  `ipv4ToInt`, `isBlockedHostname`) and the unfurl fetch pipeline;
* `src/app/api/unfurl/route.ts` — the POST /unfurl handler.

Modelling conventions:

* JavaScript numbers are modelled as `ℚ` (integer-valued fields as `ℤ`).
  All values of `ℚ` are finite, so the IEEE-754 special values NaN/±∞ do
  not arise; where the source explicitly branches on them we model the
  branch (see `JsNum` for the reranker's `Number.isFinite` mapping).
* The transcendental library functions `Math.exp`, `Math.log`, `Math.sqrt`
  and the clock/date functions `Date.now`, `new Date(s).getTime()` are
  modelled as unspecified rational-valued functions collected in a
  `JsRuntime` record.  Every theorem below is proved for *every*
  interpretation of these functions, so nothing depends on their values.
* JavaScript `Map`/`Set` objects are modelled as association lists with
  key-replacing insertion (`mapSet`) / plain lists, which preserves the
  observable get/has/size behaviour used by the source.
* `while` loops are modelled with explicit fuel equal to a provable bound
  on the iteration count (see `applyDiversityPass`).
-/

namespace TheFeed

/-- Unspecified models of the JavaScript runtime functions used by the
scoring code: `Math.exp`, `Math.log`, `Math.sqrt`, `Date.now()` (ms) and
`new Date(s).getTime()` (ms).  The theorems in this file hold for every
interpretation of this record. -/
structure JsRuntime where
  exp : ℚ → ℚ
  log : ℚ → ℚ
  sqrt : ℚ → ℚ
  nowMs : ℚ
  getTime : String → ℚ

/-- `Map.get` on an association-list model of a JavaScript `Map`. -/
def mapGet {α : Type} (m : List (String × α)) (k : String) : Option α :=
  m.lookup k

/-- `Map.set` on an association-list model of a JavaScript `Map`:
replaces the value of an existing key in place, otherwise appends. -/
def mapSet {α : Type} (m : List (String × α)) (k : String) (v : α) :
    List (String × α) :=
  if m.any (fun kv => kv.1 == k) then
    m.map (fun kv => if kv.1 == k then (k, v) else kv)
  else
    m ++ [(k, v)]

/-- `clamp01` from feed-algorithm.ts: `Math.max(0, Math.min(1, value))`. -/
def clamp01 (value : ℚ) : ℚ := max 0 (min 1 value)

/-- `daysSince` from feed-algorithm.ts: 999 for a null date, otherwise
`Math.floor((Date.now() - new Date(dateStr).getTime()) / 86400000)`. -/
def daysSince (env : JsRuntime) (dateStr : Option String) : ℚ :=
  match dateStr with
  | none => 999
  | some s => (⌊(env.nowMs - env.getTime s) / ((1000 * 60 * 60 * 24 : ℕ) : ℚ)⌋ : ℤ)

/-- `FeedLink` (src/types/index.ts), restricted to the fields read by the
ranking pipeline.  `categories`/`embedding`/`lastShownAt`/`likedAt` are
nullable in the source and become `Option`s. -/
structure FeedLink where
  id : String
  contentType : String
  categories : Option (List String)
  addedAt : String
  lastShownAt : Option String
  shownCount : ℤ
  embedding : Option (List ℚ)
  engagementScore : ℚ
  avgDwellMs : ℚ
  openCount : ℤ
  likedAt : Option String
  deriving DecidableEq, Repr

/-- `ScoreBreakdown` from feed-algorithm.ts. -/
structure ScoreBreakdown where
  engagement : ℚ
  semantic : ℚ
  session : ℚ
  timePref : ℚ
  freshness : ℚ
  exploration : ℚ
  deriving DecidableEq, Repr

/-- `TimePreference` from feed-algorithm.ts. -/
structure TimePreference where
  category : String
  avgEngagement : ℚ
  sampleCount : ℤ
  deriving DecidableEq, Repr

/-- `SessionContext` from feed-algorithm.ts. -/
structure SessionContext where
  engagedLinkIds : List String
  engagedCategories : List String
  skippedCategories : List String
  engagedEmbeddings : List (List ℚ)
  cardsShown : ℤ
  deriving DecidableEq, Repr

/-- `RankingCandidate` from feed-algorithm.ts.  The `features`
`Record<string, number>` is modelled as an association list in insertion
order. -/
structure RankingCandidate where
  link : FeedLink
  score : ℚ
  baseScore : ℚ
  rerankScore : Option ℚ
  breakdown : ScoreBreakdown
  features : List (String × ℚ)
  deriving DecidableEq, Repr

/-- `SessionSignalMaps` from feed-algorithm.ts. -/
structure SessionSignalMaps where
  engagedCategorySet : List String
  skippedCategorySet : List String
  engagedCategoryWeights : List (String × ℚ)
  skippedCategoryWeights : List (String × ℚ)

/-- `CategoryBanditStat` from feed-algorithm.ts. -/
structure CategoryBanditStat where
  shown : ℤ
  engagementSum : ℚ

/-- `DatasetStats` from feed-algorithm.ts. -/
structure DatasetStats where
  totalShown : ℤ
  globalEngagementMean : ℚ
  contentTypeMeans : List (String × ℚ)
  categoryBandits : List (String × CategoryBanditStat)

/-- `ScoringWeights` from feed-algorithm.ts. -/
structure ScoringWeights where
  engagement : ℚ
  semantic : ℚ
  session : ℚ
  timePref : ℚ
  freshness : ℚ
  exploration : ℚ

/-- `SessionScoreContext` from feed-algorithm.ts. -/
structure SessionScoreContext where
  score : ℚ
  momentum : ℚ
  skip : ℚ
  fatigue : ℚ
  sameLaneBoost : ℚ

/-- `ExplorationContext` from feed-algorithm.ts. -/
structure ExplorationContext where
  score : ℚ
  uncertainty : ℚ
  categoryNovelty : ℚ
  sessionNovelty : ℚ

/-- `BASE_WEIGHTS` from feed-algorithm.ts. -/
def BASE_WEIGHTS : ScoringWeights :=
  { engagement := 30/100, semantic := 25/100, session := 20/100,
    timePref := 10/100, freshness := 10/100, exploration := 5/100 }

/-- `SESSION_SIGNAL_RECENCY_DECAY = 0.92`. -/
def SESSION_SIGNAL_RECENCY_DECAY : ℚ := 92/100

/-- `UCB_EXPLORATION_COEFFICIENT = 0.28`. -/
def UCB_EXPLORATION_COEFFICIENT : ℚ := 28/100

/-- The intermediate accumulator of `buildDatasetStats` (the
`contentTypeTotals` entries `{ weightedSum, shown }`). -/
structure TypeAgg where
  weightedSum : ℚ
  shown : ℤ

/-- `buildDatasetStats` from feed-algorithm.ts: single pass over the
candidate set accumulating `totalShown`, the global engagement sum, the
per-content-type totals and the per-category bandit stats, then the mean
computations. -/
def buildDatasetStats (links : List FeedLink) : DatasetStats :=
  let step := fun (acc : ℤ × ℚ × List (String × TypeAgg) × List (String × CategoryBanditStat))
      (link : FeedLink) =>
    let totalShown := acc.1
    let globalEngagementSum := acc.2.1
    let contentTypeTotals := acc.2.2.1
    let categoryBandits := acc.2.2.2
    let shown := max 0 link.shownCount
    let weightedEngagement := clamp01 link.engagementScore * (shown : ℚ)
    let next :=
      if 0 < shown then
        let typeAgg := (mapGet contentTypeTotals link.contentType).getD ⟨0, 0⟩
        (totalShown + shown, globalEngagementSum + weightedEngagement,
          mapSet contentTypeTotals link.contentType
            ⟨typeAgg.weightedSum + weightedEngagement, typeAgg.shown + shown⟩)
      else (totalShown, globalEngagementSum, contentTypeTotals)
    let categories := link.categories.getD []
    let categoryBandits := categories.foldl (fun b category =>
      let current := (mapGet b category).getD ⟨0, 0⟩
      mapSet b category ⟨current.shown + shown, current.engagementSum + weightedEngagement⟩)
      categoryBandits
    (next.1, next.2.1, next.2.2, categoryBandits)
  let acc := links.foldl step (0, 0, [], [])
  let totalShown := acc.1
  let globalEngagementMean : ℚ :=
    if 0 < totalShown then acc.2.1 / (totalShown : ℚ) else 1/2
  { totalShown := totalShown
    globalEngagementMean := globalEngagementMean
    contentTypeMeans := acc.2.2.1.map (fun kv =>
      (kv.1, if 0 < kv.2.shown then kv.2.weightedSum / ((kv.2.shown : ℤ) : ℚ)
             else globalEngagementMean))
    categoryBandits := acc.2.2.2 }

/-- `buildWeightedCategoryMap` from feed-algorithm.ts: each occurrence of a
category is weighted by `0.92 ^ (length - 1 - index)` and the weights are
summed per category. -/
def buildWeightedCategoryMap (categories : List String) : List (String × ℚ) :=
  categories.enum.foldl (fun weighted p =>
    let distanceFromTail := categories.length - 1 - p.1
    let weight := SESSION_SIGNAL_RECENCY_DECAY ^ distanceFromTail
    mapSet weighted p.2 ((mapGet weighted p.2).getD 0 + weight)) []

/-- `buildSessionSignalMaps` from feed-algorithm.ts. -/
def buildSessionSignalMaps (session : SessionContext) : SessionSignalMaps :=
  { engagedCategorySet := session.engagedCategories
    skippedCategorySet := session.skippedCategories
    engagedCategoryWeights := buildWeightedCategoryMap session.engagedCategories
    skippedCategoryWeights := buildWeightedCategoryMap session.skippedCategories }

/-- `buildTimePreferenceMap` from feed-algorithm.ts: ignores preferences
with fewer than 3 samples and keeps the maximal `avgEngagement` per
category. -/
def buildTimePreferenceMap (timePrefs : List TimePreference) : List (String × ℚ) :=
  timePrefs.foldl (fun preferenceScores pref =>
    if pref.sampleCount < 3 then preferenceScores
    else
      let current := (mapGet preferenceScores pref.category).getD 0
      if current < pref.avgEngagement then
        mapSet preferenceScores pref.category pref.avgEngagement
      else preferenceScores) []

/-- `normalizeWeights` from feed-algorithm.ts. -/
def normalizeWeights (weights : ScoringWeights) : ScoringWeights :=
  let sum := weights.engagement + weights.semantic + weights.session +
    weights.timePref + weights.freshness + weights.exploration
  if sum ≤ 0 then BASE_WEIGHTS
  else
    { engagement := weights.engagement / sum
      semantic := weights.semantic / sum
      session := weights.session / sum
      timePref := weights.timePref / sum
      freshness := weights.freshness / sum
      exploration := weights.exploration / sum }

/-- `deriveWeights` from feed-algorithm.ts (its options object passed as
three arguments). -/
def deriveWeights (hasSemantic : Bool) (hasTimePrefs : Bool) (cardsShown : ℤ) :
    ScoringWeights :=
  let weights := BASE_WEIGHTS
  let weights :=
    if ¬hasSemantic then
      { weights with
        engagement := weights.engagement + 11/100
        session := weights.session + 8/100
        exploration := weights.exploration + 6/100
        semantic := 0 }
    else weights
  let weights :=
    if ¬hasTimePrefs then
      { weights with
        engagement := weights.engagement + 5/100
        freshness := weights.freshness + 5/100
        timePref := 0 }
    else weights
  let weights :=
    if cardsShown = 0 then
      { weights with
        freshness := weights.freshness + weights.session * (60/100)
        exploration := weights.exploration + weights.session * (40/100)
        session := 0 }
    else if 24 < cardsShown then
      let shift := weights.exploration * (50/100)
      { weights with
        exploration := weights.exploration - shift
        engagement := weights.engagement + shift * (60/100)
        session := weights.session + shift * (40/100) }
    else weights
  normalizeWeights weights

/-- `getCategoryPrior` from feed-algorithm.ts. -/
def getCategoryPrior (categories : List String) (stats : DatasetStats) : ℚ :=
  if categories.isEmpty then stats.globalEngagementMean
  else
    clamp01 (categories.foldl (fun best category =>
      match mapGet stats.categoryBandits category with
      | none => best
      | some stat =>
        if stat.shown ≤ 0 then best
        else max best (stat.engagementSum / ((stat.shown : ℤ) : ℚ))) stats.globalEngagementMean)

/-- `getPrimaryCategory` from feed-algorithm.ts: `categories[0]` when
present, else null. -/
def getPrimaryCategory (link : FeedLink) : Option String :=
  (link.categories.getD []).head?

/-- `engagementPredictScore` from feed-algorithm.ts. -/
def engagementPredictScore (env : JsRuntime) (link : FeedLink) (stats : DatasetStats) : ℚ :=
  let shown := max 0 link.shownCount
  let typeMean := (mapGet stats.contentTypeMeans link.contentType).getD stats.globalEngagementMean
  let likedBoost : ℚ := if link.likedAt.isSome then 8/100 else 0
  if shown = 0 then
    let coldStart := 58/100 + (typeMean - 1/2) * (20/100)
    clamp01 (coldStart + likedBoost)
  else
    let recencySignal :=
      match link.lastShownAt with
      | some d => env.exp (-(daysSince env (some d)) / 30)
      | none => 55/100
    let openRate := min 1 ((link.openCount : ℚ) / ((max 1 shown : ℤ) : ℚ))
    let openSignal := openRate * (20/100)
    let baseline :=
      if 0 < link.engagementScore then
        link.engagementScore * (72/100) + typeMean * (28/100)
      else typeMean * (90/100)
    let overShownPenalty := min (22/100) (max 0 ((shown : ℚ) - 10) * (15/1000))
    clamp01 (baseline * (67/100) + recencySignal * (23/100) + openSignal +
      likedBoost - overShownPenalty)

/-- `cosineSimilarity` from src/lib/ai.ts: 0 for mismatched or empty
vectors, 0 for a zero denominator, else the normalized dot product. -/
def cosineSimilarity (env : JsRuntime) (a b : List ℚ) : ℚ :=
  if a.length ≠ b.length ∨ a.length = 0 then 0
  else
    let dotProduct := ((a.zip b).map (fun p => p.1 * p.2)).sum
    let normA := (a.map (fun x => x * x)).sum
    let normB := (b.map (fun x => x * x)).sum
    let denominator := env.sqrt normA * env.sqrt normB
    if denominator = 0 then 0 else dotProduct / denominator

/-- `semanticMatchScore` from feed-algorithm.ts.  The source's single loop
maintaining a running max (from 0) and sum is written as a map followed by
`foldl max 0` and `sum`. -/
def semanticMatchScore (env : JsRuntime) (link : FeedLink)
    (engagedEmbeddings : List (List ℚ)) : ℚ :=
  match link.embedding with
  | none => 1/2
  | some linkEmbedding =>
    if engagedEmbeddings.isEmpty then 1/2
    else
      let sims := engagedEmbeddings.map (fun engaged =>
        clamp01 ((cosineSimilarity env linkEmbedding engaged + 1) / 2))
      let maxSim := sims.foldl max 0
      let avgSim := sims.sum / ((engagedEmbeddings.length : ℕ) : ℚ)
      clamp01 (maxSim * (65/100) + avgSim * (35/100))

/-- `sessionContextScore` from feed-algorithm.ts. -/
def sessionContextScore (link : FeedLink) (session : SessionContext)
    (signalMaps : SessionSignalMaps) : SessionScoreContext :=
  if session.cardsShown = 0 then ⟨1/2, 0, 0, 0, 0⟩
  else
    let linkCats := link.categories.getD []
    if linkCats.isEmpty then ⟨1/2, 0, 0, 0, 0⟩
    else
      let acc := linkCats.foldl (fun (acc : ℚ × ℚ × ℚ) category =>
        let engagedWeight := (mapGet signalMaps.engagedCategoryWeights category).getD 0
        let skippedWeight := (mapGet signalMaps.skippedCategoryWeights category).getD 0
        (acc.1 + engagedWeight, acc.2.1 + skippedWeight,
          acc.2.2 + max 0 (engagedWeight - 2))) (0, 0, 0)
      let momentum := acc.1
      let skip := acc.2.1
      let fatigue := acc.2.2
      let sameLaneBoost : ℚ :=
        if linkCats.any (fun cat => signalMaps.engagedCategorySet.contains cat) then 4/100
        else 0
      let score := 1/2 + min (32/100) (momentum * (7/100)) -
        min (34/100) (skip * (10/100)) - min (20/100) (fatigue * (4/100)) + sameLaneBoost
      ⟨clamp01 score, momentum, skip, fatigue, sameLaneBoost⟩

/-- `timePreferenceScore` from feed-algorithm.ts. -/
def timePreferenceScore (link : FeedLink) (preferenceScores : List (String × ℚ)) : ℚ :=
  if preferenceScores.isEmpty then 1/2
  else
    let linkCats := link.categories.getD []
    if linkCats.isEmpty then 1/2
    else
      let bestScore := linkCats.foldl (fun bestScore cat =>
        match mapGet preferenceScores cat with
        | some score => max bestScore score
        | none => bestScore) 0
      if bestScore = 0 then 1/2 else clamp01 bestScore

/-- `freshnessScore` from feed-algorithm.ts. -/
def freshnessScore (env : JsRuntime) (link : FeedLink) : ℚ :=
  let days := daysSince env (some link.addedAt)
  let ageScore : ℚ :=
    if days < 1 then 72/100
    else if days < 14 then 56/100
    else if days ≤ 56 then 88/100
    else if days ≤ 120 then 42/100
    else 25/100
  let showPenalty := min (35/100) (((max 0 link.shownCount : ℤ) : ℚ) * (28/1000))
  let likedBoost : ℚ := if link.likedAt.isSome then 8/100 else 0
  clamp01 (ageScore - showPenalty + likedBoost)

/-- `explorationScore` from feed-algorithm.ts. -/
def explorationScore (env : JsRuntime) (link : FeedLink) (stats : DatasetStats)
    (signalMaps : SessionSignalMaps) : ExplorationContext :=
  let shown := max 0 link.shownCount
  let linkCats := link.categories.getD []
  let categoryPrior := getCategoryPrior linkCats stats
  let meanEstimate := if 0 < shown then clamp01 link.engagementScore else clamp01 categoryPrior
  let uncertainty := env.sqrt (env.log ((stats.totalShown : ℚ) + 2) / ((shown : ℚ) + 1))
  let categoryNovelty := linkCats.foldl (fun categoryNovelty category =>
    let categoryShown := (((mapGet stats.categoryBandits category).map
      (fun stat => stat.shown)).getD 0)
    max categoryNovelty (1 / env.sqrt ((categoryShown : ℚ) + 1))) 0
  let unseenInSession := !linkCats.isEmpty && linkCats.all (fun cat =>
    !signalMaps.engagedCategorySet.contains cat &&
    !signalMaps.skippedCategorySet.contains cat)
  let sessionNovelty : ℚ := if unseenInSession then 8/100 else 0
  let score := clamp01 (meanEstimate + UCB_EXPLORATION_COEFFICIENT * uncertainty +
    (14/100) * categoryNovelty + sessionNovelty)
  ⟨score, uncertainty, categoryNovelty, sessionNovelty⟩

/-- The names of the 21 features, in the insertion order of the
`features` record built by `scoreFeedCandidates`. -/
def featureNames : List String :=
  ["f_engagement", "f_semantic", "f_session", "f_time_pref", "f_freshness",
   "f_exploration", "f_shown_count_norm", "f_open_rate",
   "f_days_since_added_norm", "f_is_liked", "f_is_unseen",
   "f_category_count_norm", "f_has_embedding", "f_content_type_prior",
   "f_session_momentum", "f_session_skip_pressure", "f_session_fatigue",
   "f_session_same_lane_boost", "f_ucb_uncertainty", "f_category_novelty",
   "f_session_novelty"]

/-- The body of the `links.map` in `scoreFeedCandidates`: signal scores,
base score, feature map and candidate record for one link. -/
def scoreOneLink (env : JsRuntime) (stats : DatasetStats)
    (signalMaps : SessionSignalMaps) (preferenceScores : List (String × ℚ))
    (weights : ScoringWeights) (session : SessionContext) (link : FeedLink) :
    RankingCandidate :=
  let engagement := engagementPredictScore env link stats
  let semantic := semanticMatchScore env link session.engagedEmbeddings
  let sessionCtx := sessionContextScore link session signalMaps
  let timePref := timePreferenceScore link preferenceScores
  let freshness := freshnessScore env link
  let explorationCtx := explorationScore env link stats signalMaps
  let baseScore :=
    engagement * weights.engagement +
    semantic * weights.semantic +
    sessionCtx.score * weights.session +
    timePref * weights.timePref +
    freshness * weights.freshness +
    explorationCtx.score * weights.exploration
  let shown := max 0 link.shownCount
  let daysAdded := daysSince env (some link.addedAt)
  let categories := link.categories.getD []
  let openRate := min 1 ((link.openCount : ℚ) / ((max 1 shown : ℤ) : ℚ))
  let typePrior :=
    (mapGet stats.contentTypeMeans link.contentType).getD stats.globalEngagementMean
  let features : List (String × ℚ) :=
    [("f_engagement", engagement),
     ("f_semantic", semantic),
     ("f_session", sessionCtx.score),
     ("f_time_pref", timePref),
     ("f_freshness", freshness),
     ("f_exploration", explorationCtx.score),
     ("f_shown_count_norm", clamp01 ((shown : ℚ) / 20)),
     ("f_open_rate", openRate),
     ("f_days_since_added_norm", clamp01 (daysAdded / 120)),
     ("f_is_liked", if link.likedAt.isSome then 1 else 0),
     ("f_is_unseen", if shown = 0 then 1 else 0),
     ("f_category_count_norm", clamp01 ((categories.length : ℚ) / 4)),
     ("f_has_embedding", if link.embedding.isSome then 1 else 0),
     ("f_content_type_prior", clamp01 typePrior),
     ("f_session_momentum", clamp01 (sessionCtx.momentum / 5)),
     ("f_session_skip_pressure", clamp01 (sessionCtx.skip / 5)),
     ("f_session_fatigue", clamp01 (sessionCtx.fatigue / 4)),
     ("f_session_same_lane_boost", sessionCtx.sameLaneBoost),
     ("f_ucb_uncertainty", clamp01 (explorationCtx.uncertainty / 3)),
     ("f_category_novelty", clamp01 explorationCtx.categoryNovelty),
     ("f_session_novelty", explorationCtx.sessionNovelty)]
  { link := link
    score := baseScore
    baseScore := baseScore
    rerankScore := none
    breakdown :=
      ⟨engagement, semantic, sessionCtx.score, timePref, freshness, explorationCtx.score⟩
    features := features }

/-- `isTripleRun` — the loop condition inside `applyDiversityPass`: the
candidate's primary category is non-null and equals the last two recently
picked primary categories. -/
def isTripleRun (link : FeedLink) (recentPrimaryCats : List String) : Bool :=
  match getPrimaryCategory link with
  | none => false
  | some primaryCat =>
    decide (2 ≤ recentPrimaryCats.length) &&
    (recentPrimaryCats.getLast? == some primaryCat) &&
    (recentPrimaryCats[recentPrimaryCats.length - 2]? == some primaryCat)

/-- The inner `for` loop of `applyDiversityPass`: index of the first
remaining candidate with `!isTripleRun || i > 7`, if any. -/
def pickIdxAux (remaining : List RankingCandidate) (recentPrimaryCats : List String)
    (i : ℕ) : Option ℕ :=
  match remaining with
  | [] => none
  | c :: rest =>
    if !isTripleRun c.link recentPrimaryCats || decide (7 < i) then some i
    else pickIdxAux rest recentPrimaryCats (i + 1)

/-- The index finally picked by one step of `applyDiversityPass`
(`picked`, with the `picked === -1 → 0` fallback). -/
def pickIdx (remaining : List RankingCandidate) (recentPrimaryCats : List String) : ℕ :=
  (pickIdxAux remaining recentPrimaryCats 0).getD 0

/-- Push the picked item's primary category onto `recentPrimaryCats`
(nulls are not pushed). -/
def pushRecent (recentPrimaryCats : List String) (item : RankingCandidate) :
    List String :=
  match getPrimaryCategory item.link with
  | some primaryCat => recentPrimaryCats ++ [primaryCat]
  | none => recentPrimaryCats

/-- The `while (remaining.length > 0)` loop of `applyDiversityPass`,
with explicit fuel.  Each iteration removes exactly one element, so fuel
equal to the initial length runs the loop to completion. -/
def dpGo : ℕ → List RankingCandidate → List String → List RankingCandidate
  | 0, _, _ => []
  | _ + 1, [], _ => []
  | fuel + 1, c :: rest, recentPrimaryCats =>
    let remaining := c :: rest
    let picked := pickIdx remaining recentPrimaryCats
    let item := remaining.getD picked c
    item :: dpGo fuel (remaining.eraseIdx picked) (pushRecent recentPrimaryCats item)

/-- `applyDiversityPass` from feed-algorithm.ts. -/
def applyDiversityPass (rankedCandidates : List RankingCandidate) :
    List RankingCandidate :=
  dpGo rankedCandidates.length rankedCandidates []

/-- The trace of loop states of `applyDiversityPass`: the pair
`(remaining, recentPrimaryCats)` at the beginning of each iteration of the
`while` loop, in order.  One state is recorded per picked item, so the
state at index `k` is the state from which output element `k` was
picked. -/
def dpStates : ℕ → List RankingCandidate → List String →
    List (List RankingCandidate × List String)
  | 0, _, _ => []
  | _ + 1, [], _ => []
  | fuel + 1, c :: rest, recentPrimaryCats =>
    let remaining := c :: rest
    let picked := pickIdx remaining recentPrimaryCats
    let item := remaining.getD picked c
    (remaining, recentPrimaryCats) ::
      dpStates fuel (remaining.eraseIdx picked) (pushRecent recentPrimaryCats item)

/-- The primary category of the candidate at position `j` of a list
(`none` when out of range or when the candidate has no categories). -/
def primaryAt (out : List RankingCandidate) (j : ℕ) : Option String :=
  match out[j]? with
  | some c => getPrimaryCategory c.link
  | none => none

/-- Positions `j`, `j+1`, `j+2` of the list hold three consecutive
candidates with the same (non-null) primary category. -/
def tripleAt (out : List RankingCandidate) (j : ℕ) : Prop :=
  (primaryAt out j).isSome = true ∧
  primaryAt out j = primaryAt out (j + 1) ∧
  primaryAt out (j + 1) = primaryAt out (j + 2)

instance (out : List RankingCandidate) (j : ℕ) : Decidable (tripleAt out j) := by
  unfold tripleAt
  infer_instance

/-- A minimal `FeedLink` fixture used for concrete evaluations. -/
def plainLink (id : String) (cats : List String) : FeedLink :=
  { id := id, contentType := "article", categories := some cats,
    addedAt := "2025-01-01", lastShownAt := none, shownCount := 0,
    embedding := none, engagementScore := 0, avgDwellMs := 0, openCount := 0,
    likedAt := none }

/-- A minimal `RankingCandidate` fixture used for concrete evaluations. -/
def plainCand (id : String) (cats : List String) : RankingCandidate :=
  { link := plainLink id cats, score := 0, baseScore := 0, rerankScore := none,
    breakdown := ⟨0, 0, 0, 0, 0, 0⟩, features := [] }

/-- Default candidate used as the (never-relevant) `getD` default in
statements about list positions. -/
def dummyCand : RankingCandidate := plainCand "" []

/-- Nine ranked candidates whose primary category is all `"A"`. -/
def dpNineAs : List RankingCandidate := List.replicate 9 (plainCand "x" ["A"])

/-- Eleven ranked candidates whose primary category is all `"A"`. -/
def dpElevenAs : List RankingCandidate := List.replicate 11 (plainCand "x" ["A"])

/-- A recent-primary-categories list holding two `"A"`s. -/
def recTwoA : List String := ["A", "A"]

/-- A fixture interpretation of the JavaScript runtime functions, used
only to instantiate theorems at concrete inputs. -/
def envZero : JsRuntime :=
  { exp := fun _ => 0, log := fun _ => 0, sqrt := fun _ => 0, nowMs := 0,
    getTime := fun _ => 0 }

/-- The empty session context (the default value in the source). -/
def sessionZero : SessionContext :=
  { engagedLinkIds := [], engagedCategories := [], skippedCategories := [],
    engagedEmbeddings := [], cardsShown := 0 }

/-- `ScoringOptions` from feed-algorithm.ts (`applyDiversity?: boolean`). -/
structure ScoringOptions where
  applyDiversity : Option Bool
  deriving DecidableEq, Repr

/-- The `scored`/`sorted` pipeline of `scoreFeedCandidates`: build stats,
session-signal maps, time-preference map and weights, score every link,
and sort by descending score (a stable sort, modelling the V8
`Array.prototype.sort`).  The source binds `buildTimePreferenceMap
timePrefs` to a local once; it is pure, so writing it twice is
observationally identical. -/
def sortedCandidates (env : JsRuntime) (links : List FeedLink)
    (session : SessionContext) (timePrefs : List TimePreference) :
    List RankingCandidate :=
  (links.map (scoreOneLink env (buildDatasetStats links)
    (buildSessionSignalMaps session) (buildTimePreferenceMap timePrefs)
    (deriveWeights (!session.engagedEmbeddings.isEmpty)
      (!(buildTimePreferenceMap timePrefs).isEmpty) session.cardsShown)
    session)).mergeSort (fun a b => decide (b.score ≤ a.score))

/-- `scoreFeedCandidates` from feed-algorithm.ts: empty input yields `[]`;
otherwise score and sort (`sortedCandidates`) and apply the diversity pass
unless `options.applyDiversity === false`. -/
def scoreFeedCandidates (env : JsRuntime) (links : List FeedLink)
    (session : SessionContext) (timePrefs : List TimePreference)
    (options : ScoringOptions) : List RankingCandidate :=
  if links.isEmpty then []
  else if options.applyDiversity = some false then
    sortedCandidates env links session timePrefs
  else applyDiversityPass (sortedCandidates env links session timePrefs)


/-! ## Engagement ingestion (claims C7, C10) -/

/-- The SQL `CASE` expression with which POST /api/engagement updates a
row's `engagementScore` for a dwell event (engagement/route.ts): the raw
`interactionScore` when the row's current `shownCount <= 1`, otherwise the
running mean `(engagementScore * (shownCount - 1) + interactionScore) /
shownCount`, evaluated server-side against the current row. -/
def engagementScoreUpdate (shownCount : ℤ) (engagementScore interactionScore : ℚ) : ℚ :=
  if shownCount ≤ 1 then interactionScore
  else (engagementScore * ((shownCount : ℚ) - 1) + interactionScore) / (shownCount : ℚ)

/-- `computeEngagementScore` from engagement/route.ts: a log-scaled dwell
component capped at 0.7, minus a swipe-velocity penalty capped at 0.2,
clamped to [0,1]. -/
def computeEngagementScore (env : JsRuntime) (dwellTimeMs : ℚ)
    (swipeVelocity : Option ℚ) : ℚ :=
  let dwellSeconds := dwellTimeMs / 1000
  let dwellScore := min (7/10) (env.log (1 + dwellSeconds) / env.log (1 + 120) * (7/10))
  let score := dwellScore
  let score :=
    match swipeVelocity with
    | some velocity => score - min (2/10) (max 0 ((velocity - 5/10) * (1/10)))
    | none => score
  max 0 (min 1 score)

/-- `n` engagement-score updates with a fixed `shownCount = k` and a
constant interaction score `s`, starting from engagement score 0 (the
scenario of claim C7). -/
def iterateEngagement (k : ℤ) (s : ℚ) : ℕ → ℚ
  | 0 => 0
  | n + 1 => engagementScoreUpdate k (iterateEngagement k s n) s

/-- The row fields of a library entry read or written by
PATCH /api/links/[id] and by impression ingestion in
POST /api/engagement.  Timestamps are epoch milliseconds. -/
structure LinkRow where
  status : String
  archivedAt : Option ℚ
  shownCount : ℤ
  lastShownAt : Option ℚ
  likedAt : Option ℚ
  openCount : ℤ
  deriving DecidableEq, Repr

/-- The JSON body of PATCH /api/links/[id].  `shownCount` is the value of
`Number.parseInt(String(body.shownCount), 10)` when it parses (`none`
models both an absent field and a NaN parse, which the source skips);
`incrementShown` is the truthiness of `body.incrementShown`; `liked`
distinguishes `=== true`, `=== false` and anything else. -/
structure PatchBody where
  status : Option String
  shownCount : Option ℤ
  incrementShown : Bool
  liked : Option Bool
  deriving DecidableEq, Repr

/-- The `updates.shownCount` entry assembled by PATCH: either a constant
(`Math.max(0, parsed)`) or the server-side SQL `shownCount + 1`. -/
inductive ShownCountUpdate
  | setTo (n : ℤ)
  | increment
  deriving DecidableEq, Repr

/-- `PATCH /api/links/[id]` (links/[id]/route.ts): assemble the `updates`
record in source order (`incrementShown` overwrites a `shownCount`
entry assembled earlier), return `none` when no updates were provided
(the HTTP 400 branch), else the updated row. -/
def applyPatch (now : ℚ) (body : PatchBody) (row : LinkRow) : Option LinkRow :=
  let updStatus : Option String :=
    if body.status = some "archived" then some "archived" else none
  let updArchivedAt : Option (Option ℚ) :=
    if body.status = some "archived" then some (some now) else none
  let updShown0 : Option ShownCountUpdate :=
    match body.shownCount with
    | some n => some (ShownCountUpdate.setTo (max 0 n))
    | none => none
  let updLast0 : Option ℚ :=
    match body.shownCount with
    | some _ => some now
    | none => none
  let updLiked : Option (Option ℚ) :=
    match body.liked with
    | some true => some (some now)
    | some false => some none
    | none => none
  let updShown : Option ShownCountUpdate :=
    if body.incrementShown then some ShownCountUpdate.increment else updShown0
  let updLast : Option ℚ := if body.incrementShown then some now else updLast0
  if !(updStatus.isSome || updArchivedAt.isSome || updShown.isSome ||
      updLast.isSome || updLiked.isSome) then none
  else
    some { status := updStatus.getD row.status
           archivedAt := updArchivedAt.getD row.archivedAt
           shownCount :=
             match updShown with
             | some (ShownCountUpdate.setTo n) => n
             | some ShownCountUpdate.increment => row.shownCount + 1
             | none => row.shownCount
           lastShownAt :=
             match updLast with
             | some t => some t
             | none => row.lastShownAt
           likedAt := updLiked.getD row.likedAt
           openCount := row.openCount }

/-- The impression-count update of POST /api/engagement for one linkId:
`shownCount = shownCount + count`, `lastShownAt = now`, where `count` is
the number of impression events for that link in the batch. -/
def applyImpressions (now : ℚ) (count : ℕ) (row : LinkRow) : LinkRow :=
  { row with shownCount := row.shownCount + (count : ℤ), lastShownAt := some now }

/-- A library-entry row with `shownCount = 5` (fixture). -/
def rowShownFive : LinkRow :=
  { status := "active", archivedAt := none, shownCount := 5,
    lastShownAt := none, likedAt := none, openCount := 0 }

/-- `rowShownFive` after `PATCH { incrementShown: true }` at time 0. -/
def rowShownSix : LinkRow :=
  { status := "active", archivedAt := none, shownCount := 6,
    lastShownAt := some 0, likedAt := none, openCount := 0 }

/-! ## Reranker (claims C8, C9) -/

/-- A JavaScript number as classified by `Number.isFinite`: a finite
value (`ℚ`) or one of the non-finite values NaN/±Infinity, which
`normalizeScores` treats identically (they are replaced by 0). -/
inductive JsNum
  | num (q : ℚ)
  | nonfinite
  deriving DecidableEq, Repr

/-- `Number.isFinite(score) ? score : 0` from `normalizeScores`. -/
def JsNum.toFinite : JsNum → ℚ
  | num q => q
  | nonfinite => 0

/-- The `min` fold of `normalizeScores`: `min` starts at
`Number.POSITIVE_INFINITY` (modelled as `none`) and takes `Math.min` with
every score; `Number.isFinite(min)` is `isSome` of the result. -/
def foldMinQ (l : List ℚ) : Option ℚ :=
  l.foldl (fun acc x =>
    match acc with
    | none => some x
    | some m => some (min m x)) none

/-- The `max` fold of `normalizeScores` (initial value
`Number.NEGATIVE_INFINITY`, modelled as `none`). -/
def foldMaxQ (l : List ℚ) : Option ℚ :=
  l.foldl (fun acc x =>
    match acc with
    | none => some x
    | some m => some (max m x)) none

/-- `normalizeScores` from reranker.ts: replace non-finite scores by 0;
if the min/max over the result are not finite or `max - min < 1e-9`,
return the all-0.5 vector, else min-max normalize. -/
def normalizeScores (scores : List JsNum) : List ℚ :=
  if scores.isEmpty then []
  else
    let finiteScores := scores.map JsNum.toFinite
    match foldMinQ finiteScores, foldMaxQ finiteScores with
    | some mn, some mx =>
      if mx - mn < 1/1000000000 then finiteScores.map (fun _ => 1/2)
      else finiteScores.map (fun score => (score - mn) / (mx - mn))
    | _, _ => finiteScores.map (fun _ => 1/2)

/-- `XGBoostTreeNode` from reranker.ts.  `defaultLeft?` is optional in
the source; its absence is falsy, so it is modelled as `Bool`.  `leaf`
is present (a number) exactly on leaf nodes. -/
structure XGBoostTreeNode where
  left : ℤ
  right : ℤ
  feature : ℕ
  threshold : ℚ
  defaultLeft : Bool
  leaf : Option ℚ
  deriving DecidableEq, Repr

/-- `XGBoostTree` from reranker.ts. -/
structure XGBoostTree where
  nodes : List XGBoostTreeNode
  deriving DecidableEq, Repr

/-- The three admissible `objective` strings of the model format. -/
inductive XGBObjective
  | binaryLogistic
  | regSquaredError
  | rankPairwise
  deriving DecidableEq, Repr

/-- `XGBoostRerankerModel` from reranker.ts. -/
structure XGBoostRerankerModel where
  version : String
  objective : XGBObjective
  featureOrder : List String
  baseScore : ℚ
  trees : List XGBoostTree
  deriving DecidableEq, Repr

/-- The `while (guard < 2048)` walk of `evaluateTree`: at each step look
up the current node (a negative or out-of-range index is `undefined`,
returning 0), return the leaf value on a leaf, else step left iff
`featureValue < threshold` (`ℚ` has no NaN, so the `Number.isNaN`
branch choosing `defaultLeft` cannot fire), returning 0 on a negative
next index; 0 when the guard is exhausted. -/
def evalTreeGo (tree : XGBoostTree) (featureVector : List ℚ) :
    ℕ → ℤ → ℚ
  | 0, _ => 0
  | g + 1, nodeIndex =>
    match (if 0 ≤ nodeIndex then tree.nodes[nodeIndex.toNat]? else none) with
    | none => 0
    | some node =>
      match node.leaf with
      | some leafValue => leafValue
      | none =>
        let featureValue := featureVector.getD node.feature 0
        let goLeft := featureValue < node.threshold
        let nextIndex := if goLeft then node.left else node.right
        if nextIndex < 0 then 0 else evalTreeGo tree featureVector g nextIndex

/-- `evaluateTree` from reranker.ts. -/
def evaluateTree (tree : XGBoostTree) (featureVector : List ℚ) : ℚ :=
  if tree.nodes.isEmpty then 0 else evalTreeGo tree featureVector 2048 0

/-- `sigmoid` from reranker.ts. -/
def sigmoid (env : JsRuntime) (value : ℚ) : ℚ :=
  1 / (1 + env.exp (-value))

/-- `predictWithModel` from reranker.ts. -/
def predictWithModel (env : JsRuntime) (features : List (String × ℚ))
    (model : XGBoostRerankerModel) : ℚ :=
  let vector := model.featureOrder.map (fun name => (mapGet features name).getD 0)
  let margin := model.trees.foldl
    (fun margin tree => margin + evaluateTree tree vector) model.baseScore
  match model.objective with
  | XGBObjective.binaryLogistic => sigmoid env margin
  | _ => margin

/-- `RerankerApplyResult` from reranker.ts. -/
structure RerankerApplyResult where
  candidates : List RankingCandidate
  rerankerVersion : Option String
  applied : Bool
  deriving DecidableEq, Repr

/-- The `reranked` list built inside `maybeApplyXGBoostReranker`: each
candidate is rescored with `modelScore = normalizedScores[index] ?? 0.5`,
`rerankScore = modelScore` and the 0.35/0.65 blend.  In this model
`predictWithModel` always yields a finite number, wrapped in
`JsNum.num`. -/
def rerankCandidates (env : JsRuntime) (model : XGBoostRerankerModel)
    (candidates : List RankingCandidate) : List RankingCandidate :=
  candidates.mapIdx (fun index c =>
    let modelScore := ((normalizeScores (candidates.map
      (fun c2 => JsNum.num (predictWithModel env c2.features model))))[index]?).getD (1/2)
    { c with rerankScore := some modelScore,
             score := c.baseScore * (35/100) + modelScore * (65/100) })

/-- `maybeApplyXGBoostReranker` from reranker.ts.  The asynchronous
`loadRerankerModel` (env flag, file read, JSON parse, shape check, cache)
is modelled by its result: `model = none` exactly when the reranker is
disabled or not configured or the load failed. -/
def maybeApplyXGBoostReranker (env : JsRuntime)
    (model : Option XGBoostRerankerModel)
    (candidates : List RankingCandidate) : RerankerApplyResult :=
  match model with
  | none => ⟨candidates, none, false⟩
  | some model =>
    if candidates.isEmpty then ⟨candidates, none, false⟩
    else
      ⟨(rerankCandidates env model candidates).mergeSort
          (fun a b => decide (b.score ≤ a.score)),
        some model.version, true⟩

/-- A trivial reranker model fixture (no trees). -/
def modelFix : XGBoostRerankerModel :=
  { version := "v1", objective := XGBObjective.regSquaredError,
    featureOrder := [], baseScore := 0, trees := [] }


/-! ## SSRF guard and unfurl pipeline (claims C5, C6)

String-level JavaScript operations are modelled on `List Char` (via
`String.data`) so that all definitions are structurally recursive and
evaluable by the kernel.  `listStartsWith`, `strEndsWith`,
`listContainsSub`, `splitOnChar`, `lowerChars` model
`String.prototype.startsWith/endsWith/includes/split/toLowerCase`. -/

/-- `pattern` is a prefix of the list (`String.prototype.startsWith`). -/
def listStartsWith : List Char → List Char → Bool
  | _, [] => true
  | [], _ :: _ => false
  | c :: cs, p :: ps => c == p && listStartsWith cs ps

/-- `String.prototype.startsWith`. -/
def strStartsWith (s pat : String) : Bool :=
  listStartsWith s.data pat.data

/-- `String.prototype.endsWith`. -/
def strEndsWith (s pat : String) : Bool :=
  listStartsWith s.data.reverse pat.data.reverse

/-- `haystack.includes(pat)` (`String.prototype.includes`). -/
def listContainsSub (pat : List Char) : List Char → Bool
  | [] => listStartsWith [] pat
  | c :: rest => listStartsWith (c :: rest) pat || listContainsSub pat rest

/-- `String.prototype.split` with a one-character separator
(`"".split(x) = [""]`, like JavaScript). -/
def splitOnChar (sep : Char) : List Char → List (List Char)
  | [] => [[]]
  | c :: cs =>
    let rest := splitOnChar sep cs
    if c == sep then [] :: rest
    else
      match rest with
      | [] => [[c]]
      | r :: rs => (c :: r) :: rs

/-- `String.prototype.toLowerCase` (ASCII, which is all the source
compares). -/
def lowerChars (cs : List Char) : List Char := cs.map Char.toLower

/-- `String.prototype.toLowerCase` on a `String`. -/
def strToLower (s : String) : String := ⟨lowerChars s.data⟩

/-- `value.split("%")[0]` — strip an IPv6 zone suffix. -/
def stripPercent (cs : List Char) : List Char :=
  (splitOnChar (Char.ofNat 37) cs).headD []

/-- `String.prototype.replace(pat, "")` for the first occurrence (used
for `hostname.replace("www.", "")`). -/
def replaceFirstSub (pat : List Char) : List Char → List Char
  | [] => []
  | c :: rest =>
    if listStartsWith (c :: rest) pat then (c :: rest).drop pat.length
    else c :: replaceFirstSub pat rest

/-- The numeric value of a list of decimal digits. -/
def charsToNat (cs : List Char) : ℕ :=
  cs.foldl (fun n c => n * 10 + (c.toNat - 48)) 0

/-- `Number.parseInt(s, 10)` restricted to the leading digit run.  (The
source only applies it to strings already validated as dotted-quad
parts; a digit-free string, which would give NaN, is modelled as 0 and
never reached under that guard.) -/
def jsParseIntNat (cs : List Char) : ℕ :=
  charsToNat (cs.takeWhile Char.isDigit)

/-- One part of a dotted-quad IPv4 literal as accepted by Node's
`net.isIP`: 1–3 decimal digits, value ≤ 255, no leading zero. -/
def isIPv4Part (cs : List Char) : Bool :=
  !cs.isEmpty && cs.all Char.isDigit &&
  (cs == [Char.ofNat 48] || !(cs.headD (Char.ofNat 48) == Char.ofNat 48)) &&
  decide (charsToNat cs ≤ 255)

/-- Node `net.isIPv4`. -/
def isIPv4Chars (cs : List Char) : Bool :=
  let parts := splitOnChar (Char.ofNat 46) cs
  decide (parts.length = 4) && parts.all isIPv4Part

/-- The 32-bit value of a valid dotted-quad literal (spec side). -/
def v4 (a b c d : ℕ) : ℕ := ((a * 256 + b) * 256 + c) * 256 + d

/-- `ipv4ToInt` from unfurl.ts on a character list: split on `.`,
`parseInt` each part, and combine with the JavaScript
`(x << k >>> 0)` shifts, each of which denotes multiplication by `2^k`
modulo `2^32`, and a final `>>> 0`. -/
def ipv4CharsToInt (cs : List Char) : ℕ :=
  let parts := (splitOnChar (Char.ofNat 46) cs).map jsParseIntNat
  let p := fun i => parts.getD i 0
  ((p 0 * 2 ^ 24) % 2 ^ 32 + (p 1 * 2 ^ 16) % 2 ^ 32 +
    (p 2 * 2 ^ 8) % 2 ^ 32 + p 3 % 2 ^ 32) % 2 ^ 32

/-- `ipv4ToInt` from unfurl.ts. -/
def ipv4ToInt (s : String) : ℕ := ipv4CharsToInt s.data

/-- `inRange` from unfurl.ts. -/
def inRange (ip : ℕ) (rangeStart rangeEnd : String) : Bool :=
  decide (ipv4ToInt rangeStart ≤ ip) && decide (ip ≤ ipv4ToInt rangeEnd)

/-- ASCII hex digit. -/
def isHexDigitChar (c : Char) : Bool :=
  c.isDigit || (Char.ofNat 97 ≤ c && c ≤ Char.ofNat 102) ||
  (Char.ofNat 65 ≤ c && c ≤ Char.ofNat 70)

/-- Value of an ASCII hex digit. -/
def hexDigitVal (c : Char) : ℕ :=
  if c.isDigit then c.toNat - 48
  else if Char.ofNat 97 ≤ c then c.toNat - 87
  else c.toNat - 55

/-- A 16-bit IPv6 group: 1–4 hex digits. -/
def isHexGroup (cs : List Char) : Bool :=
  !cs.isEmpty && decide (cs.length ≤ 4) && cs.all isHexDigitChar

/-- Numeric value of a hex group. -/
def hexGroupVal (cs : List Char) : ℕ :=
  cs.foldl (fun n c => n * 16 + hexDigitVal c) 0

/-- Parse a colon-separated run of IPv6 groups into 16-bit values.  When
`allowV4` is set, the final part may be an embedded dotted-quad,
contributing two groups. -/
def ipv6PartsToGroups (allowV4 : Bool) : List (List Char) → Option (List ℕ)
  | [] => some []
  | [p] =>
    if allowV4 && isIPv4Chars p then
      let n := v4 (jsParseIntNat ((splitOnChar (Char.ofNat 46) p).getD 0 []))
        (jsParseIntNat ((splitOnChar (Char.ofNat 46) p).getD 1 []))
        (jsParseIntNat ((splitOnChar (Char.ofNat 46) p).getD 2 []))
        (jsParseIntNat ((splitOnChar (Char.ofNat 46) p).getD 3 []))
      some [n / 65536, n % 65536]
    else if isHexGroup p then some [hexGroupVal p]
    else none
  | p :: q :: rest =>
    if isHexGroup p then
      (ipv6PartsToGroups allowV4 (q :: rest)).map (fun gs => hexGroupVal p :: gs)
    else none

/-- Model of Node's IPv6 textual parser (`net.isIPv6` and the group
values): split on `:` and handle at most one `::` compression, which
must abbreviate at least one zero group; an embedded dotted-quad is
allowed only in final position.  Returns the eight 16-bit groups. -/
def parseIPv6 (cs : List Char) : Option (List ℕ) :=
  if cs == [Char.ofNat 58, Char.ofNat 58] then some (List.replicate 8 0)
  else
    let parts := splitOnChar (Char.ofNat 58) cs
    let emptyIdx := parts.findIdx (fun p => p.isEmpty)
    if parts.length ≥ 3 && (parts.getD 0 []).isEmpty && (parts.getD 1 []).isEmpty then
      -- leading "::"
      let rest := parts.drop 2
      if rest.all (fun p => !p.isEmpty) then
        match ipv6PartsToGroups true rest with
        | some gs =>
          if gs.length ≤ 7 then some (List.replicate (8 - gs.length) 0 ++ gs) else none
        | none => none
      else none
    else if parts.length ≥ 3 && (parts.getD (parts.length - 1) []).isEmpty &&
        (parts.getD (parts.length - 2) []).isEmpty then
      -- trailing "::"
      let front := parts.take (parts.length - 2)
      if front.all (fun p => !p.isEmpty) then
        match ipv6PartsToGroups false front with
        | some gs =>
          if gs.length ≤ 7 then some (gs ++ List.replicate (8 - gs.length) 0) else none
        | none => none
      else none
    else if emptyIdx < parts.length then
      -- single interior "::"
      if 0 < emptyIdx && emptyIdx + 1 < parts.length &&
          ((parts.take emptyIdx).all (fun p => !p.isEmpty)) &&
          ((parts.drop (emptyIdx + 1)).all (fun p => !p.isEmpty)) then
        match ipv6PartsToGroups false (parts.take emptyIdx),
            ipv6PartsToGroups true (parts.drop (emptyIdx + 1)) with
        | some gsl, some gsr =>
          if gsl.length + gsr.length ≤ 7 then
            some (gsl ++ List.replicate (8 - gsl.length - gsr.length) 0 ++ gsr)
          else none
        | _, _ => none
      else none
    else
      -- no compression: exactly eight groups
      match ipv6PartsToGroups true parts with
      | some gs => if gs.length = 8 then some gs else none
      | none => none

/-- Model of Node's `net.isIP`: 4 for a valid dotted-quad, 6 for a valid
IPv6 literal, 0 otherwise. -/
def netIsIP (s : String) : ℕ :=
  if isIPv4Chars s.data then 4
  else if (parseIPv6 s.data).isSome then 6
  else 0

/-- `isIpLiteral` from unfurl.ts: `net.isIP(value.split("%")[0]) !== 0`. -/
def isIpLiteral (value : String) : Bool :=
  decide (netIsIP ⟨stripPercent value.data⟩ ≠ 0)

/-- The IPv4 reserved-range disjunction of `isPrivateIp` (the body of
its `net.isIP(ip) === 4` branch). -/
def isPrivateIPv4Num (n : ℕ) : Bool :=
  inRange n "0.0.0.0" "0.255.255.255" ||
  inRange n "10.0.0.0" "10.255.255.255" ||
  inRange n "100.64.0.0" "100.127.255.255" ||
  inRange n "127.0.0.0" "127.255.255.255" ||
  inRange n "169.254.0.0" "169.254.255.255" ||
  inRange n "172.16.0.0" "172.31.255.255" ||
  inRange n "192.0.0.0" "192.0.0.255" ||
  inRange n "192.0.2.0" "192.0.2.255" ||
  inRange n "192.168.0.0" "192.168.255.255" ||
  inRange n "198.18.0.0" "198.19.255.255" ||
  inRange n "224.0.0.0" "239.255.255.255" ||
  inRange n "240.0.0.0" "255.255.255.255"

/-- `isPrivateIp` from unfurl.ts: lower-case, strip any `%zone`, check
the IPv4 reserved ranges for dotted-quad literals, and textual prefixes
for IPv6 literals.  The source's recursive `isPrivateIp(mapped)` call in
the `::ffff:` branch receives a dotted-quad string and therefore always
takes the IPv4 branch; it is inlined here as the equivalent
`isPrivateIPv4Num (ipv4CharsToInt mapped)`. -/
def isPrivateIp (ipAddress : String) : Bool :=
  let ip := stripPercent (lowerChars ipAddress.data)
  if isIPv4Chars ip then isPrivateIPv4Num (ipv4CharsToInt ip)
  else if (parseIPv6 ip).isSome then
    if ip == "::".data || ip == "::1".data then true
    else if listStartsWith ip "fc".data || listStartsWith ip "fd".data then true
    else if listStartsWith ip "fe8".data || listStartsWith ip "fe9".data ||
        listStartsWith ip "fea".data || listStartsWith ip "feb".data then true
    else if listStartsWith ip "2001:db8".data then true
    else if listStartsWith ip "::ffff:".data then
      let mapped := ip.drop 7
      if isIPv4Chars mapped then isPrivateIPv4Num (ipv4CharsToInt mapped) else false
    else false
  else false

/-- `isBlockedHostname` from unfurl.ts. -/
def isBlockedHostname (hostname : String) : Bool :=
  (["localhost", "127.0.0.1", "0.0.0.0", "::1",
    "metadata.google.internal", "169.254.169.254"].contains hostname) ||
  strEndsWith hostname ".localhost" ||
  strEndsWith hostname ".local" ||
  strEndsWith hostname ".internal"

/-- `new URL(...)` result restricted to the components the guard reads.
The WHATWG parser lower-cases the host; `protocol` includes the trailing
colon. -/
structure JsUrl where
  protocol : String
  username : String
  password : String
  hostname : String
  deriving DecidableEq, Repr

/-- `ALLOWED_PROTOCOLS` from unfurl.ts. -/
def ALLOWED_PROTOCOLS : List String := ["http:", "https:"]

/-- `assertPublicHostname` from unfurl.ts.  DNS resolution is a
parameter `dns : String → List String` giving all resolved A/AAAA
address strings (`[]` models a resolution failure, covering both the
thrown lookup error and the explicit empty-result check).  The
process-wide `HOST_SAFETY_CACHE` is threaded explicitly; the result is
`(some errorMessage, cache)` for a throw and `(none, cache)` on
success. -/
def assertPublicHostname (dns : String → List String)
    (cache : List (String × Bool)) (hostname : String) :
    Option String × List (String × Bool) :=
  let normalizedHost := strToLower hostname
  match List.lookup normalizedHost cache with
  | some b => (if b then none else some "Host blocked", cache)
  | none =>
    if isBlockedHostname normalizedHost then
      (some "Host blocked", mapSet cache normalizedHost false)
    else if isIpLiteral normalizedHost then
      let safe := !isPrivateIp normalizedHost
      (if safe then none else some "Private network targets are not allowed",
        mapSet cache normalizedHost safe)
    else
      let addresses := dns normalizedHost
      if addresses.isEmpty then
        (some "Host resolution failed", mapSet cache normalizedHost false)
      else
        let safe := addresses.all (fun addr => !isPrivateIp addr)
        (if safe then none else some "Private network targets are not allowed",
          mapSet cache normalizedHost safe)

/-- `assertSafeUrl` from unfurl.ts. -/
def assertSafeUrl (dns : String → List String)
    (cache : List (String × Bool)) (url : JsUrl) :
    Option String × List (String × Bool) :=
  if !(ALLOWED_PROTOCOLS.contains url.protocol) then
    (some "Only http/https URLs are allowed", cache)
  else if !(url.username == "") || !(url.password == "") then
    (some "URLs with credentials are not allowed", cache)
  else assertPublicHostname dns cache url.hostname

/-- The pure per-hostname safety decision that `assertPublicHostname`
computes (and caches) on a cache miss. -/
def hostDecision (dns : String → List String) (hostname : String) : Bool :=
  if isBlockedHostname hostname then false
  else if isIpLiteral hostname then !isPrivateIp hostname
  else if (dns hostname).isEmpty then false
  else (dns hostname).all (fun addr => !isPrivateIp addr)

/-- The cache only holds previously computed per-hostname decisions for
the same resolver.  The empty cache (process start) is trivially
sound. -/
def CacheSound (dns : String → List String)
    (cache : List (String × Bool)) : Prop :=
  ∀ h b, List.lookup h cache = some b → b = hostDecision dns h

/-- The reserved IPv4 ranges of spec §4.6 (0/8, 10/8, 100.64/10, 127/8,
169.254/16, 172.16/12, 192.0.0/24, 192.0.2/24, 192.168/16, 198.18/15,
224/4, 240/4) as inclusive numeric intervals. -/
def specReservedV4 (n : ℕ) : Prop :=
  (v4 0 0 0 0 ≤ n ∧ n ≤ v4 0 255 255 255) ∨
  (v4 10 0 0 0 ≤ n ∧ n ≤ v4 10 255 255 255) ∨
  (v4 100 64 0 0 ≤ n ∧ n ≤ v4 100 127 255 255) ∨
  (v4 127 0 0 0 ≤ n ∧ n ≤ v4 127 255 255 255) ∨
  (v4 169 254 0 0 ≤ n ∧ n ≤ v4 169 254 255 255) ∨
  (v4 172 16 0 0 ≤ n ∧ n ≤ v4 172 31 255 255) ∨
  (v4 192 0 0 0 ≤ n ∧ n ≤ v4 192 0 0 255) ∨
  (v4 192 0 2 0 ≤ n ∧ n ≤ v4 192 0 2 255) ∨
  (v4 192 168 0 0 ≤ n ∧ n ≤ v4 192 168 255 255) ∨
  (v4 198 18 0 0 ≤ n ∧ n ≤ v4 198 19 255 255) ∨
  (v4 224 0 0 0 ≤ n ∧ n ≤ v4 239 255 255 255) ∨
  (v4 240 0 0 0 ≤ n ∧ n ≤ v4 255 255 255 255)

instance (n : ℕ) : Decidable (specReservedV4 n) := by
  unfold specReservedV4
  infer_instance

/-- The reserved IPv6 ranges of spec §4.6 (`::`, `::1`, fc00::/7,
fe80::/10, 2001:db8::/32, and IPv4-mapped `::ffff:a.b.c.d` with a
reserved payload), on the eight parsed 16-bit groups. -/
def specReservedV6 (gs : List ℕ) : Prop :=
  gs = [0, 0, 0, 0, 0, 0, 0, 0] ∨
  gs = [0, 0, 0, 0, 0, 0, 0, 1] ∨
  (0xfc00 ≤ gs.headD 0 ∧ gs.headD 0 ≤ 0xfdff) ∨
  (0xfe80 ≤ gs.headD 0 ∧ gs.headD 0 ≤ 0xfebf) ∨
  (gs.headD 0 = 0x2001 ∧ gs.getD 1 0 = 0x0db8) ∨
  (gs.take 6 = [0, 0, 0, 0, 0, 0xffff] ∧
    specReservedV4 (gs.getD 6 0 * 65536 + gs.getD 7 0))

instance (gs : List ℕ) : Decidable (specReservedV6 gs) := by
  unfold specReservedV6
  infer_instance



/-! ### Canonical IP address text

The guard only ever sees hostnames produced by the WHATWG URL parser
(which re-serializes IPv6 hosts in canonical bracketed form and rejects
non-host characters) and resolved addresses produced by the system
resolver (`inet_ntop` canonical form).  The serializers below model
that platform behaviour so that the reserved ranges of spec section 4.6
can be connected to the textual checks of `isPrivateIp` at every
realizable input. -/

/-- Lower-case hex digit character for a value below 16. -/
def hexDigitChar (k : ℕ) : Char :=
  if k < 10 then Char.ofNat (48 + k) else Char.ofNat (87 + k)

/-- Lower-case hex text of a 16-bit group, no leading zeros (as both
`inet_ntop` %x formatting and the WHATWG IPv6 serializer emit). -/
def hexChars (n : ℕ) : List Char :=
  if n < 16 then [hexDigitChar n]
  else if n < 256 then [hexDigitChar (n / 16), hexDigitChar (n % 16)]
  else if n < 4096 then
    [hexDigitChar (n / 256), hexDigitChar (n / 16 % 16), hexDigitChar (n % 16)]
  else
    [hexDigitChar (n / 4096), hexDigitChar (n / 256 % 16),
      hexDigitChar (n / 16 % 16), hexDigitChar (n % 16)]

/-- Decimal text of a byte value (below 256), no leading zeros. -/
def natToChars3 (n : ℕ) : List Char :=
  if n < 10 then [hexDigitChar n]
  else if n < 100 then [hexDigitChar (n / 10), hexDigitChar (n % 10)]
  else [hexDigitChar (n / 100), hexDigitChar (n / 10 % 10), hexDigitChar (n % 10)]

/-- Canonical dotted-quad text of the IPv4 address packed in the last
two 16-bit groups (`inet_ntop4`). -/
def v4PairChars (hi lo : ℕ) : List Char :=
  natToChars3 (hi / 256) ++ Char.ofNat 46 ::
    (natToChars3 (hi % 256) ++ Char.ofNat 46 ::
      (natToChars3 (lo / 256) ++ Char.ofNat 46 :: natToChars3 (lo % 256)))

/-- Join parts with a single separator character. -/
def joinSep (sep : Char) : List (List Char) → List Char
  | [] => []
  | [p] => p
  | p :: q :: rest => p ++ sep :: joinSep sep (q :: rest)

/-- Length of the run of zero groups starting at index `i`. -/
def zeroRunAt (gs : List ℕ) (i : ℕ) : ℕ :=
  ((gs.drop i).takeWhile (fun g => g == 0)).length

/-- The compressed run chosen by both glibc `inet_ntop` and the WHATWG
IPv6 serializer: the first run of zero groups of maximal length, and
only when that length is at least 2.  The fold uses a strict comparison,
so the earliest index attaining the maximum wins. -/
def bestZeroRun (gs : List ℕ) : Option (ℕ × ℕ) :=
  let best := (List.range gs.length).foldl
    (fun acc i => if zeroRunAt gs i > acc.2 then (i, zeroRunAt gs i) else acc) (0, 0)
  if 2 ≤ best.2 then some best else none

/-- The WHATWG IPv6 serializer (also the all-hex output of glibc
`inet_ntop`): lower-case hex groups joined by `:`, with the best zero
run abbreviated to `::`. -/
def ipv6HexText (gs : List ℕ) : List Char :=
  match bestZeroRun gs with
  | none => joinSep (Char.ofNat 58) (gs.map hexChars)
  | some (b, l) =>
    (if b = 0 then [] else joinSep (Char.ofNat 58) ((gs.take b).map hexChars)) ++
      Char.ofNat 58 :: Char.ofNat 58 ::
        joinSep (Char.ofNat 58) ((gs.drop (b + l)).map hexChars)

/-- glibc `inet_ntop` for IPv6, the canonical text the system resolver
returns for AAAA records: as `ipv6HexText`, except that an address
whose best zero run starts at group 0 and covers exactly six groups
(IPv4-compatible), or five groups with `ffff` next (IPv4-mapped), gets
its last four bytes as an embedded dotted quad.  (glibc's special-case
test also names a run of seven groups, but its IPv4 printing step is
skipped inside such a run, so that clause never produces a dotted quad
and is omitted here.) -/
def inetNtop6 (gs : List ℕ) : List Char :=
  match bestZeroRun gs with
  | some (b, l) =>
    if b = 0 ∧ l = 6 then
      Char.ofNat 58 :: Char.ofNat 58 :: v4PairChars (gs.getD 6 0) (gs.getD 7 0)
    else if b = 0 ∧ l = 5 ∧ gs.getD 5 0 = 0xffff then
      Char.ofNat 58 :: Char.ofNat 58 :: ("ffff".data ++ Char.ofNat 58 ::
        v4PairChars (gs.getD 6 0) (gs.getD 7 0))
    else ipv6HexText gs
  | none => ipv6HexText gs

/-- `MAX_REDIRECTS` from unfurl.ts. -/
def MAX_REDIRECTS : ℕ := 4

/-- `MAX_HTML_BYTES` from unfurl.ts (modelled as a character count). -/
def MAX_HTML_BYTES : ℕ := 750000

/-- Model of the WHATWG `new URL` parser for the absolute URL shapes
exercised here: `scheme:...` and `scheme://[user[:pass]@]host[:port]/...`.
The scheme and host are lower-cased; an authority-form URL with an empty
host is invalid; a port, when present, must be decimal digits; an IPv6
host must be bracketed and is re-serialized in canonical bracketed form
(so a bare or non-canonical IPv6 spelling never reaches `JsUrl`).
WHATWG canonicalization of non-dotted-decimal IPv4 spellings (hex and
octal forms) is not modelled; every IPv4 host in the claims is already
in canonical dotted-decimal form. -/
def parseUrl (s : String) : Option JsUrl :=
  let cs := s.data
  match splitOnChar (Char.ofNat 58) cs with
  | [] => none
  | [_] => none
  | scheme :: _ :: _ =>
    if scheme.isEmpty || !scheme.all (fun c => c.isAlpha || c.isDigit ||
        c == Char.ofNat 43 || c == Char.ofNat 45 || c == Char.ofNat 46) ||
        !(scheme.headD (Char.ofNat 48)).isAlpha then none
    else
      let afterColon := cs.drop (scheme.length + 1)
      if listStartsWith afterColon "//".data then
        let authority := (afterColon.drop 2).takeWhile
          (fun c => !(c == Char.ofNat 47) && !(c == Char.ofNat 63) && !(c == Char.ofNat 35))
        let hostPort := (authority.reverse.takeWhile (fun c => !(c == Char.ofNat 64))).reverse
        let userinfo :=
          if hostPort.length = authority.length then []
          else authority.take (authority.length - hostPort.length - 1)
        let username := userinfo.takeWhile (fun c => !(c == Char.ofNat 58))
        let password :=
          if username.length = userinfo.length then []
          else userinfo.drop (username.length + 1)
        let host? : Option (List Char) :=
          if listStartsWith hostPort [Char.ofNat 91] then
            let inner := (hostPort.drop 1).takeWhile (fun c => !(c == Char.ofNat 93))
            let after := (hostPort.drop 1).drop (inner.length + 1)
            if (hostPort.drop 1).any (fun c => c == Char.ofNat 93) &&
                (after.isEmpty ||
                  (after.headD (Char.ofNat 48) == Char.ofNat 58 &&
                    (after.drop 1).all Char.isDigit)) then
              match parseIPv6 inner with
              | some gs => some (Char.ofNat 91 :: (ipv6HexText gs ++ [Char.ofNat 93]))
              | none => none
            else none
          else
            let hostname := hostPort.takeWhile (fun c => !(c == Char.ofNat 58))
            let port := hostPort.drop (hostname.length + 1)
            if hostname.isEmpty then none
            else if port.all Char.isDigit then some (lowerChars hostname)
            else none
        match host? with
        | none => none
        | some host =>
          some { protocol := ⟨lowerChars scheme ++ [Char.ofNat 58]⟩
                 username := ⟨username⟩
                 password := ⟨password⟩
                 hostname := ⟨host⟩ }
      else
        some { protocol := ⟨lowerChars scheme ++ [Char.ofNat 58]⟩
               username := ""
               password := ""
               hostname := "" }

/-- Serialization of the components of a `JsUrl` used as a fetch key
(`parsed.toString()`); path, query and fragment are not modelled, so
this covers origin-form URLs such as those in the claims. -/
def urlToString (u : JsUrl) : String :=
  u.protocol ++ "//" ++ u.hostname ++ "/"

/-- An HTTP response as seen by the unfurl code. -/
structure FetchResponse where
  status : ℕ
  headers : List (String × String)
  body : String
  deriving DecidableEq, Repr

/-- `response.ok` — status in [200, 300). -/
def FetchResponse.isOk (r : FetchResponse) : Bool :=
  decide (200 ≤ r.status) && decide (r.status < 300)

/-- `response.headers.get(name)` (header names stored lower-case). -/
def getHeader (r : FetchResponse) (name : String) : Option String :=
  List.lookup name r.headers

/-- The outcome of one `fetch` call: a response, or a network
error/timeout (which throws). -/
inductive FetchOutcome
  | success (response : FetchResponse)
  | failure (message : String)
  deriving Repr

/-- `isRedirect` from unfurl.ts. -/
def isRedirect (status : ℕ) : Bool :=
  decide (300 ≤ status) && decide (status < 400)

/-- `new URL(location, parsed).toString()` for an absolute `location`
(relative resolution is not exercised by the claims and not
modelled). -/
def resolveUrl (_base : JsUrl) (location : String) : String := location

/-- `fetchWithSafety` from unfurl.ts: up to `MAX_REDIRECTS` manual
redirects, re-running `assertSafeUrl` before every request; fuel
`MAX_REDIRECTS + 1` counts loop iterations, and its exhaustion is the
`Too many redirects` throw. -/
def fetchWithSafetyGo (dns : String → List String)
    (fetchFn : String → FetchOutcome) :
    ℕ → List (String × Bool) → String →
    Except String (FetchResponse × List (String × Bool))
  | 0, _, _ => .error "Too many redirects"
  | fuel + 1, cache, currentUrl =>
    match parseUrl currentUrl with
    | none => .error "Invalid URL"
    | some parsed =>
      match assertSafeUrl dns cache parsed with
      | (some e, _) => .error e
      | (none, cache2) =>
        match fetchFn currentUrl with
        | FetchOutcome.failure msg => .error msg
        | FetchOutcome.success response =>
          if isRedirect response.status then
            match getHeader response "location" with
            | none => .ok (response, cache2)
            | some location =>
              fetchWithSafetyGo dns fetchFn fuel cache2 (resolveUrl parsed location)
          else .ok (response, cache2)

/-- `UnfurlResult` (src/types), restricted to the fields the claims
read; `metadata` is not modelled. -/
structure UnfurlResult where
  title : Option String
  description : Option String
  thumbnail : Option String
  siteName : Option String
  contentType : String
  deriving DecidableEq, Repr

/-- `detectContentType` from unfurl.ts (hostname `includes` checks). -/
def detectContentType (url : String) : String :=
  let hostname := ((parseUrl url).map (fun u => u.hostname)).getD ""
  if listContainsSub "youtube.com".data hostname.data ||
      listContainsSub "youtu.be".data hostname.data then "youtube"
  else if listContainsSub "twitter.com".data hostname.data ||
      listContainsSub "x.com".data hostname.data then "tweet"
  else if listContainsSub "instagram.com".data hostname.data then "instagram"
  else "article"

/-- `fallbackResult` from unfurl.ts (the `metadata` argument is not
modelled). -/
def fallbackResult (url : String) (contentType : String) : UnfurlResult :=
  { title := none, description := none, thumbnail := none
    siteName := some ⟨replaceFirstSub "www.".data
      ((((parseUrl url).map (fun u => u.hostname)).getD "").data)⟩
    contentType := contentType }

/-- The external dependencies of `unfurlUrl`.  DNS and `fetch` are
oracles; the regex-based extractors (`extractYouTubeId`, the
`getMetaContent`/`<title>` matchers, the oEmbed JSON fields and
`decodeHtmlEntities`) are opaque functions — no claim depends on their
values.  An extractor returning `none` also models a regex match whose
captured string is empty (falsy in the source's `||` chains). -/
structure UnfurlDeps where
  dns : String → List String
  fetchFn : String → FetchOutcome
  extractYouTubeId : String → Option String
  getMetaContent : String → String → Option String
  titleMatch : String → Option String
  oembedTitle : String → Option String
  oembedAuthor : String → Option String
  decodeEntities : String → String

/-- `unfurlUrl` from unfurl.ts.  The initial `assertSafeUrl` runs
*outside* any try/catch, so its rejection propagates to the caller as
`Except.error`; the YouTube oEmbed attempt and the generic fetch run
inside try/catch and fall back instead.  Cache updates made inside a
caught try block are not tracked (the cache is write-only there). -/
def unfurlUrl (deps : UnfurlDeps) (cache : List (String × Bool))
    (url : String) : Except String (UnfurlResult × List (String × Bool)) :=
  match parseUrl url with
  | none => .error "Invalid URL"
  | some parsed =>
    match assertSafeUrl deps.dns cache parsed with
    | (some e, _) => .error e
    | (none, cache1) =>
      let normalizedUrl := urlToString parsed
      let contentType := detectContentType normalizedUrl
      let ytStep : Option UnfurlResult × List (String × Bool) :=
        if contentType == "youtube" then
          match deps.extractYouTubeId normalizedUrl with
          | some videoId =>
            match fetchWithSafetyGo deps.dns deps.fetchFn (MAX_REDIRECTS + 1) cache1
                ("https://www.youtube.com/oembed?url=https://www.youtube.com/watch?v=" ++
                  videoId ++ "&format=json") with
            | Except.ok (oembedRes, cache2) =>
              if oembedRes.isOk then
                (some { title := deps.oembedTitle oembedRes.body
                        description := none
                        thumbnail := some ("https://img.youtube.com/vi/" ++ videoId ++
                          "/hqdefault.jpg")
                        siteName := some ((deps.oembedAuthor oembedRes.body).getD "YouTube")
                        contentType := contentType }, cache2)
              else (none, cache2)
            | Except.error _ => (none, cache1)
          | none => (none, cache1)
        else (none, cache1)
      match ytStep with
      | (some result, cacheY) => .ok (result, cacheY)
      | (none, cacheY) =>
        match fetchWithSafetyGo deps.dns deps.fetchFn (MAX_REDIRECTS + 1) cacheY
            normalizedUrl with
        | Except.error _ => .ok (fallbackResult normalizedUrl contentType, cacheY)
        | Except.ok (res, cache2) =>
          if !res.isOk then .ok (fallbackResult normalizedUrl contentType, cache2)
          else
            let contentHeader := (getHeader res "content-type").getD ""
            if !listContainsSub "text/html".data (lowerChars contentHeader.data) then
              .ok (fallbackResult normalizedUrl contentType, cache2)
            else
              let html : String := ⟨res.body.data.take MAX_HTML_BYTES⟩
              let getMeta := deps.getMetaContent html
              let rawTitle := ((getMeta "og:title").orElse
                (fun _ => getMeta "twitter:title")).orElse
                (fun _ => deps.titleMatch html)
              let rawDescription := ((getMeta "og:description").orElse
                (fun _ => getMeta "twitter:description")).orElse
                (fun _ => getMeta "description")
              let rawThumbnail := (getMeta "og:image").orElse
                (fun _ => getMeta "twitter:image")
              let rawSiteName : String := (getMeta "og:site_name").getD
                ⟨replaceFirstSub "www.".data parsed.hostname.data⟩
              .ok ({ title := rawTitle.map deps.decodeEntities
                     description := rawDescription.map deps.decodeEntities
                     thumbnail := rawThumbnail.map deps.decodeEntities
                     siteName := if rawSiteName == "" then none
                       else some (deps.decodeEntities rawSiteName)
                     contentType := contentType }, cache2)

/-- One possible response of the POST /api/unfurl route handler:
a JSON error body with a status, a JSON `UnfurlResult` body (HTTP 200),
or an exception that escapes the handler (which the framework surfaces
as an HTTP 500, not a JSON 4xx). -/
inductive RouteResult
  | errorJson (status : ℕ) (message : String)
  | resultJson (status : ℕ) (result : UnfurlResult)
  | thrown (message : String)
  deriving DecidableEq, Repr

/-- `POST` from src/app/api/unfurl/route.ts.  `urlField` is the `url`
member of the JSON body (`none` for a missing or non-string value).
Note the try/catch covers only `new URL(url)`; `unfurlUrl(url)` is
awaited outside it, so a rejection escapes the handler (`thrown`). -/
def postUnfurl (deps : UnfurlDeps) (cache : List (String × Bool))
    (urlField : Option String) : RouteResult :=
  match urlField with
  | none => RouteResult.errorJson 400 "URL is required"
  | some url =>
    if url == "" then RouteResult.errorJson 400 "URL is required"
    else
      match parseUrl url with
      | none => RouteResult.errorJson 400 "Invalid URL"
      | some _ =>
        match unfurlUrl deps cache url with
        | Except.ok (result, _) => RouteResult.resultJson 200 result
        | Except.error e => RouteResult.thrown e

/-- DNS fixture for the C6 scenarios: `both.example` resolves to one
public and one private address, `public.example` to a public one. -/
def dnsC6 : String → List String := fun h =>
  if h == "both.example" then ["93.184.216.34", "10.0.0.1"]
  else if h == "public.example" then ["93.184.216.34"]
  else []

/-- Fetch fixture for the C6 scenarios: `public.example` redirects to a
private address, everything else is unreachable. -/
def fetchC6 : String → FetchOutcome := fun u =>
  if u == "http://public.example/" then
    FetchOutcome.success
      { status := 302
        headers := [("location", "http://10.0.0.1/")]
        body := "" }
  else FetchOutcome.failure "network unreachable"

/-- Dependency fixture for the C6 scenarios. -/
def depsC6 : UnfurlDeps :=
  { dns := dnsC6, fetchFn := fetchC6,
    extractYouTubeId := fun _ => none,
    getMetaContent := fun _ _ => none,
    titleMatch := fun _ => none,
    oembedTitle := fun _ => none,
    oembedAuthor := fun _ => none,
    decodeEntities := fun s => s }

end TheFeed

namespace TheFeed

/-! ## Permutation of the diversity pass and of scoring (claim C1) -/

theorem perm_get_cons_eraseIdx {α : Type} :
    ∀ (l : List α) (i : ℕ) (h : i < l.length),
    List.Perm (l.get ⟨i, h⟩ :: l.eraseIdx i) l
  | _ :: _, 0, _ => List.Perm.refl _
  | a :: l, i + 1, h => by
    have hi : i < l.length := by simpa using h
    have ih := perm_get_cons_eraseIdx l i hi
    simpa using (List.Perm.swap a (l.get ⟨i, hi⟩) (l.eraseIdx i)).trans (ih.cons a)

theorem pickIdxAux_some_lt :
    ∀ (l : List RankingCandidate) (recent : List String) (i j : ℕ),
    pickIdxAux l recent i = some j → j < i + l.length
  | [], _, _, _, h => by simp [pickIdxAux] at h
  | c :: rest, recent, i, j, h => by
    rw [pickIdxAux] at h
    simp only [List.length_cons]
    by_cases hc : (!isTripleRun c.link recent || decide (7 < i)) = true
    · rw [if_pos hc] at h
      injection h with h
      omega
    · rw [if_neg hc] at h
      have := pickIdxAux_some_lt rest recent (i + 1) j h
      omega

theorem pickIdx_lt (remaining : List RankingCandidate) (recent : List String)
    (h : remaining ≠ []) : pickIdx remaining recent < remaining.length := by
  unfold pickIdx
  cases haux : pickIdxAux remaining recent 0 with
  | none =>
    simpa [Option.getD] using List.length_pos.mpr h
  | some j =>
    have := pickIdxAux_some_lt remaining recent 0 j haux
    simpa [Option.getD] using this

theorem dpGo_perm :
    ∀ (fuel : ℕ) (remaining : List RankingCandidate) (recent : List String),
    remaining.length ≤ fuel → List.Perm (dpGo fuel remaining recent) remaining
  | 0, remaining, _, hf => by
    have : remaining = [] := by
      cases remaining with
      | nil => rfl
      | cons a l => simp at hf
    simp [this, dpGo]
  | _ + 1, [], _, _ => by simp [dpGo]
  | fuel + 1, c :: rest, recent, hf => by
    rw [dpGo]
    have hne : (c :: rest : List RankingCandidate) ≠ [] := by simp
    have hlt := pickIdx_lt (c :: rest) recent hne
    have hitem : (c :: rest).getD (pickIdx (c :: rest) recent) c =
        (c :: rest).get ⟨pickIdx (c :: rest) recent, hlt⟩ := by
      rw [List.getD_eq_getElem?_getD, List.getElem?_eq_getElem hlt]
      rfl
    have hlen : ((c :: rest).eraseIdx (pickIdx (c :: rest) recent)).length ≤ fuel := by
      have := List.length_eraseIdx_add_one hlt
      simp only [List.length_cons] at this hf
      omega
    have ih := dpGo_perm fuel ((c :: rest).eraseIdx (pickIdx (c :: rest) recent))
      (pushRecent recent ((c :: rest).getD (pickIdx (c :: rest) recent) c)) hlen
    have hperm := perm_get_cons_eraseIdx (c :: rest) (pickIdx (c :: rest) recent) hlt
    rw [hitem] at ih ⊢
    exact (ih.cons _).trans hperm

theorem applyDiversityPass_perm (rankedCandidates : List RankingCandidate) :
    List.Perm (applyDiversityPass rankedCandidates) rankedCandidates :=
  dpGo_perm rankedCandidates.length rankedCandidates [] (le_refl _)

theorem scoreOneLink_link (env : JsRuntime) (stats : DatasetStats)
    (signalMaps : SessionSignalMaps) (preferenceScores : List (String × ℚ))
    (weights : ScoringWeights) (session : SessionContext) (link : FeedLink) :
    (scoreOneLink env stats signalMaps preferenceScores weights session link).link = link :=
  rfl

theorem sortedCandidates_map_link_perm (env : JsRuntime) (links : List FeedLink)
    (session : SessionContext) (timePrefs : List TimePreference) :
    List.Perm ((sortedCandidates env links session timePrefs).map
      (fun c => c.link)) links := by
  unfold sortedCandidates
  refine ((List.mergeSort_perm _ _).map _).trans ?_
  rw [List.map_map]
  have hcomp : ((fun c : RankingCandidate => c.link) ∘
      scoreOneLink env (buildDatasetStats links) (buildSessionSignalMaps session)
        (buildTimePreferenceMap timePrefs)
        (deriveWeights (!session.engagedEmbeddings.isEmpty)
          (!(buildTimePreferenceMap timePrefs).isEmpty) session.cardsShown)
        session) = id := by
    funext l
    simp [scoreOneLink_link]
  rw [hcomp, List.map_id]

/-- **C1.**  For every list of candidate links, session context, time
preferences and options (hence both with and without the diversity
post-pass), the candidates returned by `scoreFeedCandidates` carry exactly
the input links: the result of projecting `link` is a permutation of the
input, so the length is preserved and every input entry appears exactly
once. -/
theorem claim_C1_scoring_permutation (env : JsRuntime) (links : List FeedLink)
    (session : SessionContext) (timePrefs : List TimePreference)
    (options : ScoringOptions) :
    List.Perm ((scoreFeedCandidates env links session timePrefs options).map
      (fun c => c.link)) links := by
  unfold scoreFeedCandidates
  by_cases hempty : links.isEmpty = true
  · have h0 : links = [] := List.isEmpty_iff.mp hempty
    subst h0
    simp
  · rw [if_neg hempty]
    by_cases hopt : options.applyDiversity = some false
    · rw [if_pos hopt]
      exact sortedCandidates_map_link_perm env links session timePrefs
    · rw [if_neg hopt]
      exact ((applyDiversityPass_perm _).map _).trans
        (sortedCandidates_map_link_perm env links session timePrefs)

end TheFeed

namespace TheFeed

/-! ## The diversity-pass step (claims C3, C4) -/

theorem pickIdxAux_all_triple :
    ∀ (l : List RankingCandidate) (recent : List String) (i : ℕ), i ≤ 8 →
    (∀ c ∈ l.take (8 - i), isTripleRun c.link recent = true) →
    (8 - i < l.length → pickIdxAux l recent i = some 8) ∧
    (l.length ≤ 8 - i → pickIdxAux l recent i = none)
  | [], recent, i, hi, hall => by
    constructor
    · intro h
      simp at h
    · intro _
      simp [pickIdxAux]
  | c :: rest, recent, i, hi, hall => by
    by_cases h8 : 8 - i = 0
    · have hi8 : i = 8 := by omega
      subst hi8
      rw [pickIdxAux]
      constructor
      · intro _
        simp
      · intro hlen
        simp at hlen
    · have hc : c ∈ (c :: rest).take (8 - i) := by
        obtain ⟨m, hm⟩ : ∃ m, 8 - i = m + 1 := ⟨8 - i - 1, by omega⟩
        rw [hm, List.take_succ_cons]
        exact List.mem_cons_self _ _
      have htr := hall c hc
      have hcond : (!isTripleRun c.link recent || decide (7 < i)) = false := by
        have h7 : ¬(7 < i) := by omega
        simp [htr, h7]
      have hrest : ∀ x ∈ rest.take (8 - (i + 1)), isTripleRun x.link recent = true := by
        intro x hx
        apply hall
        obtain ⟨m, hm⟩ : ∃ m, 8 - i = m + 1 := ⟨8 - i - 1, by omega⟩
        rw [hm, List.take_succ_cons]
        have hm' : 8 - (i + 1) = m := by omega
        rw [hm'] at hx
        exact List.mem_cons_of_mem _ hx
      have IH := pickIdxAux_all_triple rest recent (i + 1) (by omega) hrest
      rw [pickIdxAux, if_neg (by simp [hcond])]
      constructor
      · intro hlen
        apply IH.1
        simp only [List.length_cons] at hlen
        omega
      · intro hlen
        apply IH.2
        simp only [List.length_cons] at hlen
        omega

theorem pickIdxAux_first_false :
    ∀ (l : List RankingCandidate) (recent : List String) (i k : ℕ)
      (d : RankingCandidate),
    k < l.length → i + k ≤ 8 →
    isTripleRun ((l.getD k d).link) recent = false →
    (∀ m < k, isTripleRun ((l.getD m d).link) recent = true) →
    pickIdxAux l recent i = some (i + k)
  | [], _, _, k, _, hk, _, _, _ => by simp at hk
  | c :: rest, recent, i, 0, d, hk, hik, hfalse, hall => by
    rw [pickIdxAux]
    rw [List.getD_cons_zero] at hfalse
    simp [hfalse]
  | c :: rest, recent, i, k + 1, d, hk, hik, hfalse, hall => by
    have hc : isTripleRun c.link recent = true := by
      have := hall 0 (by omega)
      simpa using this
    have hcond : (!isTripleRun c.link recent || decide (7 < i)) = false := by
      have h7 : ¬(7 < i) := by omega
      simp [hc, h7]
    rw [pickIdxAux, if_neg (by simp [hcond])]
    have IH := pickIdxAux_first_false rest recent (i + 1) k d
      (by simpa using hk) (by omega)
      (by simpa using hfalse)
      (fun m hm => by simpa using hall (m + 1) (by omega))
    rw [IH]
    congr 1
    omega

theorem pickIdx_of_all_false (rem : List RankingCandidate) (rec : List String)
    (d : RankingCandidate)
    (hfalse : (rem.take 8).all (fun c => isTripleRun c.link rec) = false) :
    isTripleRun ((rem.getD (pickIdx rem rec) d).link) rec = false ∧
    ∀ m < pickIdx rem rec, isTripleRun ((rem.getD m d).link) rec = true := by
  rw [List.all_eq_false] at hfalse
  obtain ⟨x, hx, hxf⟩ := hfalse
  rw [List.mem_iff_getElem] at hx
  obtain ⟨n, hn, hxe⟩ := hx
  have hn8 : n < 8 := by
    have := hn
    simp only [List.length_take] at this
    omega
  have hnlen : n < rem.length := by
    have := hn
    simp only [List.length_take] at this
    omega
  have hP : ∃ m, m < rem.length ∧ m < 8 ∧
      isTripleRun ((rem.getD m d).link) rec = false := by
    refine ⟨n, hnlen, hn8, ?_⟩
    have hgetD : rem.getD n d = x := by
      rw [List.getD_eq_getElem?_getD, List.getElem?_eq_getElem hnlen]
      have htake : (rem.take 8)[n]? = rem[n]? := List.getElem?_take_of_lt hn8
      rw [List.getElem?_eq_getElem hnlen] at htake
      have hx8 : (rem.take 8)[n]? = some x := by
        rw [List.getElem?_eq_getElem hn, hxe]
      rw [hx8] at htake
      simp [← Option.some_inj.mp htake.symm]
    rw [hgetD]
    revert hxf
    cases isTripleRun x.link rec <;> simp
  classical
  let k₀ := Nat.find hP
  obtain ⟨hk₀len, hk₀8, hk₀f⟩ : k₀ < rem.length ∧ k₀ < 8 ∧
      isTripleRun ((rem.getD k₀ d).link) rec = false := Nat.find_spec hP
  have hmin : ∀ m < k₀, isTripleRun ((rem.getD m d).link) rec = true := by
    intro m hm
    have hnot := Nat.find_min hP hm
    have hmlen : m < rem.length := by omega
    have hm8 : m < 8 := by omega
    by_contra hmf
    exact hnot ⟨hmlen, hm8, by
      revert hmf
      cases isTripleRun ((rem.getD m d).link) rec <;> simp⟩
  have haux := pickIdxAux_first_false rem rec 0 k₀ d hk₀len (by omega) hk₀f hmin
  have hpick : pickIdx rem rec = k₀ := by
    unfold pickIdx
    rw [haux]
    simp
  rw [hpick]
  exact ⟨hk₀f, hmin⟩

theorem pick_triple_take8 (rem : List RankingCandidate) (rec : List String)
    (d : RankingCandidate)
    (h : isTripleRun ((rem.getD (pickIdx rem rec) d).link) rec = true) :
    (rem.take 8).all (fun c => isTripleRun c.link rec) = true := by
  by_contra hfalse
  have hfalse' : (rem.take 8).all (fun c => isTripleRun c.link rec) = false := by
    revert hfalse
    cases (rem.take 8).all (fun c => isTripleRun c.link rec) <;> simp
  have := (pickIdx_of_all_false rem rec d hfalse').1
  rw [h] at this
  exact absurd this (by simp)

theorem pushRecent_toList (rec : List String) (item : RankingCandidate) :
    pushRecent rec item = rec ++ (getPrimaryCategory item.link).toList := by
  unfold pushRecent
  cases getPrimaryCategory item.link <;> simp

theorem filterMap_cons_toList {α β : Type} (f : α → Option β) (a : α) (l : List α) :
    List.filterMap f (a :: l) = (f a).toList ++ List.filterMap f l := by
  rw [List.filterMap_cons]
  cases h : f a <;> simp

theorem dpGo_spec :
    ∀ (fuel : ℕ) (rem : List RankingCandidate) (rec : List String) (k : ℕ),
    rem.length ≤ fuel → k < (dpGo fuel rem rec).length →
    ∃ remk reck,
      (dpStates fuel rem rec)[k]? = some (remk, reck) ∧
      remk ≠ [] ∧
      (dpGo fuel rem rec)[k]? =
        some (remk.getD (pickIdx remk reck) (remk.headD dummyCand)) ∧
      reck = rec ++ ((dpGo fuel rem rec).take k).filterMap
        (fun c => getPrimaryCategory c.link)
  | 0, rem, rec, k, hf, hk => by simp [dpGo] at hk
  | fuel + 1, [], rec, k, hf, hk => by simp [dpGo] at hk
  | fuel + 1, c :: rest, rec, k, hf, hk => by
    have hne : (c :: rest : List RankingCandidate) ≠ [] := by simp
    have hlt := pickIdx_lt (c :: rest) rec hne
    have hf' : ((c :: rest).eraseIdx (pickIdx (c :: rest) rec)).length ≤ fuel := by
      have := List.length_eraseIdx_add_one hlt
      simp only [List.length_cons] at this hf
      omega
    cases k with
    | zero =>
      refine ⟨c :: rest, rec, ?_, hne, ?_, by simp⟩
      · simp only [dpStates, List.getElem?_cons_zero]
      · simp only [dpGo, List.getElem?_cons_zero, List.headD]
    | succ k =>
      have hk' : k < (dpGo fuel ((c :: rest).eraseIdx (pickIdx (c :: rest) rec))
          (pushRecent rec ((c :: rest).getD (pickIdx (c :: rest) rec) c))).length := by
        simp only [dpGo, List.length_cons] at hk
        omega
      obtain ⟨remk, reck, h1, h2, h3, h4⟩ := dpGo_spec fuel
        ((c :: rest).eraseIdx (pickIdx (c :: rest) rec))
        (pushRecent rec ((c :: rest).getD (pickIdx (c :: rest) rec) c)) k hf' hk'
      refine ⟨remk, reck, ?_, h2, ?_, ?_⟩
      · simpa only [dpStates, List.getElem?_cons_succ] using h1
      · simpa only [dpGo, List.getElem?_cons_succ] using h3
      · rw [h4]
        simp only [dpGo, List.take_succ_cons, filterMap_cons_toList, pushRecent_toList,
          List.append_assoc]

end TheFeed

namespace TheFeed

/-- **C3 (counterexample).**  The claim says that when the first eight
remaining candidates would all complete a triple, the *head* of the
remaining list is accepted.  On a remainder of nine candidates whose
primary category all equals the last two recent primaries, the step
instead picks index 8 (the ninth candidate), not index 0. -/
theorem claim_C3_counterexample :
    (dpNineAs.take 8).all (fun c => isTripleRun c.link recTwoA) = true ∧
    pickIdx dpNineAs recTwoA ≠ 0 := by decide

/-- **C3 (amended).**  Each step of the diversity post-pass picks the
first remaining candidate that would not complete a triple, provided one
occurs among the first eight remaining; when the first eight (or all, if
fewer remain) would each complete a triple, the step accepts the
candidate at index 8 when at least nine remain, and the head of the
remainder otherwise. -/
theorem claim_C3_amended_diversity_step (remaining : List RankingCandidate)
    (recent : List String) (d : RankingCandidate) (_hne : remaining ≠ []) :
    ((remaining.take 8).all (fun c => isTripleRun c.link recent) = true →
      pickIdx remaining recent = if 9 ≤ remaining.length then 8 else 0) ∧
    ((remaining.take 8).all (fun c => isTripleRun c.link recent) = false →
      isTripleRun ((remaining.getD (pickIdx remaining recent) d).link) recent = false ∧
      ∀ m < pickIdx remaining recent,
        isTripleRun ((remaining.getD m d).link) recent = true) := by
  constructor
  · intro hall
    have hall' : ∀ c ∈ remaining.take (8 - 0), isTripleRun c.link recent = true := by
      intro c hc
      exact List.all_eq_true.mp hall c (by simpa using hc)
    have hspec := pickIdxAux_all_triple remaining recent 0 (by omega) hall'
    by_cases h9 : 9 ≤ remaining.length
    · rw [if_pos h9]
      have hsome := hspec.1 (by omega)
      unfold pickIdx
      rw [hsome]
      rfl
    · rw [if_neg h9]
      have hnone := hspec.2 (by omega)
      unfold pickIdx
      rw [hnone]
      rfl
  · intro hfalse
    exact pickIdx_of_all_false remaining recent d hfalse

theorem claim_C3_amended_diversity_step_witness :
    dpNineAs ≠ [] ∧
    (((dpNineAs.take 8).all (fun c => isTripleRun c.link recTwoA) = true →
      pickIdx dpNineAs recTwoA = if 9 ≤ dpNineAs.length then 8 else 0) ∧
    ((dpNineAs.take 8).all (fun c => isTripleRun c.link recTwoA) = false →
      isTripleRun ((dpNineAs.getD (pickIdx dpNineAs recTwoA) dummyCand).link) recTwoA = false ∧
      ∀ m < pickIdx dpNineAs recTwoA,
        isTripleRun ((dpNineAs.getD m dummyCand).link) recTwoA = true)) :=
  ⟨by decide, claim_C3_amended_diversity_step dpNineAs recTwoA dummyCand (by decide)⟩

theorem primaryAt_eq_some {out : List RankingCandidate} {j : ℕ} {p : String}
    (h : primaryAt out j = some p) :
    ∃ c, out[j]? = some c ∧ getPrimaryCategory c.link = some p := by
  unfold primaryAt at h
  cases hc : out[j]? with
  | none => rw [hc] at h; simp at h
  | some c => rw [hc] at h; exact ⟨c, rfl, h⟩

theorem isTripleRun_append_pair (link : FeedLink) (r : List String) (p : String)
    (h : getPrimaryCategory link = some p) :
    isTripleRun link (r ++ [p, p]) = true := by
  unfold isTripleRun
  rw [h]
  have hlen : (r ++ [p, p]).length = r.length + 2 := by simp
  have hlast : (r ++ [p, p]).getLast? = some p := by
    have : r ++ [p, p] = (r ++ [p]) ++ [p] := by simp
    rw [this, List.getLast?_concat]
  have hidx : (r ++ [p, p])[(r ++ [p, p]).length - 2]? = some p := by
    rw [hlen]
    have hr : r.length + 2 - 2 = r.length := by omega
    rw [hr, List.getElem?_append_right (le_refl _)]
    simp
  rw [hlast, hidx, hlen]
  simp

/-- **C4.**  For every ranked candidate list, whenever the output of the
diversity post-pass has three consecutive entries with the same primary
category at positions `j, j+1, j+2`, then at the loop step that picked the
third of them (state `j+2` of the trace) every candidate within the first
8 positions of the then-remaining residual list would also have completed
such a triple. -/
theorem claim_C4_diversity_triples_justified (l : List RankingCandidate) (j : ℕ)
    (h : tripleAt (applyDiversityPass l) j) :
    ∃ remk reck,
      (dpStates l.length l [])[j + 2]? = some (remk, reck) ∧
      (remk.take 8).all (fun c => isTripleRun c.link reck) = true := by
  obtain ⟨hsome, heq1, heq2⟩ := h
  obtain ⟨p, hp⟩ := Option.isSome_iff_exists.mp hsome
  have hp1 : primaryAt (applyDiversityPass l) (j + 1) = some p := by rw [← heq1, hp]
  have hp2 : primaryAt (applyDiversityPass l) (j + 2) = some p := by rw [← heq2, hp1]
  obtain ⟨x, hxe, hxp⟩ := primaryAt_eq_some hp
  obtain ⟨y, hye, hyp⟩ := primaryAt_eq_some hp1
  obtain ⟨z, hze, hzp⟩ := primaryAt_eq_some hp2
  have hout : applyDiversityPass l = dpGo l.length l [] := rfl
  rw [hout] at hxe hye hze
  have hjlen : j + 2 < (dpGo l.length l []).length := by
    have := List.getElem?_eq_some_iff.mp hze
    exact this.1
  obtain ⟨remk, reck, hstates, hne, hpicked, hrec⟩ :=
    dpGo_spec l.length l [] (j + 2) (le_refl _) hjlen
  refine ⟨remk, reck, hstates, ?_⟩
  have hz : z = remk.getD (pickIdx remk reck) (remk.headD dummyCand) := by
    rw [hze] at hpicked
    exact Option.some_inj.mp hpicked
  have hreck : reck = (List.filterMap (fun c => getPrimaryCategory c.link)
      ((dpGo l.length l []).take j)) ++ [p, p] := by
    rw [hrec]
    have ht2 : (dpGo l.length l []).take (j + 2) =
        (dpGo l.length l []).take (j + 1) ++ [y] := by
      rw [List.take_succ, hye]
      rfl
    have ht1 : (dpGo l.length l []).take (j + 1) =
        (dpGo l.length l []).take j ++ [x] := by
      rw [List.take_succ, hxe]
      rfl
    rw [ht2, ht1, List.filterMap_append, List.filterMap_append]
    simp [hxp, hyp]
  have htrip : isTripleRun ((remk.getD (pickIdx remk reck) (remk.headD dummyCand)).link)
      reck = true := by
    rw [← hz, hreck]
    exact isTripleRun_append_pair z.link _ p hzp
  exact pick_triple_take8 remk reck (remk.headD dummyCand) htrip

theorem claim_C4_diversity_triples_justified_witness :
    tripleAt (applyDiversityPass dpElevenAs) 0 ∧
    ∃ remk reck,
      (dpStates dpElevenAs.length dpElevenAs [])[0 + 2]? = some (remk, reck) ∧
      (remk.take 8).all (fun c => isTripleRun c.link reck) = true :=
  ⟨by decide, claim_C4_diversity_triples_justified dpElevenAs 0 (by decide)⟩

end TheFeed

namespace TheFeed

/-! ## Feature-map shape and bounds (claim C2) -/

theorem clamp01_bounds (x : ℚ) : 0 ≤ clamp01 x ∧ clamp01 x ≤ 1 := by
  unfold clamp01
  constructor
  · exact le_max_left 0 _
  · exact max_le (by norm_num) (min_le_left 1 x)

theorem ite_one_zero_bounds (c : Prop) [Decidable c] :
    0 ≤ (if c then (1 : ℚ) else 0) ∧ (if c then (1 : ℚ) else 0) ≤ 1 := by
  split <;> norm_num

theorem engagementPredictScore_bounds (env : JsRuntime) (link : FeedLink)
    (stats : DatasetStats) :
    0 ≤ engagementPredictScore env link stats ∧
    engagementPredictScore env link stats ≤ 1 := by
  simp only [engagementPredictScore]
  split <;> exact clamp01_bounds _

theorem semanticMatchScore_bounds (env : JsRuntime) (link : FeedLink)
    (engagedEmbeddings : List (List ℚ)) :
    0 ≤ semanticMatchScore env link engagedEmbeddings ∧
    semanticMatchScore env link engagedEmbeddings ≤ 1 := by
  simp only [semanticMatchScore]
  split
  · norm_num
  · split
    · norm_num
    · exact clamp01_bounds _

theorem sessionContextScore_score_bounds (link : FeedLink) (session : SessionContext)
    (signalMaps : SessionSignalMaps) :
    0 ≤ (sessionContextScore link session signalMaps).score ∧
    (sessionContextScore link session signalMaps).score ≤ 1 := by
  simp only [sessionContextScore]
  split
  · norm_num
  · split
    · norm_num
    · exact clamp01_bounds _

theorem sessionContextScore_sameLaneBoost_bounds (link : FeedLink)
    (session : SessionContext) (signalMaps : SessionSignalMaps) :
    0 ≤ (sessionContextScore link session signalMaps).sameLaneBoost ∧
    (sessionContextScore link session signalMaps).sameLaneBoost ≤ 1 := by
  simp only [sessionContextScore]
  split
  · norm_num
  · split
    · norm_num
    · split <;> norm_num

theorem timePreferenceScore_bounds (link : FeedLink)
    (preferenceScores : List (String × ℚ)) :
    0 ≤ timePreferenceScore link preferenceScores ∧
    timePreferenceScore link preferenceScores ≤ 1 := by
  simp only [timePreferenceScore]
  split
  · norm_num
  · split
    · norm_num
    · split
      · norm_num
      · exact clamp01_bounds _

theorem freshnessScore_bounds (env : JsRuntime) (link : FeedLink) :
    0 ≤ freshnessScore env link ∧ freshnessScore env link ≤ 1 := by
  simp only [freshnessScore]
  exact clamp01_bounds _

theorem explorationScore_score_bounds (env : JsRuntime) (link : FeedLink)
    (stats : DatasetStats) (signalMaps : SessionSignalMaps) :
    0 ≤ (explorationScore env link stats signalMaps).score ∧
    (explorationScore env link stats signalMaps).score ≤ 1 := by
  simp only [explorationScore]
  exact clamp01_bounds _

theorem explorationScore_sessionNovelty_bounds (env : JsRuntime) (link : FeedLink)
    (stats : DatasetStats) (signalMaps : SessionSignalMaps) :
    0 ≤ (explorationScore env link stats signalMaps).sessionNovelty ∧
    (explorationScore env link stats signalMaps).sessionNovelty ≤ 1 := by
  simp only [explorationScore]
  split <;> norm_num

theorem openRate_bounds (openCount shown : ℤ) (h : 0 ≤ openCount) :
    0 ≤ min 1 ((openCount : ℚ) / ((max 1 shown : ℤ) : ℚ)) ∧
    min 1 ((openCount : ℚ) / ((max 1 shown : ℤ) : ℚ)) ≤ 1 := by
  constructor
  · apply le_min
    · norm_num
    · apply div_nonneg
      · exact_mod_cast h
      · have h1 : (1 : ℤ) ≤ max 1 shown := le_max_left 1 shown
        have : (0 : ℤ) ≤ max 1 shown := by omega
        exact_mod_cast this
  · exact min_le_left 1 _

theorem scoreOneLink_features_spec (env : JsRuntime) (stats : DatasetStats)
    (signalMaps : SessionSignalMaps) (preferenceScores : List (String × ℚ))
    (weights : ScoringWeights) (session : SessionContext) (link : FeedLink)
    (hopen : 0 ≤ link.openCount) :
    (scoreOneLink env stats signalMaps preferenceScores weights session link).features.map
      Prod.fst = featureNames ∧
    (scoreOneLink env stats signalMaps preferenceScores weights session link).features.Forall
      (fun kv => 0 ≤ kv.2 ∧ kv.2 ≤ 1) := by
  constructor
  · rfl
  · simp only [scoreOneLink, List.Forall]
    exact ⟨engagementPredictScore_bounds env link stats,
      semanticMatchScore_bounds env link session.engagedEmbeddings,
      sessionContextScore_score_bounds link session signalMaps,
      timePreferenceScore_bounds link preferenceScores,
      freshnessScore_bounds env link,
      explorationScore_score_bounds env link stats signalMaps,
      clamp01_bounds _,
      openRate_bounds link.openCount (max 0 link.shownCount) hopen,
      clamp01_bounds _,
      ite_one_zero_bounds _,
      ite_one_zero_bounds _,
      clamp01_bounds _,
      ite_one_zero_bounds _,
      clamp01_bounds _,
      clamp01_bounds _,
      clamp01_bounds _,
      clamp01_bounds _,
      sessionContextScore_sameLaneBoost_bounds link session signalMaps,
      clamp01_bounds _,
      clamp01_bounds _,
      explorationScore_sessionNovelty_bounds env link stats signalMaps⟩

theorem forall_of_perm {p : RankingCandidate → Prop} {l l2 : List RankingCandidate}
    (h : List.Perm l l2) (hf : l.Forall p) : l2.Forall p := by
  rw [List.forall_iff_forall_mem] at hf ⊢
  intro x hx
  exact hf x (h.mem_iff.mpr hx)

theorem sortedCandidates_features_spec (env : JsRuntime) (links : List FeedLink)
    (session : SessionContext) (timePrefs : List TimePreference)
    (hopen : links.Forall (fun l => 0 ≤ l.openCount)) :
    (sortedCandidates env links session timePrefs).Forall
      (fun c => c.features.map Prod.fst = featureNames ∧
        c.features.Forall (fun kv => 0 ≤ kv.2 ∧ kv.2 ≤ 1)) := by
  unfold sortedCandidates
  apply forall_of_perm (List.mergeSort_perm _ _).symm
  rw [List.forall_iff_forall_mem]
  intro x hx
  rw [List.mem_map] at hx
  obtain ⟨l, hl, hxe⟩ := hx
  subst hxe
  exact scoreOneLink_features_spec env _ _ _ _ session l
    (List.forall_iff_forall_mem.mp hopen l hl)

/-- **C2.**  For every input whose entries satisfy the data-model
invariant `openCount ≥ 0`, every `RankingCandidate` produced by
`scoreFeedCandidates` carries a features map whose keys are exactly the 21
enumerated names (in insertion order) and whose values all lie in `[0,1]`
— for every interpretation of the runtime functions, hence in particular
when embeddings are missing, zero, or of mismatched length.  (Values of
`ℚ` are finite by construction.) -/
theorem claim_C2_feature_map_shape_and_bounds (env : JsRuntime)
    (links : List FeedLink) (session : SessionContext)
    (timePrefs : List TimePreference) (options : ScoringOptions)
    (hopen : links.Forall (fun l => 0 ≤ l.openCount)) :
    (scoreFeedCandidates env links session timePrefs options).Forall
      (fun c => c.features.map Prod.fst = featureNames ∧
        c.features.Forall (fun kv => 0 ≤ kv.2 ∧ kv.2 ≤ 1)) := by
  unfold scoreFeedCandidates
  by_cases hempty : links.isEmpty = true
  · rw [if_pos hempty]
    simp
  · rw [if_neg hempty]
    by_cases hopt : options.applyDiversity = some false
    · rw [if_pos hopt]
      exact sortedCandidates_features_spec env links session timePrefs hopen
    · rw [if_neg hopt]
      exact forall_of_perm (applyDiversityPass_perm _).symm
        (sortedCandidates_features_spec env links session timePrefs hopen)

theorem claim_C2_feature_map_shape_and_bounds_witness :
    ([plainLink "w" ["Tech"]].Forall (fun l => 0 ≤ l.openCount)) ∧
    (scoreFeedCandidates envZero [plainLink "w" ["Tech"]] sessionZero [] ⟨none⟩).Forall
      (fun c => c.features.map Prod.fst = featureNames ∧
        c.features.Forall (fun kv => 0 ≤ kv.2 ∧ kv.2 ≤ 1)) :=
  ⟨by decide, claim_C2_feature_map_shape_and_bounds envZero [plainLink "w" ["Tech"]]
    sessionZero [] ⟨none⟩ (by decide)⟩

end TheFeed

namespace TheFeed

/-! ## Engagement running mean (claim C7) -/

theorem computeEngagementScore_bounds (env : JsRuntime) (dwellTimeMs : ℚ)
    (swipeVelocity : Option ℚ) :
    0 ≤ computeEngagementScore env dwellTimeMs swipeVelocity ∧
    computeEngagementScore env dwellTimeMs swipeVelocity ≤ 1 := by
  simp only [computeEngagementScore]
  exact clamp01_bounds _

theorem iterateEngagement_bounds (k : ℤ) (s : ℚ) (hk : 1 ≤ k) (hs0 : 0 ≤ s) :
    ∀ n, 0 ≤ iterateEngagement k s n ∧ iterateEngagement k s n ≤ s
  | 0 => ⟨le_refl 0, hs0⟩
  | n + 1 => by
    obtain ⟨h0, hs⟩ := iterateEngagement_bounds k s hk hs0 n
    unfold iterateEngagement engagementScoreUpdate
    split
    · exact ⟨hs0, le_refl s⟩
    · rename_i hk2
      have hk2q : (2 : ℚ) ≤ (k : ℚ) := by exact_mod_cast (by omega : (2 : ℤ) ≤ k)
      have hkpos : (0 : ℚ) < (k : ℚ) := by linarith
      constructor
      · apply div_nonneg _ (le_of_lt hkpos)
        have hm : 0 ≤ iterateEngagement k s n * ((k : ℚ) - 1) :=
          mul_nonneg h0 (by linarith)
        linarith
      · rw [div_le_iff₀ hkpos]
        have hm : iterateEngagement k s n * ((k : ℚ) - 1) ≤ s * ((k : ℚ) - 1) :=
          mul_le_mul_of_nonneg_right hs (by linarith)
        nlinarith

theorem iterateEngagement_gap (k : ℤ) (s : ℚ) (hk : 2 ≤ k) :
    ∀ n, s - iterateEngagement k s n = s * (((k : ℚ) - 1) / (k : ℚ)) ^ n
  | 0 => by simp [iterateEngagement]
  | n + 1 => by
    have ih := iterateEngagement_gap k s hk n
    have hkpos : (0 : ℚ) < (k : ℚ) := by
      have h2 : (2 : ℚ) ≤ (k : ℚ) := by exact_mod_cast hk
      linarith
    have hkne : (k : ℚ) ≠ 0 := ne_of_gt hkpos
    have hen : iterateEngagement k s n = s - s * (((k : ℚ) - 1) / (k : ℚ)) ^ n := by
      linarith
    unfold iterateEngagement engagementScoreUpdate
    rw [if_neg (by omega)]
    rw [hen, pow_succ, div_pow]
    field_simp
    ring

theorem geo_pow_le (k : ℤ) (hk : 2 ≤ k) (n : ℕ) (hn : 1 ≤ n) :
    (((k : ℚ) - 1) / (k : ℚ)) ^ n ≤ ((k : ℚ) - 1) / n := by
  have hk1 : (1 : ℚ) ≤ (k : ℚ) - 1 := by
    have h2 : (2 : ℚ) ≤ (k : ℚ) := by exact_mod_cast hk
    linarith
  have hkm1 : (0 : ℚ) < (k : ℚ) - 1 := by linarith
  have hkpos : (0 : ℚ) < (k : ℚ) := by linarith
  have ha : (0 : ℚ) < 1 / ((k : ℚ) - 1) := by positivity
  have hbern : 1 + (n : ℚ) * (1 / ((k : ℚ) - 1)) ≤ (1 + 1 / ((k : ℚ) - 1)) ^ n :=
    one_add_mul_le_pow (by linarith) n
  have h1a : 1 + 1 / ((k : ℚ) - 1) = (k : ℚ) / ((k : ℚ) - 1) := by
    field_simp
  have hnpos : (0 : ℚ) < (n : ℚ) := by exact_mod_cast hn
  have hX : (n : ℚ) / ((k : ℚ) - 1) ≤ ((k : ℚ) / ((k : ℚ) - 1)) ^ n := by
    rw [← h1a]
    have heq : (n : ℚ) / ((k : ℚ) - 1) = (n : ℚ) * (1 / ((k : ℚ) - 1)) := by ring
    rw [heq]
    linarith
  have hfrac_pos : (0 : ℚ) < (n : ℚ) / ((k : ℚ) - 1) := by positivity
  have hinv : (((k : ℚ) - 1) / (k : ℚ)) ^ n = 1 / (((k : ℚ) / ((k : ℚ) - 1)) ^ n) := by
    rw [one_div, ← inv_pow, inv_div]
  rw [hinv]
  have h1 : 1 / (((k : ℚ) / ((k : ℚ) - 1)) ^ n) ≤ 1 / ((n : ℚ) / ((k : ℚ) - 1)) :=
    one_div_le_one_div_of_le hfrac_pos hX
  have h2 : 1 / ((n : ℚ) / ((k : ℚ) - 1)) = ((k : ℚ) - 1) / n := one_div_div _ _
  rw [h2] at h1
  exact h1

theorem iterateEngagement_converges (k : ℤ) (s : ℚ) (hs0 : 0 ≤ s) (hs1 : s ≤ 1) :
    ∀ ε : ℚ, 0 < ε → ∃ N : ℕ, ∀ n ≥ N, |iterateEngagement k s n - s| < ε := by
  intro ε hε
  by_cases hk1 : k ≤ 1
  · refine ⟨1, fun n hn => ?_⟩
    obtain ⟨m, rfl⟩ : ∃ m, n = m + 1 := ⟨n - 1, by omega⟩
    have heq : iterateEngagement k s (m + 1) = s := by
      unfold iterateEngagement engagementScoreUpdate
      rw [if_pos hk1]
    rw [heq]
    simpa using hε
  · have hk2 : 2 ≤ k := by omega
    refine ⟨⌈((k : ℚ) - 1) / ε⌉₊ + 1, fun n hn => ?_⟩
    have hn1 : 1 ≤ n := by omega
    have hgap := iterateEngagement_gap k s hk2 n
    have hpow := geo_pow_le k hk2 n hn1
    have hq0 : (0 : ℚ) ≤ (((k : ℚ) - 1) / (k : ℚ)) ^ n := by
      have h2 : (2 : ℚ) ≤ (k : ℚ) := by exact_mod_cast hk2
      apply pow_nonneg
      apply div_nonneg <;> linarith
    have habs : |iterateEngagement k s n - s| = s * (((k : ℚ) - 1) / (k : ℚ)) ^ n := by
      rw [abs_sub_comm, hgap]
      exact abs_of_nonneg (mul_nonneg hs0 hq0)
    rw [habs]
    have hle : s * (((k : ℚ) - 1) / (k : ℚ)) ^ n ≤ ((k : ℚ) - 1) / n :=
      le_trans (mul_le_of_le_one_left hq0 hs1) hpow
    have hnpos : (0 : ℚ) < (n : ℚ) := by
      exact_mod_cast Nat.lt_of_lt_of_le Nat.zero_lt_one hn1
    have hceil : ((k : ℚ) - 1) / ε < (n : ℚ) := by
      have h1 : ((k : ℚ) - 1) / ε ≤ (⌈((k : ℚ) - 1) / ε⌉₊ : ℚ) := Nat.le_ceil _
      have h2 : ((⌈((k : ℚ) - 1) / ε⌉₊ : ℕ) : ℚ) < (n : ℚ) := by
        exact_mod_cast Nat.lt_of_lt_of_le (Nat.lt_succ_self _) hn
      linarith
    have hfinal : ((k : ℚ) - 1) / n < ε := by
      rw [div_lt_iff₀ hnpos]
      have h3 := (div_lt_iff₀ hε).mp hceil
      linarith
    linarith

/-- **C7.**  The engagement-score update of engagement ingestion sets the
score to the interaction score when the row's `shownCount ≤ 1` and to
`(engagementScore·(shownCount−1) + interactionScore)/shownCount`
otherwise; consequently, for a fixed `shownCount = k ≥ 1` and initial
engagement score 0, a sequence of `n` dwell events with identical
interaction score `s ∈ [0,1]` keeps the score in `[0,1]` at every step and
converges to `s` as `n` grows. -/
theorem claim_C7_engagement_running_mean (k : ℤ) (s : ℚ)
    (hk : 1 ≤ k) (hs0 : 0 ≤ s) (hs1 : s ≤ 1) :
    (∀ (shownCount : ℤ) (old interactionScore : ℚ),
      engagementScoreUpdate shownCount old interactionScore =
        if shownCount ≤ 1 then interactionScore
        else (old * ((shownCount : ℚ) - 1) + interactionScore) / (shownCount : ℚ)) ∧
    (∀ n : ℕ, 0 ≤ iterateEngagement k s n ∧ iterateEngagement k s n ≤ 1) ∧
    (∀ ε : ℚ, 0 < ε → ∃ N : ℕ, ∀ n ≥ N, |iterateEngagement k s n - s| < ε) :=
  ⟨fun _ _ _ => rfl,
   fun n => ⟨(iterateEngagement_bounds k s hk hs0 n).1,
     le_trans (iterateEngagement_bounds k s hk hs0 n).2 hs1⟩,
   iterateEngagement_converges k s hs0 hs1⟩

theorem claim_C7_engagement_running_mean_witness :
    (1 ≤ (2 : ℤ)) ∧ (0 ≤ (1/2 : ℚ)) ∧ ((1/2 : ℚ) ≤ 1) ∧
    ((∀ (shownCount : ℤ) (old interactionScore : ℚ),
      engagementScoreUpdate shownCount old interactionScore =
        if shownCount ≤ 1 then interactionScore
        else (old * ((shownCount : ℚ) - 1) + interactionScore) / (shownCount : ℚ)) ∧
    (∀ n : ℕ, 0 ≤ iterateEngagement 2 (1/2) n ∧ iterateEngagement 2 (1/2) n ≤ 1) ∧
    (∀ ε : ℚ, 0 < ε → ∃ N : ℕ, ∀ n ≥ N, |iterateEngagement 2 (1/2) n - 1/2| < ε)) :=
  ⟨by norm_num, by norm_num, by norm_num,
   claim_C7_engagement_running_mean 2 (1/2) (by norm_num) (by norm_num) (by norm_num)⟩

end TheFeed

namespace TheFeed

/-! ## shownCount monotonicity (claim C10) -/

/-- **C10 (counterexample).**  `shownCount` does not grow monotonically
under every exposed operation: a `PATCH /links/{id}` with
`{ shownCount: 3 }` on an entry whose current `shownCount` is 5 sets it
to 3, a decrease. -/
theorem claim_C10_counterexample :
    (applyPatch 0 ⟨none, some 3, false, none⟩ rowShownFive).map
      (fun row => row.shownCount) = some 3 ∧
    (3 : ℤ) < rowShownFive.shownCount := by decide

/-- **C10 (amended).**  `shownCount` never decreases under engagement
ingestion of impressions, nor under any `PATCH /links/{id}` that does not
supply an explicit `shownCount`; a PATCH that does supply `shownCount`
(and not `incrementShown`, which overrides it) sets the counter to
`max 0 shownCount`, which may be lower than the current value. -/
theorem patch_some_eq {c : Bool} {x y : LinkRow}
    (h : (if c = true then none else some x) = some y) : y = x := by
  cases c
  · simp at h
    exact h.symm
  · simp at h

theorem claim_C10_amended_shown_count (now : ℚ) (count : ℕ) (body : PatchBody)
    (row row2 : LinkRow) :
    row.shownCount ≤ (applyImpressions now count row).shownCount ∧
    (body.shownCount = none → applyPatch now body row = some row2 →
      row.shownCount ≤ row2.shownCount) ∧
    (∀ n : ℤ, body.shownCount = some n → body.incrementShown = false →
      applyPatch now body row = some row2 → row2.shownCount = max 0 n) := by
  refine ⟨?_, ?_, ?_⟩
  · simp only [applyImpressions]
    omega
  · intro hnone happ
    simp only [applyPatch] at happ
    have hrow := patch_some_eq happ
    rw [hrow]
    cases hinc : body.incrementShown <;> simp [hnone, hinc]
  · intro n hsome hincf happ
    simp only [applyPatch] at happ
    have hrow := patch_some_eq happ
    rw [hrow]
    simp [hsome, hincf]

theorem claim_C10_amended_shown_count_witness :
    rowShownFive.shownCount ≤ (applyImpressions 0 2 rowShownFive).shownCount ∧
    rowShownFive.shownCount ≤ rowShownSix.shownCount :=
  ⟨(claim_C10_amended_shown_count 0 2 ⟨none, none, true, none⟩ rowShownFive rowShownSix).1,
   (claim_C10_amended_shown_count 0 2 ⟨none, none, true, none⟩ rowShownFive rowShownSix).2.1
     rfl (by decide)⟩

end TheFeed


namespace TheFeed

/-! ## Reranker score normalization (claim C8) -/

theorem foldMinAux_spec :
    ∀ (l : List ℚ) (acc : Option ℚ) (m : ℚ),
    l.foldl (fun acc x =>
      match acc with
      | none => some x
      | some m0 => some (min m0 x)) acc = some m →
    (∀ x ∈ l, m ≤ x) ∧ (∀ a, acc = some a → m ≤ a)
  | [], acc, m, h => by
    refine ⟨fun x hx => absurd hx (by simp), fun a ha => ?_⟩
    simp only [List.foldl] at h
    rw [ha] at h
    simp only [Option.some_inj] at h
    exact le_of_eq h.symm
  | x :: t, acc, m, h => by
    cases acc with
    | none =>
      simp only [List.foldl] at h
      obtain ⟨hmem, hacc⟩ := foldMinAux_spec t (some x) m h
      have hval : m ≤ x := hacc x rfl
      refine ⟨?_, fun a ha => by simp at ha⟩
      intro y hy
      rcases List.mem_cons.mp hy with rfl | hyt
      · exact hval
      · exact hmem y hyt
    | some m0 =>
      simp only [List.foldl] at h
      obtain ⟨hmem, hacc⟩ := foldMinAux_spec t (some (min m0 x)) m h
      have hval : m ≤ min m0 x := hacc _ rfl
      refine ⟨?_, ?_⟩
      · intro y hy
        rcases List.mem_cons.mp hy with rfl | hyt
        · exact le_trans hval (min_le_right m0 y)
        · exact hmem y hyt
      · intro a ha
        injection ha with ha
        subst ha
        exact le_trans hval (min_le_left _ x)

theorem foldMinQ_le (l : List ℚ) (m : ℚ) (h : foldMinQ l = some m) :
    ∀ x ∈ l, m ≤ x :=
  (foldMinAux_spec l none m h).1

theorem foldMaxAux_spec :
    ∀ (l : List ℚ) (acc : Option ℚ) (m : ℚ),
    l.foldl (fun acc x =>
      match acc with
      | none => some x
      | some m0 => some (max m0 x)) acc = some m →
    (∀ x ∈ l, x ≤ m) ∧ (∀ a, acc = some a → a ≤ m)
  | [], acc, m, h => by
    refine ⟨fun x hx => absurd hx (by simp), fun a ha => ?_⟩
    simp only [List.foldl] at h
    rw [ha] at h
    simp only [Option.some_inj] at h
    exact le_of_eq h
  | x :: t, acc, m, h => by
    cases acc with
    | none =>
      simp only [List.foldl] at h
      obtain ⟨hmem, hacc⟩ := foldMaxAux_spec t (some x) m h
      have hval : x ≤ m := hacc x rfl
      refine ⟨?_, fun a ha => by simp at ha⟩
      intro y hy
      rcases List.mem_cons.mp hy with rfl | hyt
      · exact hval
      · exact hmem y hyt
    | some m0 =>
      simp only [List.foldl] at h
      obtain ⟨hmem, hacc⟩ := foldMaxAux_spec t (some (max m0 x)) m h
      have hval : max m0 x ≤ m := hacc _ rfl
      refine ⟨?_, ?_⟩
      · intro y hy
        rcases List.mem_cons.mp hy with rfl | hyt
        · exact le_trans (le_max_right m0 y) hval
        · exact hmem y hyt
      · intro a ha
        injection ha with ha
        subst ha
        exact le_trans (le_max_left _ x) hval

theorem foldMaxQ_ge (l : List ℚ) (m : ℚ) (h : foldMaxQ l = some m) :
    ∀ x ∈ l, x ≤ m :=
  (foldMaxAux_spec l none m h).1

/-- **C8 (counterexample).**  `normalizeScores` does not map the minimum
to 0 and the maximum to 1 whenever `max > min`: on the finite scores
`[0, 1e-10]` the spread is positive but below the `1e-9` threshold, so the
all-0.5 vector is returned. -/
theorem claim_C8_counterexample :
    (0 : ℚ) < 1/10000000000 ∧
    normalizeScores [JsNum.num 0, JsNum.num (1/10000000000)] = [1/2, 1/2] := by
  constructor
  · norm_num
  · simp only [normalizeScores, foldMinQ, foldMaxQ, JsNum.toFinite, List.map,
      List.foldl, List.isEmpty]
    norm_num [min_def, max_def]

/-- **C8 (amended).**  Reranker score normalization maps the candidate
set's scores (non-finite values replaced by 0) so that the minimum maps to
0 and the maximum maps to 1 whenever `max - min ≥ 1e-9`, and yields the
all-0.5 vector exactly when `max - min < 1e-9` (in particular when all
scores are equal or all are non-finite). -/
theorem claim_C8_amended_normalize (scores : List JsNum) (mn mx : ℚ)
    (hmn : foldMinQ (scores.map JsNum.toFinite) = some mn)
    (hmx : foldMaxQ (scores.map JsNum.toFinite) = some mx) :
    ((1/1000000000 : ℚ) ≤ mx - mn →
      normalizeScores scores = (scores.map JsNum.toFinite).map
        (fun score => (score - mn) / (mx - mn)) ∧
      (∀ i : ℕ, (scores.map JsNum.toFinite)[i]? = some mn →
        (normalizeScores scores)[i]? = some 0) ∧
      (∀ i : ℕ, (scores.map JsNum.toFinite)[i]? = some mx →
        (normalizeScores scores)[i]? = some 1)) ∧
    (mx - mn < 1/1000000000 →
      normalizeScores scores = (scores.map JsNum.toFinite).map
        (fun _ => (1/2 : ℚ))) := by
  have hne : scores ≠ [] := by
    intro h
    subst h
    simp [foldMinQ] at hmn
  have hie : scores.isEmpty = false := by
    cases scores
    · exact absurd rfl hne
    · rfl
  have hnorm : normalizeScores scores =
      if mx - mn < 1/1000000000 then
        (scores.map JsNum.toFinite).map (fun _ => (1/2 : ℚ))
      else (scores.map JsNum.toFinite).map
        (fun score => (score - mn) / (mx - mn)) := by
    unfold normalizeScores
    rw [hie]
    simp only [Bool.false_eq_true, if_false]
    rw [hmn, hmx]
  constructor
  · intro hge
    have hlt : ¬ (mx - mn < 1/1000000000) := by linarith
    rw [hnorm, if_neg hlt]
    have hdpos : (0 : ℚ) < mx - mn := by linarith
    refine ⟨rfl, ?_, ?_⟩
    · intro i hi
      rw [List.getElem?_map, hi]
      simp
    · intro i hi
      rw [List.getElem?_map, hi]
      simp [div_self (ne_of_gt hdpos)]
  · intro hlt
    rw [hnorm, if_pos hlt]

theorem claim_C8_amended_normalize_witness :
    foldMinQ ([JsNum.num 0, JsNum.num 1].map JsNum.toFinite) = some 0 ∧
    foldMaxQ ([JsNum.num 0, JsNum.num 1].map JsNum.toFinite) = some 1 ∧
    (((1/1000000000 : ℚ) ≤ 1 - 0 →
      normalizeScores [JsNum.num 0, JsNum.num 1] =
        ([JsNum.num 0, JsNum.num 1].map JsNum.toFinite).map
          (fun score => (score - 0) / (1 - 0)) ∧
      (∀ i : ℕ, ([JsNum.num 0, JsNum.num 1].map JsNum.toFinite)[i]? = some 0 →
        (normalizeScores [JsNum.num 0, JsNum.num 1])[i]? = some 0) ∧
      (∀ i : ℕ, ([JsNum.num 0, JsNum.num 1].map JsNum.toFinite)[i]? = some 1 →
        (normalizeScores [JsNum.num 0, JsNum.num 1])[i]? = some 1)) ∧
    ((1 : ℚ) - 0 < 1/1000000000 →
      normalizeScores [JsNum.num 0, JsNum.num 1] =
        ([JsNum.num 0, JsNum.num 1].map JsNum.toFinite).map (fun _ => (1/2 : ℚ)))) :=
  ⟨by simp [foldMinQ, JsNum.toFinite, min_def],
   by simp [foldMaxQ, JsNum.toFinite, max_def],
   claim_C8_amended_normalize [JsNum.num 0, JsNum.num 1] 0 1
     (by simp [foldMinQ, JsNum.toFinite, min_def])
     (by simp [foldMaxQ, JsNum.toFinite, max_def])⟩

end TheFeed

namespace TheFeed

/-! ## Reranker blend and re-sort (claim C9) -/

theorem normalizeScores_mem_bounds (scores : List JsNum) :
    ∀ x ∈ normalizeScores scores, 0 ≤ x ∧ x ≤ 1 := by
  intro x hx
  simp only [normalizeScores] at hx
  split at hx
  · simp at hx
  · split at hx
    · rename_i mn mx hmn hmx
      split at hx
      · rw [List.mem_map] at hx
        obtain ⟨y, hy, rfl⟩ := hx
        norm_num
      · rename_i hcond
        rw [List.mem_map] at hx
        obtain ⟨y, hy, rfl⟩ := hx
        have hylo := foldMinQ_le _ mn hmn y hy
        have hyhi := foldMaxQ_ge _ mx hmx y hy
        have hdpos : (0 : ℚ) < mx - mn := by
          by_contra hle
          exact hcond (by linarith)
        constructor
        · exact div_nonneg (by linarith) (le_of_lt hdpos)
        · rw [div_le_one hdpos]
          linarith
    · rw [List.mem_map] at hx
      obtain ⟨y, hy, rfl⟩ := hx
      norm_num

/-- **C9.**  With no model loaded (not configured, disabled, or failed
load), `maybeApplyXGBoostReranker` returns the candidate list unchanged
with `rerankerVersion = null` and `applied = false`.  With a model loaded
and a non-empty candidate list, it marks `applied`, reports the model
version, gives every candidate `rerankScore = modelScore ∈ [0,1]` and
`score = baseScore·0.35 + modelScore·0.65`, and returns the candidates
sorted by descending score. -/
theorem claim_C9_reranker_blend (env : JsRuntime) (model : XGBoostRerankerModel)
    (candidates : List RankingCandidate) (hne : candidates ≠ []) :
    maybeApplyXGBoostReranker env none candidates =
      ⟨candidates, none, false⟩ ∧
    (maybeApplyXGBoostReranker env (some model) candidates).applied = true ∧
    (maybeApplyXGBoostReranker env (some model) candidates).rerankerVersion =
      some model.version ∧
    (maybeApplyXGBoostReranker env (some model) candidates).candidates.Forall
      (fun c => ∃ ms, c.rerankScore = some ms ∧ 0 ≤ ms ∧ ms ≤ 1 ∧
        c.score = c.baseScore * (35/100) + ms * (65/100)) ∧
    List.Pairwise (fun a b => b.score ≤ a.score)
      (maybeApplyXGBoostReranker env (some model) candidates).candidates := by
  have hie : candidates.isEmpty = false := by
    cases candidates
    · exact absurd rfl hne
    · rfl
  have happ : maybeApplyXGBoostReranker env (some model) candidates =
      ⟨(rerankCandidates env model candidates).mergeSort
          (fun a b => decide (b.score ≤ a.score)),
        some model.version, true⟩ := by
    simp only [maybeApplyXGBoostReranker, hie, Bool.false_eq_true, if_false]
  refine ⟨rfl, ?_, ?_, ?_, ?_⟩
  · rw [happ]
  · rw [happ]
  · rw [happ]
    apply forall_of_perm (List.mergeSort_perm _ _).symm
    rw [List.forall_iff_forall_mem]
    intro x hx
    rw [List.mem_iff_getElem] at hx
    obtain ⟨i, hi, hxe⟩ := hx
    subst hxe
    simp only [rerankCandidates, List.getElem_mapIdx]
    refine ⟨_, rfl, ?_, ?_, rfl⟩
    · cases hg : (normalizeScores (candidates.map
          (fun c2 => JsNum.num (predictWithModel env c2.features model))))[i]? with
      | none => simp [hg]
      | some v =>
        have hb := normalizeScores_mem_bounds _ v (List.getElem?_mem hg)
        simp only [hg, Option.getD_some]
        exact hb.1
    · cases hg : (normalizeScores (candidates.map
          (fun c2 => JsNum.num (predictWithModel env c2.features model))))[i]? with
      | none =>
        simp only [hg, Option.getD_none]
        norm_num
      | some v =>
        have hb := normalizeScores_mem_bounds _ v (List.getElem?_mem hg)
        simp only [hg, Option.getD_some]
        exact hb.2
  · rw [happ]
    have htrans : ∀ a b c : RankingCandidate,
        decide (b.score ≤ a.score) = true →
        decide (c.score ≤ b.score) = true →
        decide (c.score ≤ a.score) = true := by
      intro a b c h1 h2
      simp only [decide_eq_true_eq] at h1 h2 ⊢
      exact le_trans h2 h1
    have htotal : ∀ a b : RankingCandidate,
        (decide (b.score ≤ a.score) || decide (a.score ≤ b.score)) = true := by
      intro a b
      simp only [Bool.or_eq_true, decide_eq_true_eq]
      exact le_total b.score a.score
    have hs := List.sorted_mergeSort htrans htotal (rerankCandidates env model candidates)
    exact hs.imp (fun h => by simpa using h)

theorem claim_C9_reranker_blend_witness :
    ([plainCand "x" []] : List RankingCandidate) ≠ [] ∧
    (maybeApplyXGBoostReranker envZero none [plainCand "x" []] =
      ⟨[plainCand "x" []], none, false⟩ ∧
    (maybeApplyXGBoostReranker envZero (some modelFix) [plainCand "x" []]).applied = true ∧
    (maybeApplyXGBoostReranker envZero (some modelFix) [plainCand "x" []]).rerankerVersion =
      some modelFix.version ∧
    (maybeApplyXGBoostReranker envZero (some modelFix) [plainCand "x" []]).candidates.Forall
      (fun c => ∃ ms, c.rerankScore = some ms ∧ 0 ≤ ms ∧ ms ≤ 1 ∧
        c.score = c.baseScore * (35/100) + ms * (65/100)) ∧
    List.Pairwise (fun a b => b.score ≤ a.score)
      (maybeApplyXGBoostReranker envZero (some modelFix) [plainCand "x" []]).candidates) :=
  ⟨by simp, claim_C9_reranker_blend envZero modelFix [plainCand "x" []] (by simp)⟩

end TheFeed

namespace TheFeed

/-- Evaluated bounds of the reserved-range constants used by
`isPrivateIPv4Num`. -/
theorem isPrivateIPv4Num_iff_specReservedV4 (n : ℕ) :
    isPrivateIPv4Num n = true ↔ specReservedV4 n := by
  have e1 : ipv4ToInt "0.0.0.0" = v4 0 0 0 0 := by decide
  have e2 : ipv4ToInt "0.255.255.255" = v4 0 255 255 255 := by decide
  have e3 : ipv4ToInt "10.0.0.0" = v4 10 0 0 0 := by decide
  have e4 : ipv4ToInt "10.255.255.255" = v4 10 255 255 255 := by decide
  have e5 : ipv4ToInt "100.64.0.0" = v4 100 64 0 0 := by decide
  have e6 : ipv4ToInt "100.127.255.255" = v4 100 127 255 255 := by decide
  have e7 : ipv4ToInt "127.0.0.0" = v4 127 0 0 0 := by decide
  have e8 : ipv4ToInt "127.255.255.255" = v4 127 255 255 255 := by decide
  have e9 : ipv4ToInt "169.254.0.0" = v4 169 254 0 0 := by decide
  have e10 : ipv4ToInt "169.254.255.255" = v4 169 254 255 255 := by decide
  have e11 : ipv4ToInt "172.16.0.0" = v4 172 16 0 0 := by decide
  have e12 : ipv4ToInt "172.31.255.255" = v4 172 31 255 255 := by decide
  have e13 : ipv4ToInt "192.0.0.0" = v4 192 0 0 0 := by decide
  have e14 : ipv4ToInt "192.0.0.255" = v4 192 0 0 255 := by decide
  have e15 : ipv4ToInt "192.0.2.0" = v4 192 0 2 0 := by decide
  have e16 : ipv4ToInt "192.0.2.255" = v4 192 0 2 255 := by decide
  have e17 : ipv4ToInt "192.168.0.0" = v4 192 168 0 0 := by decide
  have e18 : ipv4ToInt "192.168.255.255" = v4 192 168 255 255 := by decide
  have e19 : ipv4ToInt "198.18.0.0" = v4 198 18 0 0 := by decide
  have e20 : ipv4ToInt "198.19.255.255" = v4 198 19 255 255 := by decide
  have e21 : ipv4ToInt "224.0.0.0" = v4 224 0 0 0 := by decide
  have e22 : ipv4ToInt "239.255.255.255" = v4 239 255 255 255 := by decide
  have e23 : ipv4ToInt "240.0.0.0" = v4 240 0 0 0 := by decide
  have e24 : ipv4ToInt "255.255.255.255" = v4 255 255 255 255 := by decide
  simp only [isPrivateIPv4Num, inRange, Bool.or_eq_true, Bool.and_eq_true,
    decide_eq_true_eq, e1, e2, e3, e4, e5, e6, e7, e8, e9, e10, e11, e12,
    e13, e14, e15, e16, e17, e18, e19, e20, e21, e22, e23, e24]
  unfold specReservedV4
  simp only [v4]
  omega

/-- On a sound cache, `assertPublicHostname` accepts a hostname exactly
when the pure per-hostname decision is positive. -/
theorem assertPublicHostname_none_iff (dns : String → List String)
    (cache : List (String × Bool)) (h : String)
    (hsound : CacheSound dns cache) :
    (assertPublicHostname dns cache h).1 = none ↔
      hostDecision dns (strToLower h) = true := by
  simp only [assertPublicHostname]
  cases hlk : List.lookup (strToLower h) cache with
  | some b =>
    have hb := hsound _ _ hlk
    cases b with
    | false => simp [← hb]
    | true => simp [← hb]
  | none =>
    unfold hostDecision
    by_cases hbl : isBlockedHostname (strToLower h) = true
    · simp [hbl]
    · rw [Bool.not_eq_true] at hbl
      by_cases hil : isIpLiteral (strToLower h) = true
      · cases hpriv : isPrivateIp (strToLower h) <;> simp [hbl, hil, hpriv]
      · rw [Bool.not_eq_true] at hil
        by_cases hemp : (dns (strToLower h)).isEmpty = true
        · simp [hbl, hil, hemp]
        · rw [Bool.not_eq_true] at hemp
          cases hall : (dns (strToLower h)).all (fun addr => !isPrivateIp addr) <;>
            simp [hbl, hil, hemp, hall]

/-- A negative per-hostname decision forces a rejection. -/
theorem assertPublicHostname_isSome_of_false (dns : String → List String)
    (cache : List (String × Bool)) (h : String)
    (hsound : CacheSound dns cache)
    (hd : hostDecision dns (strToLower h) = false) :
    (assertPublicHostname dns cache h).1.isSome = true := by
  cases hres : (assertPublicHostname dns cache h).1 with
  | none =>
    have := (assertPublicHostname_none_iff dns cache h hsound).mp hres
    rw [hd] at this
    exact absurd this (by simp)
  | some e => rfl

end TheFeed

namespace TheFeed

/-- Character facts about lower-case hex digits, by enumeration. -/
theorem hexDigitChar_facts : ∀ k, k < 16 →
    isHexDigitChar (hexDigitChar k) = true ∧
    (hexDigitChar k).toLower = hexDigitChar k ∧
    hexDigitChar k ≠ Char.ofNat 58 ∧
    hexDigitChar k ≠ Char.ofNat 46 ∧
    hexDigitChar k ≠ Char.ofNat 37 := by decide

/-- Decimal-digit facts about the first ten hex digit characters. -/
theorem hexDigitChar_digit : ∀ k, k < 10 →
    (hexDigitChar k).isDigit = true ∧ (hexDigitChar k).toNat - 48 = k := by decide

theorem hexDigitChar_ne_zero : ∀ k, 1 ≤ k → k < 10 →
    (hexDigitChar k == Char.ofNat 48) = false := by decide

/-- Every character of a hex group is a lower-case hex digit. -/
theorem hexChars_mem (n : ℕ) (hn : n < 65536) :
    ∀ c ∈ hexChars n, ∃ k, k < 16 ∧ c = hexDigitChar k := by
  intro c hc
  unfold hexChars at hc
  by_cases h1 : n < 16
  · rw [if_pos h1] at hc
    simp only [List.mem_singleton] at hc
    exact ⟨n, h1, hc⟩
  · rw [if_neg h1] at hc
    by_cases h2 : n < 256
    · rw [if_pos h2] at hc
      simp only [List.mem_cons, List.mem_singleton, List.not_mem_nil, or_false] at hc
      rcases hc with hc | hc
      · exact ⟨n / 16, by omega, hc⟩
      · exact ⟨n % 16, by omega, hc⟩
    · rw [if_neg h2] at hc
      by_cases h3 : n < 4096
      · rw [if_pos h3] at hc
        simp only [List.mem_cons, List.not_mem_nil, or_false] at hc
        rcases hc with hc | hc | hc
        · exact ⟨n / 256, by omega, hc⟩
        · exact ⟨n / 16 % 16, by omega, hc⟩
        · exact ⟨n % 16, by omega, hc⟩
      · rw [if_neg h3] at hc
        simp only [List.mem_cons, List.not_mem_nil, or_false] at hc
        rcases hc with hc | hc | hc | hc
        · exact ⟨n / 4096, by omega, hc⟩
        · exact ⟨n / 256 % 16, by omega, hc⟩
        · exact ⟨n / 16 % 16, by omega, hc⟩
        · exact ⟨n % 16, by omega, hc⟩

theorem hexChars_ne_nil (n : ℕ) : hexChars n ≠ [] := by
  unfold hexChars
  split
  · exact List.cons_ne_nil _ _
  · split
    · exact List.cons_ne_nil _ _
    · split
      · exact List.cons_ne_nil _ _
      · exact List.cons_ne_nil _ _

theorem hexChars_length_le (n : ℕ) : (hexChars n).length ≤ 4 := by
  unfold hexChars
  split
  · simp
  · split
    · simp
    · split
      · simp
      · simp

theorem isHexGroup_hexChars (n : ℕ) (hn : n < 65536) :
    isHexGroup (hexChars n) = true := by
  unfold isHexGroup
  have hne : (hexChars n).isEmpty = false := by
    cases h : hexChars n
    · exact absurd h (hexChars_ne_nil n)
    · rfl
  rw [hne]
  simp only [Bool.not_false, Bool.true_and, Bool.and_eq_true, decide_eq_true_eq,
    List.all_eq_true]
  refine ⟨hexChars_length_le n, ?_⟩
  intro c hc
  obtain ⟨k, hk, rfl⟩ := hexChars_mem n hn c hc
  exact (hexDigitChar_facts k hk).1

/-- Characters of a hex group are not `:`, `.` or `\x25`, and are
lower-case stable. -/
theorem hexChars_char_facts (n : ℕ) (hn : n < 65536) :
    ∀ c ∈ hexChars n, c.toLower = c ∧ c ≠ Char.ofNat 58 ∧
      c ≠ Char.ofNat 46 ∧ c ≠ Char.ofNat 37 := by
  intro c hc
  obtain ⟨k, hk, rfl⟩ := hexChars_mem n hn c hc
  obtain ⟨-, h2, h3, h4, h5⟩ := hexDigitChar_facts k hk
  exact ⟨h2, h3, h4, h5⟩

/-- Decimal byte text: digit characters only. -/
theorem natToChars3_mem (n : ℕ) (hn : n < 256) :
    ∀ c ∈ natToChars3 n, ∃ k, k < 10 ∧ c = hexDigitChar k := by
  intro c hc
  unfold natToChars3 at hc
  by_cases h1 : n < 10
  · rw [if_pos h1] at hc
    simp only [List.mem_singleton] at hc
    exact ⟨n, h1, hc⟩
  · rw [if_neg h1] at hc
    by_cases h2 : n < 100
    · rw [if_pos h2] at hc
      simp only [List.mem_cons, List.mem_singleton, List.not_mem_nil, or_false] at hc
      rcases hc with hc | hc
      · exact ⟨n / 10, by omega, hc⟩
      · exact ⟨n % 10, by omega, hc⟩
    · rw [if_neg h2] at hc
      simp only [List.mem_cons, List.not_mem_nil, or_false] at hc
      rcases hc with hc | hc | hc
      · exact ⟨n / 100, by omega, hc⟩
      · exact ⟨n / 10 % 10, by omega, hc⟩
      · exact ⟨n % 10, by omega, hc⟩

theorem natToChars3_digits (n : ℕ) (hn : n < 256) :
    ∀ c ∈ natToChars3 n, c.isDigit = true := by
  intro c hc
  obtain ⟨k, hk, rfl⟩ := natToChars3_mem n hn c hc
  exact (hexDigitChar_digit k hk).1

theorem charsToNat_natToChars3 (n : ℕ) (hn : n < 256) :
    charsToNat (natToChars3 n) = n := by
  unfold natToChars3
  by_cases h1 : n < 10
  · rw [if_pos h1]
    simp only [charsToNat, List.foldl]
    rw [(hexDigitChar_digit n h1).2]
    omega
  · rw [if_neg h1]
    by_cases h2 : n < 100
    · rw [if_pos h2]
      simp only [charsToNat, List.foldl]
      rw [(hexDigitChar_digit (n / 10) (by omega)).2,
        (hexDigitChar_digit (n % 10) (by omega)).2]
      omega
    · rw [if_neg h2]
      simp only [charsToNat, List.foldl]
      rw [(hexDigitChar_digit (n / 100) (by omega)).2,
        (hexDigitChar_digit (n / 10 % 10) (by omega)).2,
        (hexDigitChar_digit (n % 10) (by omega)).2]
      omega

theorem isIPv4Part_natToChars3 (n : ℕ) (hn : n < 256) :
    isIPv4Part (natToChars3 n) = true := by
  unfold isIPv4Part
  have hdig : (natToChars3 n).all Char.isDigit = true :=
    List.all_eq_true.mpr (natToChars3_digits n hn)
  have hval : (decide (charsToNat (natToChars3 n) ≤ 255)) = true := by
    rw [charsToNat_natToChars3 n hn]
    exact decide_eq_true (by omega)
  have hlead : (natToChars3 n == [Char.ofNat 48] ||
      !((natToChars3 n).headD (Char.ofNat 48) == Char.ofNat 48)) = true := by
    unfold natToChars3
    by_cases h1 : n < 10
    · rw [if_pos h1]
      by_cases h0 : n = 0
      · subst h0
        decide
      · have : (hexDigitChar n == Char.ofNat 48) = false :=
          hexDigitChar_ne_zero n (by omega) h1
        simp only [List.headD_cons, this, Bool.not_false, Bool.or_true]
    · rw [if_neg h1]
      by_cases h2 : n < 100
      · rw [if_pos h2]
        have : (hexDigitChar (n / 10) == Char.ofNat 48) = false :=
          hexDigitChar_ne_zero (n / 10) (by omega) (by omega)
        simp only [List.headD_cons, this, Bool.not_false, Bool.or_true]
      · rw [if_neg h2]
        have : (hexDigitChar (n / 100) == Char.ofNat 48) = false :=
          hexDigitChar_ne_zero (n / 100) (by omega) (by omega)
        simp only [List.headD_cons, this, Bool.not_false, Bool.or_true]
  have hne : (natToChars3 n).isEmpty = false := by
    unfold natToChars3
    split
    · rfl
    · split
      · rfl
      · rfl
  rw [hne, hdig, hval, hlead]
  rfl

end TheFeed

namespace TheFeed

/-- Definitional unfolding of `splitOnChar` on a cons cell. -/
theorem splitOnChar_cons (sep c : Char) (cs : List Char) :
    splitOnChar sep (c :: cs) =
      if c == sep then [] :: splitOnChar sep cs
      else match splitOnChar sep cs with
        | [] => [[c]]
        | r :: rs => (c :: r) :: rs := rfl

/-- `splitOnChar` never returns the empty list of parts. -/
theorem splitOnChar_exists_cons (sep : Char) :
    ∀ cs : List Char, ∃ r rs, splitOnChar sep cs = r :: rs
  | [] => ⟨[], [], rfl⟩
  | c :: cs => by
    obtain ⟨r, rs, h⟩ := splitOnChar_exists_cons sep cs
    rw [splitOnChar_cons]
    by_cases hc : (c == sep) = true
    · rw [if_pos hc]
      exact ⟨[], splitOnChar sep cs, rfl⟩
    · rw [if_neg hc, h]
      exact ⟨c :: r, rs, rfl⟩

theorem splitOnChar_ne_nil (sep : Char) (cs : List Char) :
    splitOnChar sep cs ≠ [] := by
  obtain ⟨r, rs, h⟩ := splitOnChar_exists_cons sep cs
  rw [h]
  exact List.cons_ne_nil r rs

theorem splitOnChar_cons_sep (sep : Char) (cs : List Char) :
    splitOnChar sep (sep :: cs) = [] :: splitOnChar sep cs := by
  rw [splitOnChar_cons, if_pos (by simp)]

/-- Splitting `p ++ cs` where `p` is separator-free prepends `p` onto
the first part of the split of `cs`. -/
theorem splitOnChar_append_no_sep (sep : Char) :
    ∀ (p cs : List Char), (∀ c ∈ p, c ≠ sep) →
    splitOnChar sep (p ++ cs) =
      (p ++ (splitOnChar sep cs).headD []) :: (splitOnChar sep cs).tail
  | [], cs, _ => by
    obtain ⟨r, rs, h⟩ := splitOnChar_exists_cons sep cs
    rw [List.nil_append, h]
    rfl
  | a :: p, cs, hp => by
    have ha : (a == sep) = false := by
      have := hp a (List.mem_cons_self a p)
      exact beq_eq_false_iff_ne.mpr this
    have ih := splitOnChar_append_no_sep sep p cs
      (fun c hc => hp c (List.mem_cons_of_mem a hc))
    rw [List.cons_append, splitOnChar_cons, if_neg (by simp [ha]), ih]
    rfl

/-- A separator-free list splits into itself alone. -/
theorem splitOnChar_no_sep (sep : Char) (cs : List Char)
    (h : ∀ c ∈ cs, c ≠ sep) : splitOnChar sep cs = [cs] := by
  have h2 := splitOnChar_append_no_sep sep cs [] h
  rw [List.append_nil] at h2
  have h0 : splitOnChar sep ([] : List Char) = [[]] := rfl
  rw [h0] at h2
  simpa using h2

theorem joinSep_cons₂ (sep : Char) (p q : List Char) (rest : List (List Char)) :
    joinSep sep (p :: q :: rest) = p ++ sep :: joinSep sep (q :: rest) := rfl

/-- `joinSep` of a non-empty list starts with its first part. -/
theorem joinSep_cons_ex (sep : Char) (p : List Char) (r : List (List Char)) :
    ∃ t, joinSep sep (p :: r) = p ++ t := by
  cases r with
  | nil => exact ⟨[], by simp [joinSep]⟩
  | cons q rest => exact ⟨sep :: joinSep sep (q :: rest), rfl⟩

/-- Splitting a separator-joined list of separator-free parts recovers
the parts, with any separated tail split behind them. -/
theorem splitOnChar_joinSep_append (sep : Char) :
    ∀ (ps : List (List Char)) (cs : List Char), ps ≠ [] →
    (∀ p ∈ ps, ∀ c ∈ p, c ≠ sep) →
    splitOnChar sep (joinSep sep ps ++ sep :: cs) = ps ++ splitOnChar sep cs
  | [], _, hne, _ => absurd rfl hne
  | [p], cs, _, hp => by
    have h1 := splitOnChar_append_no_sep sep p (sep :: cs)
      (hp p (List.mem_singleton.mpr rfl))
    rw [joinSep]
    rw [h1, splitOnChar_cons_sep]
    simp
  | p :: q :: rest, cs, _, hp => by
    have ih := splitOnChar_joinSep_append sep (q :: rest) cs (List.cons_ne_nil q rest)
      (fun r hr c hc => hp r (List.mem_cons_of_mem p hr) c hc)
    rw [joinSep_cons₂, List.append_assoc, List.cons_append]
    have h1 := splitOnChar_append_no_sep sep p
      (sep :: (joinSep sep (q :: rest) ++ sep :: cs))
      (hp p (List.mem_cons_self p _))
    rw [h1, splitOnChar_cons_sep, ih]
    simp

theorem splitOnChar_joinSep (sep : Char) (ps : List (List Char)) (hne : ps ≠ [])
    (hp : ∀ p ∈ ps, ∀ c ∈ p, c ≠ sep) :
    splitOnChar sep (joinSep sep ps) = ps := by
  cases ps with
  | nil => exact absurd rfl hne
  | cons p rest =>
    cases rest with
    | nil =>
      rw [joinSep]
      exact splitOnChar_no_sep sep p (hp p (List.mem_singleton.mpr rfl))
    | cons q rest =>
      rw [joinSep_cons₂]
      have := splitOnChar_joinSep_append sep [p] (joinSep sep (q :: rest) ++ []) (by simp)
        (by intro r hr c hc; exact hp r (by simp [List.mem_singleton.mp hr]) c hc)
      rw [joinSep, List.append_nil] at this
      rw [this, splitOnChar_joinSep sep (q :: rest) (List.cons_ne_nil q rest)
        (fun r hr c hc => hp r (List.mem_cons_of_mem p hr) c hc)]
      rfl

/-- A non-separator character of a list survives into some part of its
split. -/
theorem mem_split_of_mem (sep : Char) :
    ∀ (cs : List Char) (c : Char), c ∈ cs → c ≠ sep →
    ∃ p ∈ splitOnChar sep cs, c ∈ p
  | [], c, hc, _ => absurd hc (List.not_mem_nil c)
  | x :: cs, c, hc, hne => by
    rw [splitOnChar_cons]
    by_cases hx : (x == sep) = true
    · rw [if_pos hx]
      have hxc : c ≠ x := by
        intro h
        exact hne (h ▸ beq_iff_eq.mp hx)
      have hmem : c ∈ cs := by
        rcases List.mem_cons.mp hc with h | h
        · exact absurd h hxc
        · exact h
      obtain ⟨p, hp, hcp⟩ := mem_split_of_mem sep cs c hmem hne
      exact ⟨p, List.mem_cons_of_mem [] hp, hcp⟩
    · rw [if_neg hx]
      obtain ⟨r, rs, hsplit⟩ := splitOnChar_exists_cons sep cs
      rw [hsplit]
      rcases List.mem_cons.mp hc with h | h
      · exact ⟨x :: r, List.mem_cons_self _ _, h ▸ List.mem_cons_self x r⟩
      · obtain ⟨p, hp, hcp⟩ := mem_split_of_mem sep cs c h hne
        rw [hsplit] at hp
        rcases List.mem_cons.mp hp with hpr | hprs
        · exact ⟨x :: r, List.mem_cons_self _ _, hpr ▸ List.mem_cons_of_mem x hcp⟩
        · exact ⟨p, List.mem_cons_of_mem _ hprs, hcp⟩

end TheFeed

namespace TheFeed

/-- Decimal digits are below the upper-case range, so `toLowerCase`
leaves them unchanged. -/
theorem toLower_of_isDigit (c : Char) (h : c.isDigit = true) : c.toLower = c := by
  unfold Char.toLower
  rw [if_neg]
  unfold Char.isDigit at h
  simp only [Bool.and_eq_true, decide_eq_true_eq] at h
  obtain ⟨h1, h2⟩ := h
  have h2n : c.toNat ≤ 57 := h2
  intro hc
  omega

theorem lowerChars_eq_self (cs : List Char) (h : ∀ c ∈ cs, c.toLower = c) :
    lowerChars cs = cs := by
  induction cs with
  | nil => rfl
  | cons c rest ih =>
    unfold lowerChars at ih ⊢
    rw [List.map_cons, h c (List.mem_cons_self c rest),
      ih (fun x hx => h x (List.mem_cons_of_mem c hx))]

theorem takeWhile_eq_self_of_all (pred : Char → Bool) (cs : List Char)
    (h : ∀ c ∈ cs, pred c = true) : cs.takeWhile pred = cs := by
  induction cs with
  | nil => rfl
  | cons c rest ih =>
    rw [List.takeWhile_cons, h c (List.mem_cons_self c rest)]
    simp [ih (fun x hx => h x (List.mem_cons_of_mem c hx))]

theorem stripPercent_eq_self (cs : List Char) (h : ∀ c ∈ cs, c ≠ Char.ofNat 37) :
    stripPercent cs = cs := by
  unfold stripPercent
  rw [splitOnChar_no_sep (Char.ofNat 37) cs h]
  rfl

/-- A non-digit character other than `.` disqualifies a dotted quad. -/
theorem isIPv4Chars_eq_false_of_bad_char (cs : List Char) (c : Char) (hc : c ∈ cs)
    (hdot : c ≠ Char.ofNat 46) (hdig : c.isDigit = false) :
    isIPv4Chars cs = false := by
  obtain ⟨p, hp, hcp⟩ := mem_split_of_mem (Char.ofNat 46) cs c hc hdot
  have hpart : isIPv4Part p = false := by
    unfold isIPv4Part
    have hall : p.all Char.isDigit = false :=
      List.all_eq_false.mpr ⟨c, hcp, by simp [hdig]⟩
    rw [hall]
    simp
  have hall : (splitOnChar (Char.ofNat 46) cs).all isIPv4Part = false :=
    List.all_eq_false.mpr ⟨p, hp, by simp [hpart]⟩
  simp only [isIPv4Chars]
  rw [hall]
  simp

/-- Every character of a valid dotted quad is a digit or a dot. -/
theorem isIPv4Chars_char_class (cs : List Char) (h : isIPv4Chars cs = true) :
    ∀ c ∈ cs, c.isDigit = true ∨ c = Char.ofNat 46 := by
  intro c hc
  by_cases hdot : c = Char.ofNat 46
  · exact Or.inr hdot
  · left
    by_cases hdig : c.isDigit = true
    · exact hdig
    · rw [isIPv4Chars_eq_false_of_bad_char cs c hc hdot
        (Bool.not_eq_true _ ▸ hdig)] at h
      exact absurd h (by simp)

/-- Hex-group parts with no dots always parse as their group values. -/
theorem ipv6PartsToGroups_hex (b : Bool) :
    ∀ ps : List (List Char),
    (∀ p ∈ ps, isHexGroup p = true ∧ ∀ c ∈ p, c ≠ Char.ofNat 46) →
    ipv6PartsToGroups b ps = some (ps.map hexGroupVal)
  | [], _ => rfl
  | [p], h => by
    obtain ⟨hhex, hdot⟩ := h p (List.mem_singleton.mpr rfl)
    have hv4 : isIPv4Chars p = false := by
      simp only [isIPv4Chars]
      rw [splitOnChar_no_sep (Char.ofNat 46) p hdot]
      simp
    unfold ipv6PartsToGroups
    rw [hv4]
    simp [hhex]
  | p :: q :: rest, h => by
    obtain ⟨hhex, -⟩ := h p (List.mem_cons_self p _)
    have ih := ipv6PartsToGroups_hex b (q :: rest)
      (fun r hr => h r (List.mem_cons_of_mem p hr))
    unfold ipv6PartsToGroups
    rw [hhex, ih]
    simp

theorem splitOnChar_part_cons (sep : Char) (p cs : List Char)
    (hp : ∀ c ∈ p, c ≠ sep) :
    splitOnChar sep (p ++ sep :: cs) = p :: splitOnChar sep cs := by
  rw [splitOnChar_append_no_sep sep p _ hp, splitOnChar_cons_sep]
  simp

theorem splitDot_v4PairChars (hi lo : ℕ) (hhi : hi < 65536) (hlo : lo < 65536) :
    splitOnChar (Char.ofNat 46) (v4PairChars hi lo) =
      [natToChars3 (hi / 256), natToChars3 (hi % 256),
        natToChars3 (lo / 256), natToChars3 (lo % 256)] := by
  have hnd : ∀ m : ℕ, m < 256 → ∀ c ∈ natToChars3 m, c ≠ Char.ofNat 46 := by
    intro m hm c hc
    obtain ⟨k, hk, rfl⟩ := natToChars3_mem m hm c hc
    exact (hexDigitChar_facts k (by omega)).2.2.2.1
  unfold v4PairChars
  rw [splitOnChar_part_cons _ _ _ (hnd _ (by omega)),
    splitOnChar_part_cons _ _ _ (hnd _ (by omega)),
    splitOnChar_part_cons _ _ _ (hnd _ (by omega)),
    splitOnChar_no_sep _ _ (hnd _ (by omega))]

theorem isIPv4Chars_v4PairChars (hi lo : ℕ) (hhi : hi < 65536) (hlo : lo < 65536) :
    isIPv4Chars (v4PairChars hi lo) = true := by
  simp only [isIPv4Chars]
  rw [splitDot_v4PairChars hi lo hhi hlo]
  simp only [List.length_cons, List.length_nil, List.all_cons, List.all_nil,
    Bool.and_true, decide_eq_true_eq]
  rw [isIPv4Part_natToChars3 _ (by omega), isIPv4Part_natToChars3 _ (by omega),
    isIPv4Part_natToChars3 _ (by omega), isIPv4Part_natToChars3 _ (by omega)]
  simp

theorem jsParseIntNat_natToChars3 (m : ℕ) (hm : m < 256) :
    jsParseIntNat (natToChars3 m) = m := by
  unfold jsParseIntNat
  rw [takeWhile_eq_self_of_all Char.isDigit _ (natToChars3_digits m hm)]
  exact charsToNat_natToChars3 m hm

theorem ipv4CharsToInt_v4PairChars (hi lo : ℕ) (hhi : hi < 65536) (hlo : lo < 65536) :
    ipv4CharsToInt (v4PairChars hi lo) = hi * 65536 + lo := by
  simp only [ipv4CharsToInt]
  rw [splitDot_v4PairChars hi lo hhi hlo]
  simp only [List.map_cons, List.map_nil, List.getD_cons_zero, List.getD_cons_succ]
  rw [jsParseIntNat_natToChars3 _ (by omega), jsParseIntNat_natToChars3 _ (by omega),
    jsParseIntNat_natToChars3 _ (by omega), jsParseIntNat_natToChars3 _ (by omega)]
  have e1 : hi / 256 * 2 ^ 24 % 2 ^ 32 = hi / 256 * 2 ^ 24 :=
    Nat.mod_eq_of_lt (by omega)
  have e2 : hi % 256 * 2 ^ 16 % 2 ^ 32 = hi % 256 * 2 ^ 16 :=
    Nat.mod_eq_of_lt (by omega)
  have e3 : lo / 256 * 2 ^ 8 % 2 ^ 32 = lo / 256 * 2 ^ 8 :=
    Nat.mod_eq_of_lt (by omega)
  have e4 : lo % 256 % 2 ^ 32 = lo % 256 := Nat.mod_eq_of_lt (by omega)
  rw [e1, e2, e3, e4]
  have : hi / 256 * 2 ^ 24 + hi % 256 * 2 ^ 16 + lo / 256 * 2 ^ 8 + lo % 256 =
      hi * 65536 + lo := by omega
  rw [this]
  exact Nat.mod_eq_of_lt (by omega)

theorem listStartsWith_append (p t : List Char) :
    listStartsWith (p ++ t) p = true := by
  induction p with
  | nil => cases t <;> rfl
  | cons c rest ih =>
    rw [List.cons_append]
    unfold listStartsWith
    simp [ih]

theorem findIdx_append_first {α : Type} (p : α → Bool) (e : α) :
    ∀ (xs ys : List α), (∀ x ∈ xs, p x = false) → p e = true →
    List.findIdx p (xs ++ e :: ys) = xs.length
  | [], ys, _, he => by simp [List.findIdx_cons, he]
  | x :: xs, ys, hxs, he => by
    rw [List.cons_append, List.findIdx_cons, hxs x (List.mem_cons_self x xs)]
    rw [findIdx_append_first p e xs ys (fun y hy => hxs y (List.mem_cons_of_mem x hy)) he]
    rfl

theorem findIdx_all_false {α : Type} (p : α → Bool) :
    ∀ l : List α, (∀ x ∈ l, p x = false) → List.findIdx p l = l.length
  | [], _ => rfl
  | x :: l, h => by
    rw [List.findIdx_cons, h x (List.mem_cons_self x l)]
    rw [findIdx_all_false p l (fun y hy => h y (List.mem_cons_of_mem x hy))]
    rfl

end TheFeed

namespace TheFeed

theorem zeroRunAt_le (gs : List ℕ) (i : ℕ) : zeroRunAt gs i ≤ gs.length - i := by
  unfold zeroRunAt
  calc ((gs.drop i).takeWhile (fun g => g == 0)).length
      ≤ (gs.drop i).length := (List.takeWhile_prefix _).length_le
    _ = gs.length - i := List.length_drop i gs

theorem zeroRunAt_zeros (gs : List ℕ) (i : ℕ) :
    ∀ j, j < zeroRunAt gs i → gs.getD (i + j) 0 = 0 := by
  intro j hj
  unfold zeroRunAt at hj
  obtain ⟨t, ht⟩ := List.takeWhile_prefix (l := gs.drop i) (fun g => g == 0)
  have hjlt : j < ((gs.drop i).takeWhile (fun g => g == 0)).length := hj
  have h1 := List.getElem?_eq_getElem hjlt
  have hmem := List.getElem_mem hjlt
  have hzero : ((gs.drop i).takeWhile (fun g => g == 0))[j] = 0 := by
    simpa using List.mem_takeWhile_imp hmem
  have h2 : (((gs.drop i).takeWhile (fun g => g == 0)) ++ t)[j]? =
      ((gs.drop i).takeWhile (fun g => g == 0))[j]? :=
    List.getElem?_append_left hjlt
  rw [List.getD_eq_getElem?_getD, ← List.getElem?_drop, ← ht, h2, h1, hzero]
  rfl

theorem bestFold_spec (gs : List ℕ) :
    ∀ (is : List ℕ) (acc : ℕ × ℕ),
    (acc = (0, 0) ∨ (acc.1 < gs.length ∧ acc.2 = zeroRunAt gs acc.1)) →
    (∀ i ∈ is, i < gs.length) →
    (is.foldl (fun a i => if zeroRunAt gs i > a.2 then (i, zeroRunAt gs i) else a)
        acc = (0, 0) ∨
      ((is.foldl (fun a i => if zeroRunAt gs i > a.2 then (i, zeroRunAt gs i) else a)
          acc).1 < gs.length ∧
        (is.foldl (fun a i => if zeroRunAt gs i > a.2 then (i, zeroRunAt gs i) else a)
            acc).2 =
          zeroRunAt gs (is.foldl
            (fun a i => if zeroRunAt gs i > a.2 then (i, zeroRunAt gs i) else a)
              acc).1))
  | [], acc, hacc, _ => hacc
  | i :: is, acc, hacc, his => by
    rw [List.foldl_cons]
    apply bestFold_spec gs is
    · by_cases hgt : zeroRunAt gs i > acc.2
      · rw [if_pos hgt]
        exact Or.inr ⟨his i (List.mem_cons_self i is), rfl⟩
      · rw [if_neg hgt]
        exact hacc
    · exact fun x hx => his x (List.mem_cons_of_mem i hx)

theorem bestZeroRun_spec (gs : List ℕ) (b l : ℕ)
    (h : bestZeroRun gs = some (b, l)) :
    2 ≤ l ∧ b < gs.length ∧ l = zeroRunAt gs b := by
  simp only [bestZeroRun] at h
  by_cases h2 : 2 ≤ ((List.range gs.length).foldl
      (fun a i => if zeroRunAt gs i > a.2 then (i, zeroRunAt gs i) else a) (0, 0)).2
  · rw [if_pos h2, Option.some_inj] at h
    have hspec := bestFold_spec gs (List.range gs.length) (0, 0) (Or.inl rfl)
      (fun i hi => List.mem_range.mp hi)
    rw [h] at hspec h2
    rcases hspec with heq | ⟨hlt, hrun⟩
    · rw [heq] at h2
      exact absurd h2 (by simp)
    · exact ⟨h2, hlt, hrun⟩
  · rw [if_neg h2] at h
    exact absurd h (by simp)

theorem bestZeroRun_bounds (gs : List ℕ) (b l : ℕ)
    (h : bestZeroRun gs = some (b, l)) :
    2 ≤ l ∧ b + l ≤ gs.length ∧ ∀ j, j < l → gs.getD (b + j) 0 = 0 := by
  obtain ⟨h2, hlt, hrun⟩ := bestZeroRun_spec gs b l h
  have hle := zeroRunAt_le gs b
  refine ⟨h2, by omega, ?_⟩
  intro j hj
  exact zeroRunAt_zeros gs b j (hrun ▸ hj)

/-- The compressed run never starts at group 0 when group 0 is
non-zero. -/
theorem bestZeroRun_base_pos (gs : List ℕ) (b l : ℕ)
    (h : bestZeroRun gs = some (b, l)) (h0 : gs.getD 0 0 ≠ 0) : 1 ≤ b := by
  obtain ⟨h2, -, hz⟩ := bestZeroRun_bounds gs b l h
  by_contra hb
  have hb0 : b = 0 := by omega
  have := hz 0 (by omega)
  rw [hb0] at this
  exact h0 this

theorem bestZeroRun_base_ge2 (gs : List ℕ) (b l : ℕ)
    (h : bestZeroRun gs = some (b, l)) (h0 : gs.getD 0 0 ≠ 0)
    (h1 : gs.getD 1 0 ≠ 0) : 2 ≤ b := by
  have hp := bestZeroRun_base_pos gs b l h h0
  obtain ⟨h2, -, hz⟩ := bestZeroRun_bounds gs b l h
  by_contra hb
  have hb1 : b = 1 := by omega
  have := hz 0 (by omega)
  rw [hb1] at this
  exact h1 this

end TheFeed

namespace TheFeed

theorem hexParts_facts (gs : List ℕ) (hb : ∀ g ∈ gs, g < 65536) :
    ∀ p ∈ gs.map hexChars, isHexGroup p = true ∧ (∀ c ∈ p, c ≠ Char.ofNat 46) ∧
      (∀ c ∈ p, c ≠ Char.ofNat 58) ∧ p.isEmpty = false := by
  intro p hp
  obtain ⟨g, hg, rfl⟩ := List.mem_map.mp hp
  have hglt := hb g hg
  refine ⟨isHexGroup_hexChars g hglt, ?_, ?_,
    List.isEmpty_eq_false.mpr (hexChars_ne_nil g)⟩
  · intro c hc
    exact (hexChars_char_facts g hglt c hc).2.2.1
  · intro c hc
    exact (hexChars_char_facts g hglt c hc).2.1

/-- A nonempty colon-joined run of hex parts followed by a trailing
`::` parses successfully. -/
theorem parseIPv6_isSome_trailing (p0 : List Char) (ps : List (List Char))
    (hlen : (p0 :: ps).length ≤ 7)
    (hfacts : ∀ p ∈ p0 :: ps, isHexGroup p = true ∧ (∀ c ∈ p, c ≠ Char.ofNat 46) ∧
      (∀ c ∈ p, c ≠ Char.ofNat 58) ∧ p.isEmpty = false) :
    (parseIPv6 (joinSep (Char.ofNat 58) (p0 :: ps) ++
      [Char.ofNat 58, Char.ofNat 58])).isSome = true := by
  obtain ⟨hx0, hd0, hc0, he0⟩ := hfacts p0 (List.mem_cons_self p0 ps)
  obtain ⟨t0, hJ⟩ := joinSep_cons_ex (Char.ofNat 58) p0 ps
  obtain ⟨c0, p0', rfl⟩ : ∃ c0 p0', p0 = c0 :: p0' := by
    cases p0 with
    | nil => exact absurd he0 (by simp)
    | cons a b => exact ⟨a, b, rfl⟩
  have hc0ne : c0 ≠ Char.ofNat 58 := hc0 c0 (List.mem_cons_self c0 p0')
  have hne_lit : ((joinSep (Char.ofNat 58) ((c0 :: p0') :: ps) ++
      [Char.ofNat 58, Char.ofNat 58]) ==
      [Char.ofNat 58, Char.ofNat 58]) = false := by
    rw [hJ]
    apply beq_eq_false_iff_ne.mpr
    intro h
    rw [List.cons_append] at h
    have := List.head_eq_of_cons_eq h
    exact hc0ne this
  have hsplit : splitOnChar (Char.ofNat 58)
      (joinSep (Char.ofNat 58) ((c0 :: p0') :: ps) ++
        [Char.ofNat 58, Char.ofNat 58]) =
      ((c0 :: p0') :: ps) ++ [[], []] := by
    have h1 : splitOnChar (Char.ofNat 58) [Char.ofNat 58] = [[], []] := by decide
    have := splitOnChar_joinSep_append (Char.ofNat 58) ((c0 :: p0') :: ps)
      [Char.ofNat 58] (List.cons_ne_nil _ _)
      (fun p hp c hc => (hfacts p hp).2.2.1 c hc)
    rw [h1] at this
    exact this
  simp only [parseIPv6, hne_lit, Bool.false_eq_true, if_false, hsplit]
  have hp0e : (c0 :: p0').isEmpty = false := rfl
  have hcond1 : (decide ((((c0 :: p0') :: ps) ++ [[], []] : List (List Char)).length ≥ 3) &&
      ((((c0 :: p0') :: ps) ++ [[], []]).getD 0 []).isEmpty &&
      ((((c0 :: p0') :: ps) ++ [[], []]).getD 1 []).isEmpty) = false := by
    simp only [List.cons_append, List.getD_cons_zero, List.isEmpty_cons,
      Bool.and_false, Bool.false_and]
  have hlen2 : (((c0 :: p0') :: ps) ++ [[], []] : List (List Char)).length =
      ps.length + 3 := by simp
  have hcond2 : (decide ((((c0 :: p0') :: ps) ++ [[], []] : List (List Char)).length ≥ 3) &&
      ((((c0 :: p0') :: ps) ++ [[], []]).getD
        ((((c0 :: p0') :: ps) ++ [[], []]).length - 1) []).isEmpty &&
      ((((c0 :: p0') :: ps) ++ [[], []]).getD
        ((((c0 :: p0') :: ps) ++ [[], []]).length - 2) []).isEmpty) = true := by
    rw [hlen2]
    have hg1 : (((c0 :: p0') :: ps) ++ [[], []] : List (List Char)).getD
        (ps.length + 2) [] = [] := by
      rw [List.getD_append_right _ _ _ _ (by simp)]
      simp
    have hg2 : (((c0 :: p0') :: ps) ++ [[], []] : List (List Char)).getD
        (ps.length + 1) [] = [] := by
      rw [List.getD_append_right _ _ _ _ (by simp)]
      simp
    have e1 : ps.length + 3 - 1 = ps.length + 2 := by omega
    have e2 : ps.length + 3 - 2 = ps.length + 1 := by omega
    rw [e1, e2, hg1, hg2]
    simp
  rw [hcond1]
  simp only [Bool.false_eq_true, if_false]
  rw [hcond2]
  simp only [if_true]
  have htake : (((c0 :: p0') :: ps) ++ [[], []] : List (List Char)).take
      ((((c0 :: p0') :: ps) ++ [[], []]).length - 2) = (c0 :: p0') :: ps := by
    rw [hlen2]
    have : ps.length + 3 - 2 = ((c0 :: p0') :: ps).length := by simp
    rw [this]
    exact List.take_left _ _
  rw [htake]
  have hall : ((c0 :: p0') :: ps).all (fun p => !p.isEmpty) = true := by
    rw [List.all_eq_true]
    intro p hp
    rw [(hfacts p hp).2.2.2]
    rfl
  rw [hall]
  simp only [if_true]
  rw [ipv6PartsToGroups_hex false ((c0 :: p0') :: ps)
    (fun p hp => ⟨(hfacts p hp).1, (hfacts p hp).2.1⟩)]
  have hlm : (((c0 :: p0') :: ps).map hexGroupVal).length ≤ 7 := by
    rw [List.length_map]
    exact hlen
  simp [hlm]
  simp only [List.length_cons] at hlen
  omega

end TheFeed

namespace TheFeed

/-- Hex parts, an interior `::`, then hex parts: parses successfully. -/
theorem parseIPv6_isSome_interior (p0 q0 : List Char) (fs bs : List (List Char))
    (hlen : (p0 :: fs).length + (q0 :: bs).length ≤ 7)
    (hf : ∀ p ∈ p0 :: fs, isHexGroup p = true ∧ (∀ c ∈ p, c ≠ Char.ofNat 46) ∧
      (∀ c ∈ p, c ≠ Char.ofNat 58) ∧ p.isEmpty = false)
    (hb : ∀ p ∈ q0 :: bs, isHexGroup p = true ∧ (∀ c ∈ p, c ≠ Char.ofNat 46) ∧
      (∀ c ∈ p, c ≠ Char.ofNat 58) ∧ p.isEmpty = false) :
    (parseIPv6 (joinSep (Char.ofNat 58) (p0 :: fs) ++
      Char.ofNat 58 :: Char.ofNat 58 ::
        joinSep (Char.ofNat 58) (q0 :: bs))).isSome = true := by
  obtain ⟨hx0, hd0, hc0, he0⟩ := hf p0 (List.mem_cons_self p0 fs)
  obtain ⟨t0, hJ⟩ := joinSep_cons_ex (Char.ofNat 58) p0 fs
  obtain ⟨c0, p0', rfl⟩ : ∃ c0 p0', p0 = c0 :: p0' := by
    cases p0 with
    | nil => exact absurd he0 (by simp)
    | cons a b => exact ⟨a, b, rfl⟩
  have hc0ne : c0 ≠ Char.ofNat 58 := hc0 c0 (List.mem_cons_self c0 p0')
  have hne_lit : ((joinSep (Char.ofNat 58) ((c0 :: p0') :: fs) ++
      Char.ofNat 58 :: Char.ofNat 58 :: joinSep (Char.ofNat 58) (q0 :: bs)) ==
      [Char.ofNat 58, Char.ofNat 58]) = false := by
    rw [hJ]
    apply beq_eq_false_iff_ne.mpr
    intro h
    rw [List.cons_append] at h
    exact hc0ne (List.head_eq_of_cons_eq h)
  have hsplit : splitOnChar (Char.ofNat 58)
      (joinSep (Char.ofNat 58) ((c0 :: p0') :: fs) ++
        Char.ofNat 58 :: Char.ofNat 58 :: joinSep (Char.ofNat 58) (q0 :: bs)) =
      ((c0 :: p0') :: fs) ++ [] :: (q0 :: bs) := by
    have h1 := splitOnChar_joinSep_append (Char.ofNat 58) ((c0 :: p0') :: fs)
      (Char.ofNat 58 :: joinSep (Char.ofNat 58) (q0 :: bs)) (List.cons_ne_nil _ _)
      (fun p hp c hc => (hf p hp).2.2.1 c hc)
    rw [splitOnChar_cons_sep, splitOnChar_joinSep (Char.ofNat 58) (q0 :: bs)
      (List.cons_ne_nil _ _) (fun p hp c hc => (hb p hp).2.2.1 c hc)] at h1
    exact h1
  have hfind : (((c0 :: p0') :: fs) ++ [] :: (q0 :: bs)).findIdx
      (fun p => p.isEmpty) = ((c0 :: p0') :: fs).length := by
    apply findIdx_append_first
    · intro p hp
      rw [(hf p hp).2.2.2]
    · rfl
  simp only [parseIPv6, hne_lit, Bool.false_eq_true, if_false, hsplit, hfind]
  have hcond1 : (decide ((((c0 :: p0') :: fs) ++ [] :: (q0 :: bs) :
      List (List Char)).length ≥ 3) &&
      ((((c0 :: p0') :: fs) ++ [] :: (q0 :: bs)).getD 0 []).isEmpty &&
      ((((c0 :: p0') :: fs) ++ [] :: (q0 :: bs)).getD 1 []).isEmpty) = false := by
    simp only [List.cons_append, List.getD_cons_zero, List.isEmpty_cons,
      Bool.and_false, Bool.false_and]
  have hlen2 : (((c0 :: p0') :: fs) ++ [] :: (q0 :: bs) :
      List (List Char)).length = fs.length + bs.length + 3 := by
    simp
    omega
  have hlast : (((c0 :: p0') :: fs) ++ [] :: (q0 :: bs) : List (List Char)).getD
      (fs.length + bs.length + 2) [] = (q0 :: bs).getD bs.length [] := by
    rw [List.getD_append_right _ _ _ _ (by simp; omega)]
    have e1 : fs.length + bs.length + 2 - ((c0 :: p0') :: fs).length =
        bs.length + 1 := by
      simp
      omega
    rw [e1]
    rfl
  have hlastne : ((q0 :: bs).getD bs.length []).isEmpty = false := by
    have hlt : bs.length < (q0 :: bs).length := by simp
    rw [List.getD_eq_getElem?_getD, List.getElem?_eq_getElem hlt]
    exact (hb _ (List.getElem_mem hlt)).2.2.2
  have hcond2 : (decide ((((c0 :: p0') :: fs) ++ [] :: (q0 :: bs) :
      List (List Char)).length ≥ 3) &&
      ((((c0 :: p0') :: fs) ++ [] :: (q0 :: bs)).getD
        ((((c0 :: p0') :: fs) ++ [] :: (q0 :: bs)).length - 1) []).isEmpty &&
      ((((c0 :: p0') :: fs) ++ [] :: (q0 :: bs)).getD
        ((((c0 :: p0') :: fs) ++ [] :: (q0 :: bs)).length - 2) []).isEmpty) = false := by
    rw [hlen2]
    have e1 : fs.length + bs.length + 3 - 1 = fs.length + bs.length + 2 := by omega
    rw [e1, hlast, hlastne]
    simp
  rw [hcond1]
  simp only [Bool.false_eq_true, if_false]
  rw [hcond2]
  simp only [Bool.false_eq_true, if_false]
  have hidxlt : ((c0 :: p0') :: fs).length <
      (((c0 :: p0') :: fs) ++ [] :: (q0 :: bs) : List (List Char)).length := by
    simp
  rw [if_pos hidxlt]
  have htake : (((c0 :: p0') :: fs) ++ [] :: (q0 :: bs) : List (List Char)).take
      ((c0 :: p0') :: fs).length = (c0 :: p0') :: fs := List.take_left _ _
  have hdrop : (((c0 :: p0') :: fs) ++ [] :: (q0 :: bs) : List (List Char)).drop
      (((c0 :: p0') :: fs).length + 1) = q0 :: bs := by
    have : ((c0 :: p0') :: fs) ++ [] :: (q0 :: bs) =
        (((c0 :: p0') :: fs) ++ [[]]) ++ (q0 :: bs) := by
      rw [List.append_assoc]
      rfl
    rw [this]
    have hl : (((c0 :: p0') :: fs) ++ [[]] : List (List Char)).length =
        ((c0 :: p0') :: fs).length + 1 := by simp
    rw [← hl]
    exact List.drop_left _ _
  have hinner : (decide (0 < ((c0 :: p0') :: fs).length) &&
      decide (((c0 :: p0') :: fs).length + 1 <
        (((c0 :: p0') :: fs) ++ [] :: (q0 :: bs) : List (List Char)).length) &&
      ((((c0 :: p0') :: fs) ++ [] :: (q0 :: bs)).take
        ((c0 :: p0') :: fs).length).all (fun p => !p.isEmpty) &&
      ((((c0 :: p0') :: fs) ++ [] :: (q0 :: bs)).drop
        (((c0 :: p0') :: fs).length + 1)).all (fun p => !p.isEmpty)) = true := by
    rw [htake, hdrop]
    have ha1 : ((c0 :: p0') :: fs).all (fun p => !p.isEmpty) = true := by
      rw [List.all_eq_true]
      intro p hp
      rw [(hf p hp).2.2.2]
      rfl
    have ha2 : (q0 :: bs).all (fun p => !p.isEmpty) = true := by
      rw [List.all_eq_true]
      intro p hp
      rw [(hb p hp).2.2.2]
      rfl
    rw [ha1, ha2]
    simp only [Bool.and_true]
    rw [decide_eq_true (by simp), decide_eq_true (by rw [hlen2]; simp; omega)]
    rfl
  rw [hinner]
  simp only [if_true]
  rw [htake, hdrop]
  rw [ipv6PartsToGroups_hex false ((c0 :: p0') :: fs)
    (fun p hp => ⟨(hf p hp).1, (hf p hp).2.1⟩)]
  rw [ipv6PartsToGroups_hex true (q0 :: bs)
    (fun p hp => ⟨(hb p hp).1, (hb p hp).2.1⟩)]
  have hlm : (((c0 :: p0') :: fs).map hexGroupVal).length +
      ((q0 :: bs).map hexGroupVal).length ≤ 7 := by
    rw [List.length_map, List.length_map]
    exact hlen
  simp [hlm]
  simp only [List.length_cons] at hlen
  omega

end TheFeed

namespace TheFeed

/-- Eight hex parts with no compression parse successfully. -/
theorem parseIPv6_isSome_full (p0 : List Char) (ps : List (List Char))
    (hlen : (p0 :: ps).length = 8)
    (hfacts : ∀ p ∈ p0 :: ps, isHexGroup p = true ∧ (∀ c ∈ p, c ≠ Char.ofNat 46) ∧
      (∀ c ∈ p, c ≠ Char.ofNat 58) ∧ p.isEmpty = false) :
    (parseIPv6 (joinSep (Char.ofNat 58) (p0 :: ps))).isSome = true := by
  obtain ⟨hx0, hd0, hc0, he0⟩ := hfacts p0 (List.mem_cons_self p0 ps)
  obtain ⟨t0, hJ⟩ := joinSep_cons_ex (Char.ofNat 58) p0 ps
  obtain ⟨c0, p0', rfl⟩ : ∃ c0 p0', p0 = c0 :: p0' := by
    cases p0 with
    | nil => exact absurd he0 (by simp)
    | cons a b => exact ⟨a, b, rfl⟩
  have hc0ne : c0 ≠ Char.ofNat 58 := hc0 c0 (List.mem_cons_self c0 p0')
  have hne_lit : ((joinSep (Char.ofNat 58) ((c0 :: p0') :: ps)) ==
      [Char.ofNat 58, Char.ofNat 58]) = false := by
    rw [hJ]
    apply beq_eq_false_iff_ne.mpr
    intro h
    rw [List.cons_append] at h
    exact hc0ne (List.head_eq_of_cons_eq h)
  have hsplit : splitOnChar (Char.ofNat 58)
      (joinSep (Char.ofNat 58) ((c0 :: p0') :: ps)) = (c0 :: p0') :: ps :=
    splitOnChar_joinSep (Char.ofNat 58) _ (List.cons_ne_nil _ _)
      (fun p hp c hc => (hfacts p hp).2.2.1 c hc)
  have hfind : ((c0 :: p0') :: ps).findIdx (fun p => p.isEmpty) =
      ((c0 :: p0') :: ps).length := by
    apply findIdx_all_false
    intro p hp
    rw [(hfacts p hp).2.2.2]
  simp only [parseIPv6, hne_lit, Bool.false_eq_true, if_false, hsplit, hfind]
  have hlast : ((c0 :: p0') :: ps).getD (((c0 :: p0') :: ps).length - 1) [] =
      ((c0 :: p0') :: ps).getD ps.length [] := by
    simp
  have hlastne : (((c0 :: p0') :: ps).getD ps.length []).isEmpty = false := by
    have hlt : ps.length < ((c0 :: p0') :: ps).length := by simp
    rw [List.getD_eq_getElem?_getD, List.getElem?_eq_getElem hlt]
    exact (hfacts _ (List.getElem_mem hlt)).2.2.2
  have hcond1 : (decide (((c0 :: p0') :: ps : List (List Char)).length ≥ 3) &&
      (((c0 :: p0') :: ps).getD 0 []).isEmpty &&
      (((c0 :: p0') :: ps).getD 1 []).isEmpty) = false := by
    simp only [List.getD_cons_zero, List.isEmpty_cons, Bool.and_false,
      Bool.false_and]
  have hcond2 : (decide (((c0 :: p0') :: ps : List (List Char)).length ≥ 3) &&
      (((c0 :: p0') :: ps).getD (((c0 :: p0') :: ps).length - 1) []).isEmpty &&
      (((c0 :: p0') :: ps).getD (((c0 :: p0') :: ps).length - 2) []).isEmpty) = false := by
    rw [hlast, hlastne]
    simp
  rw [hcond1]
  simp only [Bool.false_eq_true, if_false]
  rw [hcond2]
  simp only [Bool.false_eq_true, if_false]
  rw [if_neg (by omega : ¬ ((c0 :: p0') :: ps).length < ((c0 :: p0') :: ps).length)]
  rw [ipv6PartsToGroups_hex true ((c0 :: p0') :: ps)
    (fun p hp => ⟨(hfacts p hp).1, (hfacts p hp).2.1⟩)]
  have hlm : (((c0 :: p0') :: ps).map hexGroupVal).length = 8 := by
    rw [List.length_map]
    exact hlen
  simp [hlm]
  simp only [List.length_cons] at hlen
  omega

theorem v4PairChars_no_colon (hi lo : ℕ) (hhi : hi < 65536) (hlo : lo < 65536) :
    ∀ c ∈ v4PairChars hi lo, c ≠ Char.ofNat 58 := by
  intro c hc
  unfold v4PairChars at hc
  have hdig : ∀ m : ℕ, m < 256 → ∀ x ∈ natToChars3 m, x ≠ Char.ofNat 58 := by
    intro m hm x hx
    obtain ⟨k, hk, rfl⟩ := natToChars3_mem m hm x hx
    exact (hexDigitChar_facts k (by omega)).2.2.1
  simp only [List.mem_append, List.mem_cons] at hc
  rcases hc with h | h | h | h | h | h | h
  · exact hdig _ (by omega) c h
  · rw [h]; decide
  · exact hdig _ (by omega) c h
  · rw [h]; decide
  · exact hdig _ (by omega) c h
  · rw [h]; decide
  · exact hdig _ (by omega) c h

theorem v4PairChars_ne_nil (hi lo : ℕ) : v4PairChars hi lo ≠ [] := by
  unfold v4PairChars natToChars3
  split
  · simp
  · split
    · simp
    · simp

/-- The IPv4-mapped shape `::ffff:a.b.c.d` parses successfully. -/
theorem parseIPv6_isSome_ffff (hi lo : ℕ) (hhi : hi < 65536) (hlo : lo < 65536) :
    (parseIPv6 (Char.ofNat 58 :: Char.ofNat 58 ::
      ("ffff".data ++ Char.ofNat 58 :: v4PairChars hi lo))).isSome = true := by
  have hnc := v4PairChars_no_colon hi lo hhi hlo
  have hvne := v4PairChars_ne_nil hi lo
  have hne_lit : ((Char.ofNat 58 :: Char.ofNat 58 ::
      ("ffff".data ++ Char.ofNat 58 :: v4PairChars hi lo)) ==
      [Char.ofNat 58, Char.ofNat 58]) = false := by
    apply beq_eq_false_iff_ne.mpr
    intro h
    have := congrArg List.length h
    simp at this
  have hffff : ∀ c ∈ ("ffff".data : List Char), c ≠ Char.ofNat 58 := by decide
  have hsplit : splitOnChar (Char.ofNat 58) (Char.ofNat 58 :: Char.ofNat 58 ::
      ("ffff".data ++ Char.ofNat 58 :: v4PairChars hi lo)) =
      [[], [], "ffff".data, v4PairChars hi lo] := by
    rw [splitOnChar_cons_sep, splitOnChar_cons_sep,
      splitOnChar_part_cons _ _ _ hffff, splitOnChar_no_sep _ _ hnc]
  simp only [parseIPv6, hne_lit, Bool.false_eq_true, if_false, hsplit]
  have hcond1 : (decide (([[], [], "ffff".data, v4PairChars hi lo] :
      List (List Char)).length ≥ 3) &&
      (([[], [], "ffff".data, v4PairChars hi lo] :
        List (List Char)).getD 0 []).isEmpty &&
      (([[], [], "ffff".data, v4PairChars hi lo] :
        List (List Char)).getD 1 []).isEmpty) = true := by
    simp
  rw [hcond1]
  simp only [if_true]
  have hdrop : ([[], [], "ffff".data, v4PairChars hi lo] :
      List (List Char)).drop 2 = ["ffff".data, v4PairChars hi lo] := rfl
  rw [hdrop]
  have hall : (["ffff".data, v4PairChars hi lo] : List (List Char)).all
      (fun p => !p.isEmpty) = true := by
    simp only [List.all_cons, List.all_nil, Bool.and_true]
    rw [List.isEmpty_eq_false.mpr hvne]
    rfl
  rw [hall]
  simp only [if_true]
  have h1 : ∃ n : ℕ, ipv6PartsToGroups true [v4PairChars hi lo] =
      some [n / 65536, n % 65536] := by
    refine ⟨v4
      (jsParseIntNat ((splitOnChar (Char.ofNat 46) (v4PairChars hi lo)).getD 0 []))
      (jsParseIntNat ((splitOnChar (Char.ofNat 46) (v4PairChars hi lo)).getD 1 []))
      (jsParseIntNat ((splitOnChar (Char.ofNat 46) (v4PairChars hi lo)).getD 2 []))
      (jsParseIntNat ((splitOnChar (Char.ofNat 46) (v4PairChars hi lo)).getD 3 [])), ?_⟩
    unfold ipv6PartsToGroups
    rw [isIPv4Chars_v4PairChars hi lo hhi hlo]
    rfl
  obtain ⟨n, hn⟩ := h1
  have h2 : ipv6PartsToGroups true ["ffff".data, v4PairChars hi lo] =
      some [hexGroupVal "ffff".data, n / 65536, n % 65536] := by
    unfold ipv6PartsToGroups
    rw [show isHexGroup "ffff".data = true by decide, hn]
    simp
  rw [h2]
  simp

end TheFeed

namespace TheFeed

theorem joinSep_mem (sep : Char) :
    ∀ (ps : List (List Char)) (c : Char), c ∈ joinSep sep ps →
    c = sep ∨ ∃ p ∈ ps, c ∈ p
  | [], c, hc => absurd hc (List.not_mem_nil c)
  | [p], c, hc => Or.inr ⟨p, List.mem_singleton.mpr rfl, hc⟩
  | p :: q :: rest, c, hc => by
    rw [joinSep_cons₂] at hc
    rcases List.mem_append.mp hc with h | h
    · exact Or.inr ⟨p, List.mem_cons_self p _, h⟩
    · rcases List.mem_cons.mp h with h | h
      · exact Or.inl h
      · rcases joinSep_mem sep (q :: rest) c h with h | ⟨r, hr, hcr⟩
        · exact Or.inl h
        · exact Or.inr ⟨r, List.mem_cons_of_mem p hr, hcr⟩

theorem getD_lt_of_bound (gs : List ℕ) (hb : ∀ g ∈ gs, g < 65536) (i : ℕ) :
    gs.getD i 0 < 65536 := by
  rw [List.getD_eq_getElem?_getD]
  cases hg : gs[i]? with
  | none => simp
  | some g =>
    have := List.getElem?_mem hg
    simp only [Option.getD_some]
    exact hb g this

/-- The three output shapes of `inetNtop6`. -/
theorem inetNtop6_shape (gs : List ℕ) :
    inetNtop6 gs = ipv6HexText gs ∨
    inetNtop6 gs = Char.ofNat 58 :: Char.ofNat 58 ::
      v4PairChars (gs.getD 6 0) (gs.getD 7 0) ∨
    inetNtop6 gs = Char.ofNat 58 :: Char.ofNat 58 ::
      ("ffff".data ++ Char.ofNat 58 :: v4PairChars (gs.getD 6 0) (gs.getD 7 0)) := by
  cases hbr : bestZeroRun gs with
  | none =>
    left
    unfold inetNtop6
    rw [hbr]
  | some bl =>
    obtain ⟨b, l⟩ := bl
    have he : inetNtop6 gs =
        if b = 0 ∧ l = 6 then
          Char.ofNat 58 :: Char.ofNat 58 :: v4PairChars (gs.getD 6 0) (gs.getD 7 0)
        else if b = 0 ∧ l = 5 ∧ gs.getD 5 0 = 0xffff then
          Char.ofNat 58 :: Char.ofNat 58 ::
            ("ffff".data ++ Char.ofNat 58 :: v4PairChars (gs.getD 6 0) (gs.getD 7 0))
        else ipv6HexText gs := by
      unfold inetNtop6
      rw [hbr]
    rw [he]
    by_cases h6 : b = 0 ∧ l = 6
    · rw [if_pos h6]
      exact Or.inr (Or.inl rfl)
    · rw [if_neg h6]
      by_cases h5 : b = 0 ∧ l = 5 ∧ gs.getD 5 0 = 0xffff
      · rw [if_pos h5]
        exact Or.inr (Or.inr rfl)
      · rw [if_neg h5]
        exact Or.inl rfl

theorem ipv6HexText_chars (gs : List ℕ) (hb : ∀ g ∈ gs, g < 65536) :
    ∀ c ∈ ipv6HexText gs, c = Char.ofNat 58 ∨ ∃ k, k < 16 ∧ c = hexDigitChar k := by
  intro c hc
  have hmap : ∀ (sub : List ℕ), (∀ g ∈ sub, g ∈ gs) →
      c ∈ joinSep (Char.ofNat 58) (sub.map hexChars) →
      c = Char.ofNat 58 ∨ ∃ k, k < 16 ∧ c = hexDigitChar k := by
    intro sub hsub hcc
    rcases joinSep_mem (Char.ofNat 58) _ c hcc with h | ⟨p, hp, hcp⟩
    · exact Or.inl h
    · obtain ⟨g, hg, rfl⟩ := List.mem_map.mp hp
      exact Or.inr (hexChars_mem g (hb g (hsub g hg)) c hcp)
  cases hbr : bestZeroRun gs with
  | none =>
    have he : ipv6HexText gs = joinSep (Char.ofNat 58) (gs.map hexChars) := by
      unfold ipv6HexText
      rw [hbr]
    rw [he] at hc
    exact hmap gs (fun g hg => hg) hc
  | some bl =>
    obtain ⟨b, l⟩ := bl
    have he : ipv6HexText gs = (if b = 0 then [] else joinSep (Char.ofNat 58)
        ((gs.take b).map hexChars)) ++ Char.ofNat 58 :: Char.ofNat 58 ::
        joinSep (Char.ofNat 58) ((gs.drop (b + l)).map hexChars) := by
      unfold ipv6HexText
      rw [hbr]
    rw [he] at hc
    simp only [List.mem_append, List.mem_cons] at hc
    rcases hc with h | h | h | h
    · by_cases hb0 : b = 0
      · rw [if_pos hb0] at h
        exact absurd h (List.not_mem_nil c)
      · rw [if_neg hb0] at h
        exact hmap (gs.take b) (fun g hg => List.mem_of_mem_take hg) h
    · exact Or.inl h
    · exact Or.inl h
    · exact hmap (gs.drop (b + l)) (fun g hg => List.mem_of_mem_drop hg) h

theorem v4PairChars_chars (hi lo : ℕ) (hhi : hi < 65536) (hlo : lo < 65536) :
    ∀ c ∈ v4PairChars hi lo,
    c = Char.ofNat 46 ∨ ∃ k, k < 16 ∧ c = hexDigitChar k := by
  intro c hcm
  unfold v4PairChars at hcm
  simp only [List.mem_append, List.mem_cons] at hcm
  have hd : ∀ m : ℕ, m < 256 → c ∈ natToChars3 m →
      c = Char.ofNat 46 ∨ ∃ k, k < 16 ∧ c = hexDigitChar k := by
    intro m hm hcm2
    obtain ⟨k, hk, rfl⟩ := natToChars3_mem m hm c hcm2
    exact Or.inr ⟨k, by omega, rfl⟩
  rcases hcm with h | h | h | h | h | h | h
  · exact hd _ (by omega) h
  · exact Or.inl h
  · exact hd _ (by omega) h
  · exact Or.inl h
  · exact hd _ (by omega) h
  · exact Or.inl h
  · exact hd _ (by omega) h

theorem inetNtop6_chars (gs : List ℕ) (hb : ∀ g ∈ gs, g < 65536) :
    ∀ c ∈ inetNtop6 gs, c = Char.ofNat 58 ∨ c = Char.ofNat 46 ∨
      ∃ k, k < 16 ∧ c = hexDigitChar k := by
  intro c hc
  have h6 := getD_lt_of_bound gs hb 6
  have h7 := getD_lt_of_bound gs hb 7
  rcases inetNtop6_shape gs with h | h | h
  · rw [h] at hc
    rcases ipv6HexText_chars gs hb c hc with hh | hh
    · exact Or.inl hh
    · exact Or.inr (Or.inr hh)
  · rw [h] at hc
    rcases List.mem_cons.mp hc with hh | hh
    · exact Or.inl hh
    · rcases List.mem_cons.mp hh with hh | hh
      · exact Or.inl hh
      · rcases v4PairChars_chars _ _ h6 h7 c hh with hh | hh
        · exact Or.inr (Or.inl hh)
        · exact Or.inr (Or.inr hh)
  · rw [h] at hc
    rcases List.mem_cons.mp hc with hh | hh
    · exact Or.inl hh
    · rcases List.mem_cons.mp hh with hh | hh
      · exact Or.inl hh
      · simp only [List.mem_append, List.mem_cons] at hh
        rcases hh with hh | hh | hh
        · have hf : c = hexDigitChar 15 := by
            rcases hh with hh | hh | hh | hh | hh
            · rw [hh]; decide
            · rw [hh]; decide
            · rw [hh]; decide
            · rw [hh]; decide
            · exact absurd hh (List.not_mem_nil c)
          exact Or.inr (Or.inr ⟨15, by omega, hf⟩)
        · exact Or.inl hh
        · rcases v4PairChars_chars _ _ h6 h7 c hh with hh | hh
          · exact Or.inr (Or.inl hh)
          · exact Or.inr (Or.inr hh)

theorem inetNtop6_stable (gs : List ℕ) (hb : ∀ g ∈ gs, g < 65536) :
    stripPercent (lowerChars (inetNtop6 gs)) = inetNtop6 gs := by
  have hfacts : ∀ c ∈ inetNtop6 gs, c.toLower = c ∧ c ≠ Char.ofNat 37 := by
    intro c hc
    rcases inetNtop6_chars gs hb c hc with h | h | ⟨k, hk, h⟩
    · rw [h]
      exact ⟨by decide, by decide⟩
    · rw [h]
      exact ⟨by decide, by decide⟩
    · rw [h]
      exact ⟨(hexDigitChar_facts k hk).2.1, (hexDigitChar_facts k hk).2.2.2.2⟩
  rw [lowerChars_eq_self _ (fun c hc => (hfacts c hc).1)]
  exact stripPercent_eq_self _ (fun c hc => (hfacts c hc).2)

theorem colon_mem_ipv6HexText (gs : List ℕ) (h8 : gs.length = 8) :
    Char.ofNat 58 ∈ ipv6HexText gs := by
  cases hbr : bestZeroRun gs with
  | none =>
    have he : ipv6HexText gs = joinSep (Char.ofNat 58) (gs.map hexChars) := by
      unfold ipv6HexText
      rw [hbr]
    rw [he]
    obtain ⟨g0, g1, rest, rfl⟩ : ∃ g0 g1 rest, gs = g0 :: g1 :: rest := by
      cases gs with
      | nil => simp at h8
      | cons a t =>
        cases t with
        | nil => simp at h8
        | cons b t2 => exact ⟨a, b, t2, rfl⟩
    rw [List.map_cons, List.map_cons, joinSep_cons₂]
    exact List.mem_append.mpr (Or.inr (List.mem_cons_self _ _))
  | some bl =>
    obtain ⟨b, l⟩ := bl
    have he : ipv6HexText gs = (if b = 0 then [] else joinSep (Char.ofNat 58)
        ((gs.take b).map hexChars)) ++ Char.ofNat 58 :: Char.ofNat 58 ::
        joinSep (Char.ofNat 58) ((gs.drop (b + l)).map hexChars) := by
      unfold ipv6HexText
      rw [hbr]
    rw [he]
    exact List.mem_append.mpr (Or.inr (List.mem_cons_self _ _))

theorem colon_mem_inetNtop6 (gs : List ℕ) (h8 : gs.length = 8) :
    Char.ofNat 58 ∈ inetNtop6 gs := by
  rcases inetNtop6_shape gs with h | h | h
  · rw [h]
    exact colon_mem_ipv6HexText gs h8
  · rw [h]
    exact List.mem_cons_self _ _
  · rw [h]
    exact List.mem_cons_self _ _

end TheFeed


namespace TheFeed

/-- Core evaluation of `isPrivateIp` on a stable non-IPv4 string that
parses as IPv6: any true disjunct of the textual chain forces `true`. -/
theorem isPrivateIp_true_of_check (ip : List Char)
    (hstable : stripPercent (lowerChars ip) = ip)
    (hv4 : isIPv4Chars ip = false)
    (hparse : (parseIPv6 ip).isSome = true)
    (hcheck : ((ip == "::".data) || (ip == "::1".data) ||
      listStartsWith ip "fc".data || listStartsWith ip "fd".data ||
      listStartsWith ip "fe8".data || listStartsWith ip "fe9".data ||
      listStartsWith ip "fea".data || listStartsWith ip "feb".data ||
      listStartsWith ip "2001:db8".data ||
      (listStartsWith ip "::ffff:".data && isIPv4Chars (ip.drop 7) &&
        isPrivateIPv4Num (ipv4CharsToInt (ip.drop 7)))) = true) :
    isPrivateIp ⟨ip⟩ = true := by
  simp only [isPrivateIp, hstable, hv4, hparse]
  simp only [Bool.false_eq_true, if_false, if_true]
  by_cases hc0 : (ip == "::".data || ip == "::1".data) = true
  · rw [if_pos hc0]
  · rw [if_neg hc0]
    by_cases hc1 : (listStartsWith ip "fc".data || listStartsWith ip "fd".data) = true
    · rw [if_pos hc1]
    · rw [if_neg hc1]
      by_cases hc2 : (listStartsWith ip "fe8".data || listStartsWith ip "fe9".data ||
          listStartsWith ip "fea".data || listStartsWith ip "feb".data) = true
      · rw [if_pos hc2]
      · rw [if_neg hc2]
        by_cases hc3 : listStartsWith ip "2001:db8".data = true
        · rw [if_pos hc3]
        · rw [if_neg hc3]
          rw [Bool.not_eq_true] at hc0 hc1 hc2 hc3
          simp only [Bool.or_eq_false_iff] at hc0 hc1 hc2
          obtain ⟨⟨⟨h24, h25⟩, h26⟩, h27⟩ := hc2
          simp only [hc0.1, hc0.2, hc1.1, hc1.2, h24, h25, h26, h27, hc3,
            Bool.false_or, Bool.or_self] at hcheck
          simp only [Bool.and_eq_true] at hcheck
          obtain ⟨⟨hs, hi4⟩, hp⟩ := hcheck
          rw [if_pos hs]
          simp only [hi4, if_true, hp]

/-- A canonical dotted-quad address string in a reserved §4.6 IPv4
range is flagged by `isPrivateIp`. -/
theorem isPrivateIp_v4_reserved (a : String) (h4 : isIPv4Chars a.data = true)
    (hres : specReservedV4 (ipv4CharsToInt a.data)) : isPrivateIp a = true := by
  have hchars := isIPv4Chars_char_class a.data h4
  have hlow : lowerChars a.data = a.data := by
    apply lowerChars_eq_self
    intro c hc
    rcases hchars c hc with h | h
    · exact toLower_of_isDigit c h
    · rw [h]
      decide
  have hstrip : stripPercent a.data = a.data := by
    apply stripPercent_eq_self
    intro c hc
    rcases hchars c hc with h | h
    · intro he
      rw [he] at h
      exact absurd h (by decide)
    · rw [h]
      decide
  simp only [isPrivateIp, hlow, hstrip, h4, if_true]
  exact (isPrivateIPv4Num_iff_specReservedV4 _).mpr hres

/-- The all-hex canonical serialization of an address with a non-zero
leading group parses successfully. -/
theorem parseIPv6_ipv6HexText_isSome (gs : List ℕ) (h8 : gs.length = 8)
    (hb : ∀ g ∈ gs, g < 65536) (hne0 : gs.getD 0 0 ≠ 0) :
    (parseIPv6 (ipv6HexText gs)).isSome = true := by
  obtain ⟨g0, rest, rfl⟩ : ∃ g0 rest, gs = g0 :: rest := by
    cases gs with
    | nil => simp at h8
    | cons a t => exact ⟨a, t, rfl⟩
  cases hbr : bestZeroRun (g0 :: rest) with
  | none =>
    have he : ipv6HexText (g0 :: rest) =
        joinSep (Char.ofNat 58) ((g0 :: rest).map hexChars) := by
      unfold ipv6HexText
      rw [hbr]
    rw [he, List.map_cons]
    apply parseIPv6_isSome_full
    · simpa using h8
    · intro p hp
      rw [← List.map_cons] at hp
      exact hexParts_facts _ hb p hp
  | some bl =>
    obtain ⟨b, l⟩ := bl
    obtain ⟨h2l, hbl8, hz⟩ := bestZeroRun_bounds _ b l hbr
    have hb1 : 1 ≤ b := bestZeroRun_base_pos _ b l hbr hne0
    rw [List.length_cons] at h8
    have he : ipv6HexText (g0 :: rest) = (if b = 0 then [] else
        joinSep (Char.ofNat 58) (((g0 :: rest).take b).map hexChars)) ++
        Char.ofNat 58 :: Char.ofNat 58 ::
        joinSep (Char.ofNat 58) (((g0 :: rest).drop (b + l)).map hexChars) := by
      unfold ipv6HexText
      rw [hbr]
    rw [he, if_neg (by omega)]
    obtain ⟨b', rfl⟩ : ∃ b', b = b' + 1 := ⟨b - 1, by omega⟩
    rw [List.take_succ_cons, List.map_cons]
    have hfr : ∀ p ∈ hexChars g0 :: (rest.take b').map hexChars,
        isHexGroup p = true ∧ (∀ c ∈ p, c ≠ Char.ofNat 46) ∧
        (∀ c ∈ p, c ≠ Char.ofNat 58) ∧ p.isEmpty = false := by
      intro p hp
      rw [← List.map_cons, ← List.take_succ_cons] at hp
      exact hexParts_facts _ (fun g hg => hb g (List.mem_of_mem_take hg)) p hp
    rw [List.length_cons] at hbl8
    by_cases hend : b' + 1 + l = 8
    · have hdrop : (g0 :: rest).drop (b' + 1 + l) = [] := by
        apply List.drop_eq_nil_of_le
        simp
        omega
      rw [hdrop, List.map_nil,
        show joinSep (Char.ofNat 58) ([] : List (List Char)) = [] from rfl]
      apply parseIPv6_isSome_trailing
      · have := List.length_take_le b' rest
        simp only [List.length_cons, List.length_map]
        omega
      · exact hfr
    · have hlt : b' + 1 + l < 8 := by omega
      have hdropne : (g0 :: rest).drop (b' + 1 + l) ≠ [] := by
        intro hnil
        have := congrArg List.length hnil
        simp at this
        omega
      obtain ⟨d0, ds, hd⟩ := List.exists_cons_of_ne_nil hdropne
      rw [hd, List.map_cons]
      apply parseIPv6_isSome_interior
      · have hlend := congrArg List.length hd
        simp only [List.length_drop, List.length_cons] at hlend
        have := List.length_take_le b' rest
        simp only [List.length_cons, List.length_map]
        omega
      · exact hfr
      · intro p hp
        rw [← List.map_cons, ← hd] at hp
        exact hexParts_facts _ (fun g hg => hb g (List.mem_of_mem_drop hg)) p hp

end TheFeed

namespace TheFeed

theorem hexChars_ge4096 (n : ℕ) (h1 : 4096 ≤ n) :
    hexChars n = [hexDigitChar (n / 4096), hexDigitChar (n / 256 % 16),
      hexDigitChar (n / 16 % 16), hexDigitChar (n % 16)] := by
  unfold hexChars
  rw [if_neg (by omega), if_neg (by omega), if_neg (by omega)]

theorem inetNtop6_eq_hex_of_head (g0 : ℕ) (rest : List ℕ) (h0 : g0 ≠ 0) :
    inetNtop6 (g0 :: rest) = ipv6HexText (g0 :: rest) := by
  cases hbr : bestZeroRun (g0 :: rest) with
  | none =>
    unfold inetNtop6
    rw [hbr]
  | some bl =>
    obtain ⟨b, l⟩ := bl
    have hb1 : 1 ≤ b := bestZeroRun_base_pos _ b l hbr (by simpa using h0)
    have he : inetNtop6 (g0 :: rest) =
        if b = 0 ∧ l = 6 then
          Char.ofNat 58 :: Char.ofNat 58 ::
            v4PairChars ((g0 :: rest).getD 6 0) ((g0 :: rest).getD 7 0)
        else if b = 0 ∧ l = 5 ∧ (g0 :: rest).getD 5 0 = 0xffff then
          Char.ofNat 58 :: Char.ofNat 58 :: ("ffff".data ++ Char.ofNat 58 ::
            v4PairChars ((g0 :: rest).getD 6 0) ((g0 :: rest).getD 7 0))
        else ipv6HexText (g0 :: rest) := by
      unfold inetNtop6
      rw [hbr]
    rw [he, if_neg (by rintro ⟨hb0, -⟩; omega), if_neg (by rintro ⟨hb0, -, -⟩; omega)]

theorem ipv6HexText_head (g0 : ℕ) (rest : List ℕ) (h0 : g0 ≠ 0) :
    ∃ t, ipv6HexText (g0 :: rest) = hexChars g0 ++ t := by
  cases hbr : bestZeroRun (g0 :: rest) with
  | none =>
    have he : ipv6HexText (g0 :: rest) =
        joinSep (Char.ofNat 58) ((g0 :: rest).map hexChars) := by
      unfold ipv6HexText
      rw [hbr]
    rw [he, List.map_cons]
    exact joinSep_cons_ex _ _ _
  | some bl =>
    obtain ⟨b, l⟩ := bl
    have hb1 : 1 ≤ b := bestZeroRun_base_pos _ b l hbr (by simpa using h0)
    have he : ipv6HexText (g0 :: rest) = (if b = 0 then [] else
        joinSep (Char.ofNat 58) (((g0 :: rest).take b).map hexChars)) ++
        Char.ofNat 58 :: Char.ofNat 58 ::
        joinSep (Char.ofNat 58) (((g0 :: rest).drop (b + l)).map hexChars) := by
      unfold ipv6HexText
      rw [hbr]
    rw [he, if_neg (by omega)]
    obtain ⟨b', rfl⟩ : ∃ b', b = b' + 1 := ⟨b - 1, by omega⟩
    rw [List.take_succ_cons, List.map_cons]
    obtain ⟨t0, ht0⟩ := joinSep_cons_ex (Char.ofNat 58) (hexChars g0)
      ((rest.take b').map hexChars)
    rw [ht0, List.append_assoc]
    exact ⟨_, rfl⟩

theorem ipv6HexText_head2 (g0 g1 : ℕ) (rest : List ℕ) (h0 : g0 ≠ 0) (h1 : g1 ≠ 0) :
    ∃ t, ipv6HexText (g0 :: g1 :: rest) =
      hexChars g0 ++ Char.ofNat 58 :: (hexChars g1 ++ t) := by
  cases hbr : bestZeroRun (g0 :: g1 :: rest) with
  | none =>
    have he : ipv6HexText (g0 :: g1 :: rest) =
        joinSep (Char.ofNat 58) ((g0 :: g1 :: rest).map hexChars) := by
      unfold ipv6HexText
      rw [hbr]
    rw [he, List.map_cons, List.map_cons, joinSep_cons₂]
    obtain ⟨t0, ht0⟩ := joinSep_cons_ex (Char.ofNat 58) (hexChars g1)
      (rest.map hexChars)
    rw [ht0]
    exact ⟨t0, rfl⟩
  | some bl =>
    obtain ⟨b, l⟩ := bl
    have hb2 : 2 ≤ b := bestZeroRun_base_ge2 _ b l hbr (by simpa using h0)
      (by simpa using h1)
    have he : ipv6HexText (g0 :: g1 :: rest) = (if b = 0 then [] else
        joinSep (Char.ofNat 58) (((g0 :: g1 :: rest).take b).map hexChars)) ++
        Char.ofNat 58 :: Char.ofNat 58 ::
        joinSep (Char.ofNat 58) (((g0 :: g1 :: rest).drop (b + l)).map hexChars) := by
      unfold ipv6HexText
      rw [hbr]
    rw [he, if_neg (by omega)]
    obtain ⟨b'', rfl⟩ : ∃ b'', b = b'' + 2 := ⟨b - 2, by omega⟩
    rw [show b'' + 2 = b'' + 1 + 1 from rfl, List.take_succ_cons,
      List.take_succ_cons, List.map_cons, List.map_cons, joinSep_cons₂]
    obtain ⟨t0, ht0⟩ := joinSep_cons_ex (Char.ofNat 58) (hexChars g1)
      ((rest.take b'').map hexChars)
    rw [ht0]
    refine ⟨t0 ++ Char.ofNat 58 :: Char.ofNat 58 :: joinSep (Char.ofNat 58)
      (((g0 :: g1 :: rest).drop (b'' + 1 + 1 + l)).map hexChars), ?_⟩
    simp only [List.cons_append, List.append_assoc]

theorem bestZeroRun_ffff (w6 w7 : ℕ) :
    bestZeroRun [0, 0, 0, 0, 0, 0xffff, w6, w7] = some (0, 5) := by
  have h6 : zeroRunAt [0, 0, 0, 0, 0, 0xffff, w6, w7] 6 ≤ 2 := by
    have := zeroRunAt_le [0, 0, 0, 0, 0, 0xffff, w6, w7] 6
    simpa using this
  have h7 : zeroRunAt [0, 0, 0, 0, 0, 0xffff, w6, w7] 7 ≤ 1 := by
    have := zeroRunAt_le [0, 0, 0, 0, 0, 0xffff, w6, w7] 7
    simpa using this
  have hrange : List.range 8 = [0, 1, 2, 3, 4, 5] ++ [6, 7] := rfl
  simp only [bestZeroRun]
  rw [show ([0, 0, 0, 0, 0, 0xffff, w6, w7] : List ℕ).length = 8 from rfl,
    hrange, List.foldl_append]
  have hstep : ([0, 1, 2, 3, 4, 5] : List ℕ).foldl
      (fun a i => if zeroRunAt [0, 0, 0, 0, 0, 0xffff, w6, w7] i > a.2
        then (i, zeroRunAt [0, 0, 0, 0, 0, 0xffff, w6, w7] i) else a) (0, 0) =
      (0, 5) := rfl
  rw [hstep]
  simp only [List.foldl_cons, List.foldl_nil]
  have h6n : ¬ zeroRunAt [0, 0, 0, 0, 0, 0xffff, w6, w7] 6 > ((0, 5) : ℕ × ℕ).2 := by
    show ¬ zeroRunAt [0, 0, 0, 0, 0, 0xffff, w6, w7] 6 > 5
    omega
  rw [if_neg h6n]
  have h7n : ¬ zeroRunAt [0, 0, 0, 0, 0, 0xffff, w6, w7] 7 > ((0, 5) : ℕ × ℕ).2 := by
    show ¬ zeroRunAt [0, 0, 0, 0, 0, 0xffff, w6, w7] 7 > 5
    omega
  rw [if_neg h7n]
  rfl

theorem inetNtop6_ffff (w6 w7 : ℕ) :
    inetNtop6 [0, 0, 0, 0, 0, 0xffff, w6, w7] =
      Char.ofNat 58 :: Char.ofNat 58 ::
        ("ffff".data ++ Char.ofNat 58 :: v4PairChars w6 w7) := by
  have he : inetNtop6 [0, 0, 0, 0, 0, 0xffff, w6, w7] =
      if (0 : ℕ) = 0 ∧ (5 : ℕ) = 6 then
        Char.ofNat 58 :: Char.ofNat 58 :: v4PairChars w6 w7
      else if (0 : ℕ) = 0 ∧ (5 : ℕ) = 5 ∧
          ([0, 0, 0, 0, 0, 0xffff, w6, w7] : List ℕ).getD 5 0 = 0xffff then
        Char.ofNat 58 :: Char.ofNat 58 ::
          ("ffff".data ++ Char.ofNat 58 :: v4PairChars w6 w7)
      else ipv6HexText [0, 0, 0, 0, 0, 0xffff, w6, w7] := by
    unfold inetNtop6
    rw [bestZeroRun_ffff]
    rfl
  rw [he, if_neg (by omega), if_pos ⟨rfl, rfl, rfl⟩]

end TheFeed

namespace TheFeed

theorem exists_eight (gs : List ℕ) (h8 : gs.length = 8) :
    ∃ a0 a1 a2 a3 a4 a5 a6 a7, gs = [a0, a1, a2, a3, a4, a5, a6, a7] := by
  rcases gs with _ | ⟨a0, gs⟩
  · simp at h8
  rcases gs with _ | ⟨a1, gs⟩
  · simp at h8
  rcases gs with _ | ⟨a2, gs⟩
  · simp at h8
  rcases gs with _ | ⟨a3, gs⟩
  · simp at h8
  rcases gs with _ | ⟨a4, gs⟩
  · simp at h8
  rcases gs with _ | ⟨a5, gs⟩
  · simp at h8
  rcases gs with _ | ⟨a6, gs⟩
  · simp at h8
  rcases gs with _ | ⟨a7, gs⟩
  · simp at h8
  rcases gs with _ | ⟨a8, gs⟩
  · exact ⟨a0, a1, a2, a3, a4, a5, a6, a7, rfl⟩
  · simp only [List.length_cons] at h8
    omega

/-- Every address in a reserved IPv6 range of spec section 4.6 is
flagged by `isPrivateIp` when written in the canonical text form the
system resolver produces. -/
theorem reservedV6_canonical_flagged (gs : List ℕ) (h8 : gs.length = 8)
    (hb : ∀ g ∈ gs, g < 65536) (hres : specReservedV6 gs) :
    isPrivateIp ⟨inetNtop6 gs⟩ = true := by
  rcases hres with h | h | h | h | h | h
  · subst h
    decide
  · subst h
    decide
  · -- fc00::/7
    obtain ⟨g0, rest, rfl⟩ : ∃ g0 rest, gs = g0 :: rest := by
      cases gs with
      | nil => simp at h8
      | cons a t => exact ⟨a, t, rfl⟩
    simp only [List.headD_cons] at h
    have hg0m : g0 < 65536 := hb g0 (List.mem_cons_self _ _)
    have h0ne : g0 ≠ 0 := by omega
    have heq := inetNtop6_eq_hex_of_head g0 rest h0ne
    obtain ⟨t, ht⟩ := ipv6HexText_head g0 rest h0ne
    have hstable := inetNtop6_stable (g0 :: rest) hb
    rw [heq] at hstable
    rw [heq]
    have hhex := hexChars_ge4096 g0 (by omega)
    have hd0 : g0 / 4096 = 15 := by omega
    rw [hd0] at hhex
    apply isPrivateIp_true_of_check _ hstable
    · exact isIPv4Chars_eq_false_of_bad_char _ _ (colon_mem_ipv6HexText _ h8)
        (by decide) (by decide)
    · exact parseIPv6_ipv6HexText_isSome _ h8 hb (by simpa using h0ne)
    · by_cases hcd : g0 ≤ 0xfcff
      · have hd1 : g0 / 256 % 16 = 12 := by omega
        rw [hd1] at hhex
        have hpre : listStartsWith (ipv6HexText (g0 :: rest)) "fc".data = true := by
          rw [ht, hhex]
          have hfc : ("fc".data : List Char) = [hexDigitChar 15, hexDigitChar 12] := by
            decide
          rw [hfc]
          have hsplit2 : ([hexDigitChar 15, hexDigitChar 12,
              hexDigitChar (g0 / 16 % 16), hexDigitChar (g0 % 16)] : List Char) ++ t =
              [hexDigitChar 15, hexDigitChar 12] ++
                (hexDigitChar (g0 / 16 % 16) :: hexDigitChar (g0 % 16) :: t) := by
            simp
          rw [hsplit2]
          exact listStartsWith_append _ _
        simp only [hpre, Bool.or_true, Bool.true_or]
      · have hd1 : g0 / 256 % 16 = 13 := by omega
        rw [hd1] at hhex
        have hpre : listStartsWith (ipv6HexText (g0 :: rest)) "fd".data = true := by
          rw [ht, hhex]
          have hfd : ("fd".data : List Char) = [hexDigitChar 15, hexDigitChar 13] := by
            decide
          rw [hfd]
          have hsplit2 : ([hexDigitChar 15, hexDigitChar 13,
              hexDigitChar (g0 / 16 % 16), hexDigitChar (g0 % 16)] : List Char) ++ t =
              [hexDigitChar 15, hexDigitChar 13] ++
                (hexDigitChar (g0 / 16 % 16) :: hexDigitChar (g0 % 16) :: t) := by
            simp
          rw [hsplit2]
          exact listStartsWith_append _ _
        simp only [hpre, Bool.or_true, Bool.true_or]
  · -- fe80::/10
    obtain ⟨g0, rest, rfl⟩ : ∃ g0 rest, gs = g0 :: rest := by
      cases gs with
      | nil => simp at h8
      | cons a t => exact ⟨a, t, rfl⟩
    simp only [List.headD_cons] at h
    have hg0m : g0 < 65536 := hb g0 (List.mem_cons_self _ _)
    have h0ne : g0 ≠ 0 := by omega
    have heq := inetNtop6_eq_hex_of_head g0 rest h0ne
    obtain ⟨t, ht⟩ := ipv6HexText_head g0 rest h0ne
    have hstable := inetNtop6_stable (g0 :: rest) hb
    rw [heq] at hstable
    rw [heq]
    have hhex := hexChars_ge4096 g0 (by omega)
    have hd0 : g0 / 4096 = 15 := by omega
    have hd1 : g0 / 256 % 16 = 14 := by omega
    rw [hd0, hd1] at hhex
    apply isPrivateIp_true_of_check _ hstable
    · exact isIPv4Chars_eq_false_of_bad_char _ _ (colon_mem_ipv6HexText _ h8)
        (by decide) (by decide)
    · exact parseIPv6_ipv6HexText_isSome _ h8 hb (by simpa using h0ne)
    · have hk : g0 / 16 % 16 = 8 ∨ g0 / 16 % 16 = 9 ∨ g0 / 16 % 16 = 10 ∨
          g0 / 16 % 16 = 11 := by omega
      have hgen : ∀ kv : ℕ, g0 / 16 % 16 = kv →
          ∀ pat : List Char, pat = [hexDigitChar 15, hexDigitChar 14, hexDigitChar kv] →
          listStartsWith (ipv6HexText (g0 :: rest)) pat = true := by
        intro kv hkv pat hpat
        rw [ht, hhex, hkv, hpat]
        have hsplit2 : ([hexDigitChar 15, hexDigitChar 14, hexDigitChar kv,
            hexDigitChar (g0 % 16)] : List Char) ++ t =
            [hexDigitChar 15, hexDigitChar 14, hexDigitChar kv] ++
              (hexDigitChar (g0 % 16) :: t) := by
          simp
        rw [hsplit2]
        exact listStartsWith_append _ _
      rcases hk with hk | hk | hk | hk
      · have hpre := hgen 8 hk "fe8".data (by decide)
        simp only [hpre, Bool.or_true, Bool.true_or]
      · have hpre := hgen 9 hk "fe9".data (by decide)
        simp only [hpre, Bool.or_true, Bool.true_or]
      · have hpre := hgen 10 hk "fea".data (by decide)
        simp only [hpre, Bool.or_true, Bool.true_or]
      · have hpre := hgen 11 hk "feb".data (by decide)
        simp only [hpre, Bool.or_true, Bool.true_or]
  · -- 2001:db8::/32
    obtain ⟨g0, g1, rest, rfl⟩ : ∃ g0 g1 rest, gs = g0 :: g1 :: rest := by
      cases gs with
      | nil => simp at h8
      | cons a t =>
        cases t with
        | nil => simp at h8
        | cons b t2 => exact ⟨a, b, t2, rfl⟩
    simp only [List.headD_cons, List.getD_cons_zero, List.getD_cons_succ] at h
    obtain ⟨rfl, rfl⟩ := h
    have h0ne : (0x2001 : ℕ) ≠ 0 := by omega
    have heq := inetNtop6_eq_hex_of_head 0x2001 (0xdb8 :: rest) h0ne
    obtain ⟨t, ht⟩ := ipv6HexText_head2 0x2001 0xdb8 rest h0ne (by omega)
    have hstable := inetNtop6_stable (0x2001 :: 0xdb8 :: rest) hb
    rw [heq] at hstable
    rw [heq]
    apply isPrivateIp_true_of_check _ hstable
    · exact isIPv4Chars_eq_false_of_bad_char _ _ (colon_mem_ipv6HexText _ h8)
        (by decide) (by decide)
    · exact parseIPv6_ipv6HexText_isSome _ h8 hb (by simp)
    · have hpre : listStartsWith (ipv6HexText (0x2001 :: 0xdb8 :: rest))
          "2001:db8".data = true := by
        rw [ht]
        have hA : hexChars 0x2001 = "2001".data := by decide
        have hB : hexChars 0xdb8 = "db8".data := by decide
        have hP : ("2001:db8".data : List Char) =
            "2001".data ++ Char.ofNat 58 :: "db8".data := by decide
        rw [hA, hB]
        have hre : ("2001".data : List Char) ++
            Char.ofNat 58 :: ("db8".data ++ t) =
            ("2001".data ++ Char.ofNat 58 :: "db8".data) ++ t := by
          simp [List.cons_append, List.append_assoc]
        rw [hre, ← hP]
        exact listStartsWith_append _ _
      simp only [hpre, Bool.or_true, Bool.true_or]
  · -- ::ffff:a.b.c.d with reserved payload
    obtain ⟨a0, a1, a2, a3, a4, a5, w6, w7, rfl⟩ := exists_eight gs h8
    obtain ⟨htake, hres4⟩ := h
    simp only [List.take, List.cons.injEq, and_true] at htake
    obtain ⟨rfl, rfl, rfl, rfl, rfl, rfl⟩ := htake
    have hw6 : w6 < 65536 := hb w6 (by simp)
    have hw7 : w7 < 65536 := hb w7 (by simp)
    have heq := inetNtop6_ffff w6 w7
    have hstable := inetNtop6_stable [0, 0, 0, 0, 0, 0xffff, w6, w7] hb
    rw [heq] at hstable
    rw [heq]
    have hres4' : specReservedV4 (w6 * 65536 + w7) := by simpa using hres4
    have hTeq : (Char.ofNat 58 :: Char.ofNat 58 ::
        ("ffff".data ++ Char.ofNat 58 :: v4PairChars w6 w7) : List Char) =
        "::ffff:".data ++ v4PairChars w6 w7 := by
      have h1 : ("::ffff:".data : List Char) = [Char.ofNat 58, Char.ofNat 58,
          Char.ofNat 102, Char.ofNat 102, Char.ofNat 102, Char.ofNat 102,
          Char.ofNat 58] := by decide
      have h2 : ("ffff".data : List Char) = [Char.ofNat 102, Char.ofNat 102,
          Char.ofNat 102, Char.ofNat 102] := by decide
      rw [h1, h2]
      simp
    have hd7 : (Char.ofNat 58 :: Char.ofNat 58 ::
        ("ffff".data ++ Char.ofNat 58 :: v4PairChars w6 w7) : List Char).drop 7 =
        v4PairChars w6 w7 := by
      rw [hTeq]
      rw [show (7 : ℕ) = ("::ffff:".data : List Char).length from by decide]
      exact List.drop_left _ _
    apply isPrivateIp_true_of_check _ hstable
    · exact isIPv4Chars_eq_false_of_bad_char _ _ (List.mem_cons_self _ _)
        (by decide) (by decide)
    · exact parseIPv6_isSome_ffff w6 w7 hw6 hw7
    · have hs : listStartsWith (Char.ofNat 58 :: Char.ofNat 58 ::
          ("ffff".data ++ Char.ofNat 58 :: v4PairChars w6 w7)) "::ffff:".data = true := by
        rw [hTeq]
        exact listStartsWith_append _ _
      have hi4 : isIPv4Chars ((Char.ofNat 58 :: Char.ofNat 58 ::
          ("ffff".data ++ Char.ofNat 58 :: v4PairChars w6 w7) : List Char).drop 7) = true := by
        rw [hd7]
        exact isIPv4Chars_v4PairChars w6 w7 hw6 hw7
      have hp : isPrivateIPv4Num (ipv4CharsToInt ((Char.ofNat 58 :: Char.ofNat 58 ::
          ("ffff".data ++ Char.ofNat 58 :: v4PairChars w6 w7) : List Char).drop 7)) = true := by
        rw [hd7, ipv4CharsToInt_v4PairChars w6 w7 hw6 hw7]
        exact (isPrivateIPv4Num_iff_specReservedV4 _).mpr hres4'
      have hcomp : (listStartsWith (Char.ofNat 58 :: Char.ofNat 58 ::
          ("ffff".data ++ Char.ofNat 58 :: v4PairChars w6 w7)) "::ffff:".data &&
          isIPv4Chars ((Char.ofNat 58 :: Char.ofNat 58 ::
            ("ffff".data ++ Char.ofNat 58 :: v4PairChars w6 w7) : List Char).drop 7) &&
          isPrivateIPv4Num (ipv4CharsToInt ((Char.ofNat 58 :: Char.ofNat 58 ::
            ("ffff".data ++ Char.ofNat 58 :: v4PairChars w6 w7) : List Char).drop 7))) =
          true := by
        rw [hs, hi4, hp]
        rfl
      simp only [hcomp, Bool.or_true, Bool.true_or]

end TheFeed

namespace TheFeed

theorem ipv6PartsToGroups_none_bracket (b : Bool) (r : List Char)
    (rest : List (List Char)) :
    ipv6PartsToGroups b ((Char.ofNat 91 :: r) :: rest) = none := by
  have hhex : isHexGroup (Char.ofNat 91 :: r) = false := by
    simp only [isHexGroup]
    rw [List.all_cons, (show isHexDigitChar (Char.ofNat 91) = false from by decide)]
    simp
  have hv4 : isIPv4Chars (Char.ofNat 91 :: r) = false :=
    isIPv4Chars_eq_false_of_bad_char _ _ (List.mem_cons_self _ _)
      (by decide) (by decide)
  cases rest with
  | nil =>
    unfold ipv6PartsToGroups
    rw [hv4, hhex]
    simp
  | cons q rs =>
    unfold ipv6PartsToGroups
    rw [hhex]
    simp

theorem parseIPv6_bracket (cs : List Char) :
    parseIPv6 (Char.ofNat 91 :: cs) = none := by
  have hne : (Char.ofNat 91 : Char) ≠ Char.ofNat 58 := by decide
  obtain ⟨r0, rs, hsp⟩ : ∃ r0 rs, splitOnChar (Char.ofNat 58) (Char.ofNat 91 :: cs) =
      (Char.ofNat 91 :: r0) :: rs := by
    have h1 := splitOnChar_append_no_sep (Char.ofNat 58) [Char.ofNat 91] cs
      (by intro c hc; rw [List.mem_singleton.mp hc]; exact hne)
    rw [List.singleton_append] at h1
    exact ⟨(splitOnChar (Char.ofNat 58) cs).headD [], (splitOnChar (Char.ofNat 58) cs).tail,
      by rw [h1]; rfl⟩
  have hlit : ((Char.ofNat 91 :: cs) == [Char.ofNat 58, Char.ofNat 58]) = false := by
    apply beq_eq_false_iff_ne.mpr
    intro h
    exact hne (List.head_eq_of_cons_eq h)
  simp only [parseIPv6, hlit, Bool.false_eq_true, if_false, hsp]
  by_cases hc1 : (decide ((((Char.ofNat 91 :: r0) :: rs) : List (List Char)).length ≥ 3) &&
      ((((Char.ofNat 91 :: r0) :: rs) : List (List Char)).getD 0 []).isEmpty &&
      ((((Char.ofNat 91 :: r0) :: rs) : List (List Char)).getD 1 []).isEmpty) = true
  · exfalso
    simp only [List.getD_cons_zero, List.isEmpty_cons, Bool.and_false,
      Bool.false_and] at hc1
    exact Bool.false_ne_true hc1
  · rw [if_neg hc1]
    by_cases hc2 : (decide ((((Char.ofNat 91 :: r0) :: rs) : List (List Char)).length ≥ 3) &&
        ((((Char.ofNat 91 :: r0) :: rs) : List (List Char)).getD
          ((((Char.ofNat 91 :: r0) :: rs) : List (List Char)).length - 1) []).isEmpty &&
        ((((Char.ofNat 91 :: r0) :: rs) : List (List Char)).getD
          ((((Char.ofNat 91 :: r0) :: rs) : List (List Char)).length - 2) []).isEmpty) = true
    · rw [if_pos hc2]
      have hlen3 : 3 ≤ (((Char.ofNat 91 :: r0) :: rs) : List (List Char)).length := by
        have h' := hc2
        simp only [Bool.and_eq_true, decide_eq_true_eq] at h'
        exact h'.1.1
      have htake : (((Char.ofNat 91 :: r0) :: rs) : List (List Char)).take
          ((((Char.ofNat 91 :: r0) :: rs) : List (List Char)).length - 2) =
          (Char.ofNat 91 :: r0) :: rs.take
            ((((Char.ofNat 91 :: r0) :: rs) : List (List Char)).length - 3) := by
        rw [show (((Char.ofNat 91 :: r0) :: rs) : List (List Char)).length - 2 =
          ((((Char.ofNat 91 :: r0) :: rs) : List (List Char)).length - 3) + 1 by
            simp only [List.length_cons]
            simp only [List.length_cons] at hlen3
            omega]
        rw [List.take_succ_cons]
      rw [htake]
      split
      · rw [ipv6PartsToGroups_none_bracket]
      · rfl
    · rw [if_neg hc2]
      by_cases hc3 : (((Char.ofNat 91 :: r0) :: rs) : List (List Char)).findIdx
          (fun p => p.isEmpty) < (((Char.ofNat 91 :: r0) :: rs) : List (List Char)).length
      · rw [if_pos hc3]
        by_cases hc4 : (decide (0 < (((Char.ofNat 91 :: r0) :: rs) :
            List (List Char)).findIdx (fun p => p.isEmpty)) &&
            decide ((((Char.ofNat 91 :: r0) :: rs) : List (List Char)).findIdx
              (fun p => p.isEmpty) + 1 <
              (((Char.ofNat 91 :: r0) :: rs) : List (List Char)).length) &&
            ((((Char.ofNat 91 :: r0) :: rs) : List (List Char)).take
              ((((Char.ofNat 91 :: r0) :: rs) : List (List Char)).findIdx
                (fun p => p.isEmpty))).all (fun p => !p.isEmpty) &&
            ((((Char.ofNat 91 :: r0) :: rs) : List (List Char)).drop
              ((((Char.ofNat 91 :: r0) :: rs) : List (List Char)).findIdx
                (fun p => p.isEmpty) + 1)).all (fun p => !p.isEmpty)) = true
        · rw [if_pos hc4]
          have hpos : 0 < (((Char.ofNat 91 :: r0) :: rs) :
              List (List Char)).findIdx (fun p => p.isEmpty) := by
            have h' := hc4
            simp only [Bool.and_eq_true, decide_eq_true_eq] at h'
            exact h'.1.1.1
          have htake : (((Char.ofNat 91 :: r0) :: rs) : List (List Char)).take
              ((((Char.ofNat 91 :: r0) :: rs) : List (List Char)).findIdx
                (fun p => p.isEmpty)) =
              (Char.ofNat 91 :: r0) :: rs.take
                ((((Char.ofNat 91 :: r0) :: rs) : List (List Char)).findIdx
                  (fun p => p.isEmpty) - 1) := by
            rw [show (((Char.ofNat 91 :: r0) :: rs) : List (List Char)).findIdx
                (fun p => p.isEmpty) =
                ((((Char.ofNat 91 :: r0) :: rs) : List (List Char)).findIdx
                  (fun p => p.isEmpty) - 1) + 1 by omega]
            rw [List.take_succ_cons]
            simp
          rw [htake, ipv6PartsToGroups_none_bracket]
        · rw [if_neg hc4]
      · rw [if_neg hc3]
        rw [ipv6PartsToGroups_none_bracket]

/-- A bracketed hostname (the WHATWG serialization of every IPv6-literal
host) is never an IP literal for `net.isIP`. -/
theorem isIpLiteral_bracket (h : String) (hbr : listStartsWith h.data
    [Char.ofNat 91] = true) : isIpLiteral h = false := by
  obtain ⟨r, hr⟩ : ∃ r, h.data = Char.ofNat 91 :: r := by
    cases hd : h.data with
    | nil =>
      rw [hd] at hbr
      exact absurd hbr (by decide)
    | cons c cs =>
      rw [hd] at hbr
      unfold listStartsWith at hbr
      simp only [Bool.and_eq_true, beq_iff_eq] at hbr
      exact ⟨cs, by rw [hbr.1]⟩
  obtain ⟨r0, rs, hsp⟩ : ∃ r0 rs, splitOnChar (Char.ofNat 37) (Char.ofNat 91 :: r) =
      (Char.ofNat 91 :: r0) :: rs := by
    have h1 := splitOnChar_append_no_sep (Char.ofNat 37) [Char.ofNat 91] r
      (by intro c hc; rw [List.mem_singleton.mp hc]; decide)
    rw [List.singleton_append] at h1
    exact ⟨(splitOnChar (Char.ofNat 37) r).headD [], (splitOnChar (Char.ofNat 37) r).tail,
      by rw [h1]; rfl⟩
  have hstrip : stripPercent h.data = Char.ofNat 91 :: r0 := by
    rw [hr]
    unfold stripPercent
    rw [hsp]
    rfl
  have hv4 : isIPv4Chars (Char.ofNat 91 :: r0) = false :=
    isIPv4Chars_eq_false_of_bad_char _ _ (List.mem_cons_self _ _)
      (by decide) (by decide)
  have hv6 := parseIPv6_bracket r0
  unfold isIpLiteral
  rw [hstrip]
  have hd : ((⟨Char.ofNat 91 :: r0⟩ : String).data) = Char.ofNat 91 :: r0 := rfl
  simp only [netIsIP, hd, hv4, hv6, Bool.false_eq_true, if_false,
    Option.isSome_none]
  simp

end TheFeed



namespace TheFeed

/-- **C5.**  The SSRF guard rejects, before any network request, every
URL in the claimed families, at every input the program can realize:
hostnames reach the guard from the WHATWG URL parser already
lower-cased (`hlow`), with IPv4 hosts in canonical dotted-decimal form
and IPv6 hosts in canonical bracketed form, and resolved addresses are
the system resolver's canonical `inet_ntop` text, while a bracketed
literal is not resolvable (`dns url.hostname = []`).  Under a sound
host-safety cache the guard rejects: a scheme outside http/https;
credentials; a blocked hostname; an IPv4-literal host whose 32-bit
value lies in a reserved range of spec section 4.6; every bracketed
(IPv6-literal) host — in particular every literal in a reserved IPv6
range; and a non-literal hostname at least one of whose resolved
addresses lies in a reserved IPv4 range or is the canonical text of an
address in a reserved IPv6 range. -/
theorem claim_C5_ssrf_guard (dns : String → List String)
    (cache : List (String × Bool)) (url : JsUrl)
    (hsound : CacheSound dns cache)
    (hlow : strToLower url.hostname = url.hostname) :
    (ALLOWED_PROTOCOLS.contains url.protocol = false →
      (assertSafeUrl dns cache url).1.isSome = true) ∧
    ((url.username ≠ "" ∨ url.password ≠ "") →
      (assertSafeUrl dns cache url).1.isSome = true) ∧
    (isBlockedHostname url.hostname = true →
      (assertSafeUrl dns cache url).1.isSome = true) ∧
    (isIPv4Chars url.hostname.data = true →
      specReservedV4 (ipv4CharsToInt url.hostname.data) →
      (assertSafeUrl dns cache url).1.isSome = true) ∧
    (listStartsWith url.hostname.data [Char.ofNat 91] = true →
      dns url.hostname = [] →
      (assertSafeUrl dns cache url).1.isSome = true) ∧
    (isIpLiteral url.hostname = false →
      (∃ a ∈ dns url.hostname,
        (isIPv4Chars a.data = true ∧ specReservedV4 (ipv4CharsToInt a.data)) ∨
        (∃ gs, gs.length = 8 ∧ (∀ g ∈ gs, g < 65536) ∧ specReservedV6 gs ∧
          a = ⟨inetNtop6 gs⟩)) →
      (assertSafeUrl dns cache url).1.isSome = true) := by
  have key : hostDecision dns (strToLower url.hostname) = false →
      (assertSafeUrl dns cache url).1.isSome = true := by
    intro hd
    simp only [assertSafeUrl]
    split
    · rfl
    · split
      · rfl
      · exact assertPublicHostname_isSome_of_false dns cache url.hostname hsound hd
  refine ⟨?_, ?_, ?_, ?_, ?_, ?_⟩
  · intro ha
    have hm : ¬ url.protocol ∈ ALLOWED_PROTOCOLS := by simpa using ha
    simp [assertSafeUrl, hm]
  · intro hcred
    simp only [assertSafeUrl]
    split
    · rfl
    · split
      · rfl
      · next h2 =>
        exfalso
        simp at h2
        rcases hcred with h1 | h1
        · exact h1 h2.1
        · exact h1 h2.2
  · intro hbl
    apply key
    rw [hlow]
    unfold hostDecision
    simp [hbl]
  · intro hip hres
    apply key
    rw [hlow]
    have hpriv : isPrivateIp url.hostname = true :=
      isPrivateIp_v4_reserved url.hostname hip hres
    have hchars := isIPv4Chars_char_class url.hostname.data hip
    have hstrip : stripPercent url.hostname.data = url.hostname.data := by
      apply stripPercent_eq_self
      intro c hc
      rcases hchars c hc with h | h
      · intro he
        rw [he] at h
        exact absurd h (by decide)
      · rw [h]
        decide
    have hil : isIpLiteral url.hostname = true := by
      unfold isIpLiteral
      rw [hstrip]
      have hd : ((⟨url.hostname.data⟩ : String).data) = url.hostname.data := rfl
      simp [netIsIP, hd, hip]
    unfold hostDecision
    by_cases hbl : isBlockedHostname url.hostname = true
    · simp [hbl]
    · rw [Bool.not_eq_true] at hbl
      simp [hbl, hil, hpriv]
  · intro hbrk hdns
    apply key
    rw [hlow]
    have hil : isIpLiteral url.hostname = false := isIpLiteral_bracket url.hostname hbrk
    unfold hostDecision
    by_cases hbl : isBlockedHostname url.hostname = true
    · simp [hbl]
    · rw [Bool.not_eq_true] at hbl
      simp [hbl, hil, hdns]
  · rintro hnl ⟨a, ha, hcase⟩
    apply key
    rw [hlow]
    have hpa : isPrivateIp a = true := by
      rcases hcase with ⟨h4a, hres4⟩ | ⟨gs, h8, hbnd, hres6, rfl⟩
      · exact isPrivateIp_v4_reserved a h4a hres4
      · exact reservedV6_canonical_flagged gs h8 hbnd hres6
    unfold hostDecision
    by_cases hbl : isBlockedHostname url.hostname = true
    · simp [hbl]
    · rw [Bool.not_eq_true] at hbl
      by_cases hemp : (dns url.hostname).isEmpty = true
      · simp [hbl, hnl, hemp]
      · rw [Bool.not_eq_true] at hemp
        have hall : (dns url.hostname).all (fun addr => !isPrivateIp addr) = false := by
          rw [List.all_eq_false]
          exact ⟨a, ha, by simp [hpa]⟩
        simp [hbl, hnl, hemp, hall]

/-- The C5 theorem applied at concrete inputs: a hostname resolving to
the private 10.0.0.1, a hostname resolving to the canonical reserved
IPv6 address fc00::1, and the bracketed literal host produced by
parsing http://[2001:0db8::1]/ are all rejected from the empty
(process-start) cache. -/
theorem claim_C5_ssrf_guard_witness :
    CacheSound (fun h => if h == "v4.example" then ["10.0.0.1"] else ["fc00::1"]) [] ∧
    "fc00::1" = (⟨inetNtop6 [0xfc00, 0, 0, 0, 0, 0, 0, 1]⟩ : String) ∧
    (assertSafeUrl (fun h => if h == "v4.example" then ["10.0.0.1"] else ["fc00::1"])
      [] ⟨"http:", "", "", "v4.example"⟩).1.isSome = true ∧
    (assertSafeUrl (fun h => if h == "v4.example" then ["10.0.0.1"] else ["fc00::1"])
      [] ⟨"http:", "", "", "v6.example"⟩).1.isSome = true ∧
    (assertSafeUrl (fun _ => []) [] ⟨"http:", "", "", "[2001:db8::1]"⟩).1.isSome = true := by
  have hsound1 : CacheSound
      (fun h => if h == "v4.example" then ["10.0.0.1"] else ["fc00::1"]) [] := by
    intro h b hb
    simp [List.lookup] at hb
  have hsound2 : CacheSound (fun _ => ([] : List String)) [] := by
    intro h b hb
    simp [List.lookup] at hb
  refine ⟨hsound1, by decide, ?_, ?_, ?_⟩
  · exact (claim_C5_ssrf_guard _ [] ⟨"http:", "", "", "v4.example"⟩ hsound1
      (by decide)).2.2.2.2.2 (by decide)
      ⟨"10.0.0.1", by decide, Or.inl ⟨by decide, by decide⟩⟩
  · exact (claim_C5_ssrf_guard _ [] ⟨"http:", "", "", "v6.example"⟩ hsound1
      (by decide)).2.2.2.2.2 (by decide)
      ⟨"fc00::1", by decide, Or.inr ⟨[0xfc00, 0, 0, 0, 0, 0, 0, 1],
        by decide, by decide, by decide, by decide⟩⟩
  · exact (claim_C5_ssrf_guard _ [] ⟨"http:", "", "", "[2001:db8::1]"⟩ hsound2
      (by decide)).2.2.2.2.1 (by decide) rfl

end TheFeed

namespace TheFeed

/-- **C6.**  Routing outcomes of POST /api/unfurl on the four SSRF
scenarios: a blocked literal (169.254.169.254) and localhost, and a
hostname resolving to a public and a private address, all make
`unfurlUrl` reject — but the route awaits `unfurlUrl` outside any
try/catch, so the rejection escapes the handler as a thrown error
(an HTTP 500 from the framework), not a 400 JSON response; and a fetch
that redirects from a public URL to http://10.0.0.1/ is caught inside
`unfurlUrl`'s generic try block and becomes a 200 fallback result, not
a 400. -/
theorem claim_C6_unfurl_status_codes :
    postUnfurl depsC6 [] (some "http://169.254.169.254/") =
      RouteResult.thrown "Host blocked" ∧
    postUnfurl depsC6 [] (some "http://localhost/") =
      RouteResult.thrown "Host blocked" ∧
    postUnfurl depsC6 [] (some "http://both.example/") =
      RouteResult.thrown "Private network targets are not allowed" ∧
    postUnfurl depsC6 [] (some "http://public.example/") =
      RouteResult.resultJson 200 (fallbackResult "http://public.example/" "article") := by
  decide

end TheFeed
